import Mathlib

/-!
# fat2minix: a shallow embedding of the FAT reader, the Minix builder and the translator

The C sources (`fat.c`, `minix.c`, `fat2minix.c`) are embedded function by function.

Conventions of the embedding
* memory buffers and bitmaps are maps `Nat → Nat` from a byte offset to a byte;
* a volume (`Dev`) is an open file descriptor: its bytes, its capacity and the current
  file position; `sysLseek`, `sysRead`, `sysWrite` give the POSIX calls on it;
* C integers are `Nat`/`Int`; conversions to a narrower type are written out
  (`toShort`, `toInt`, `% 256`, `% 65536`);
* `int` results keep the C encoding: `OK = 0`, `ERR1 = -1`;
* the data model is that of gcc on x86-64 Linux: `short` has 16 bits, `int` 32 bits,
  `long`, `off_t` and `size_t` 64 bits, plain `char` is signed, conversions to a signed type
  wrap, arithmetic in `int` wraps modulo 2^32 (`toInt`), arithmetic in `size_t` is modulo 2^64,
  and `>>` on a negative value is an arithmetic shift;
* the fields of the structures read from a volume hold values of their C types.
-/

namespace Fat2Minix

/-! ## Constants of `minix.h` -/

def OK : Int := 0
def ERR1 : Int := -1
def BLOCK_SIZE : Nat := 1024
def DIRENTRYSIZE : Nat := 30 + 2
/-- The value of `sizeof(struct minix_inode)`: 2+2+4+4+1+1+9*2 bytes. -/
def INODE_SIZE : Nat := 32
def TOTALBLOCKS : Nat := 64 * 1024 - 1

/-- Modulus of `size_t` arithmetic (`sizeof` has type `unsigned long`, 64 bits). -/
def SIZE_T_MOD : Nat := 2 ^ 64

/-- Conversion of an integer value to `short` (16 bits, two's complement). -/
def toShort (v : Int) : Int :=
  if (v % 65536).toNat < 32768 then v % 65536 else v % 65536 - 65536

/-- Conversion of an integer value to `int` (32 bits, two's complement). -/
def toInt (v : Int) : Int :=
  if (v % 4294967296).toNat < 2147483648 then v % 4294967296 else v % 4294967296 - 4294967296

/-- Conversion of an integer value to `long` (64 bits, two's complement), the type `off_t` of
a file offset. -/
def toLong (v : Int) : Int :=
  if (v % 18446744073709551616).toNat < 9223372036854775808 then v % 18446744073709551616
  else v % 18446744073709551616 - 18446744073709551616

/-- A byte-addressed memory area: buffer, bitmap or table. -/
abbrev Bytes := Nat → Nat

/-- Every cell of the area holds an `unsigned char`. -/
def ValidBytes (m : Bytes) : Prop := ∀ i, m i < 256

/-- Store of one byte: `m[i] = v`. -/
def setByte (m : Bytes) (i v : Nat) : Bytes := fun j => if j = i then v else m j

/-- Bit `i` of a bitmap, least significant bit of byte 0 first. -/
def bitSet (m : Bytes) (i : Nat) : Bool := (m (i / 8)).testBit (i % 8)

/-- The fields of `struct minix_super_block` (`linux/minix_fs.h`) that the program reads. -/
structure MinixSuperBlock where
  s_ninodes : Nat
  s_nzones : Nat
  s_imap_blocks : Nat
  s_zmap_blocks : Nat
  s_firstdatazone : Nat
  s_log_zone_size : Nat
  s_max_size : Nat
  s_magic : Nat
  s_state : Nat
deriving DecidableEq, Repr

/-- The 16-bit fields of the super block hold 16-bit values. -/
def MinixSuperBlock.Valid (sb : MinixSuperBlock) : Prop :=
  sb.s_ninodes < 65536 ∧ sb.s_nzones < 65536 ∧ sb.s_imap_blocks < 65536 ∧
    sb.s_zmap_blocks < 65536

/-- The macro `NUMITABLEBLOCKS`: `minixSB.s_ninodes*INODE_SIZE/BLOCK_SIZE`. -/
def NUMITABLEBLOCKS (sb : MinixSuperBlock) : Nat := sb.s_ninodes * INODE_SIZE / BLOCK_SIZE

/-- The macro `FIRSTZONE`: `(1+1+s_imap_blocks+s_zmap_blocks+NUMITABLEBLOCKS)`. -/
def FIRSTZONE (sb : MinixSuperBlock) : Nat :=
  1 + 1 + sb.s_imap_blocks + sb.s_zmap_blocks + NUMITABLEBLOCKS sb

/-! ## Bitmap scans of `findFreeInode` and `findFreeDataBlock` -/

/-- The loop `for(bytenum=0; bytenum<limit; bytenum++) if(map[bytenum] != 0xff) break;`.
The first argument counts the iterations left (`limit - bytenum`); the value is `bytenum`
when the loop is left. -/
def scanBytes (map : Bytes) : Nat → Nat → Nat
  | 0, bytenum => bytenum
  | n + 1, bytenum => if map bytenum != 0xff then bytenum else scanBytes map n (bytenum + 1)

/-- The loop `for(bitnum=0; bitnum<8; bitnum++) if((b & (1<<bitnum))==0) break;` on the byte
`b`; the first argument counts the iterations left. -/
def scanBits (b : Nat) : Nat → Nat → Nat
  | 0, bitnum => bitnum
  | n + 1, bitnum => if b &&& (1 <<< bitnum) == 0 then bitnum else scanBits b n (bitnum + 1)

/-- The function `findFreeInode` of `minix.c`: the returned `short` and the inode bitmap after
the call. -/
def findFreeInode (sb : MinixSuperBlock) (imap : Bytes) : Int × Bytes :=
  let bytenum := scanBytes imap (sb.s_ninodes / 8) 0
  let bitnum := scanBits (imap bytenum) 8 0
  let inodenum : Int := toShort ((bytenum * 8 + bitnum : Nat) : Int)
  if inodenum > (sb.s_ninodes : Int) then (ERR1, imap)
  else (inodenum, setByte imap bytenum ((imap bytenum ||| (1 <<< bitnum)) % 256))

/-- The expansion of `TOTALDATABLOCKS/8` in `findFreeDataBlock`: the macro body
`minixSB.s_nzones-FIRSTZONE` is not parenthesised, so the division applies to `FIRSTZONE`
alone; the subtraction is made in `size_t`. -/
def zoneScanLimit (sb : MinixSuperBlock) : Nat :=
  (sb.s_nzones + SIZE_T_MOD - FIRSTZONE sb / 8 % SIZE_T_MOD) % SIZE_T_MOD

/-- The function `findFreeDataBlock` of `minix.c`: the returned `int` and the zone bitmap
after the call. -/
def findFreeDataBlock (sb : MinixSuperBlock) (zmap : Bytes) : Int × Bytes :=
  let bytenum := scanBytes zmap (zoneScanLimit sb) 0
  let bitnum := scanBits (zmap bytenum) 8 0
  let blocknum : Int := toInt (((bytenum * 8 + bitnum + FIRSTZONE sb) % SIZE_T_MOD : Nat) : Int)
  if blocknum > (TOTALBLOCKS : Int) then (ERR1, zmap)
  else (blocknum, setByte zmap bytenum ((zmap bytenum ||| (1 <<< bitnum)) % 256))

/-! ## Volumes and the system calls made on them -/

/-- An open volume (`minixfd`, `fatfd`): the bytes it holds, its capacity in bytes and the
current file position. -/
structure Dev where
  data : Bytes
  size : Nat
  pos : Nat

/-- The call `lseek(fd, off, SEEK_SET)`: it fails with -1 on a negative offset and leaves the
position alone; otherwise it moves the position and returns the offset. -/
def sysLseek (d : Dev) (off : Int) : Dev × Int :=
  if off < 0 then (d, -1) else ({ d with pos := off.toNat }, off)

/-- The call `read(fd, buf, n)`: transfers the bytes available between the position and the
end of the volume, at most `n`, to the head of `buf`, advances the position and returns the
number of bytes transferred. -/
def sysRead (d : Dev) (buf : Bytes) (n : Nat) : Dev × Bytes × Nat :=
  ({ d with pos := d.pos + min n (d.size - d.pos) },
   fun j => if j < min n (d.size - d.pos) then d.data (d.pos + j) else buf j,
   min n (d.size - d.pos))

/-- The call `write(fd, buf, n)` on a volume of fixed capacity: transfers at most `n` bytes
from the head of `buf` to the position, up to the end of the volume, advances the position and
returns the number of bytes transferred. -/
def sysWrite (d : Dev) (buf : Bytes) (n : Nat) : Dev × Nat :=
  ({ d with
      data := fun a =>
        if d.pos ≤ a ∧ a < d.pos + min n (d.size - d.pos) then buf (a - d.pos) else d.data a,
      pos := d.pos + min n (d.size - d.pos) },
   min n (d.size - d.pos))

/-- A buffer that has not been written yet (a fresh local array). -/
def freshBuf : Bytes := fun _ => 0

/-- The little-endian 16-bit value held at byte offset `off`. -/
def getLE16 (b : Bytes) (off : Nat) : Nat := b off + 256 * b (off + 1)

/-- Element `j` of a `short` array laid over the buffer. -/
def shortAt (b : Bytes) (j : Nat) : Int := toShort (getLE16 b (2 * j) : Nat)

/-! ## Inodes and data blocks (`minix.c`) -/

/-- The fields of `struct minix_inode` (`linux/minix_fs.h`): `i_zone` holds the nine zone
numbers, 0 to 6 direct, 7 single indirect, 8 double indirect. -/
structure MinixInode where
  i_mode : Nat
  i_uid : Nat
  i_size : Nat
  i_time : Nat
  i_gid : Nat
  i_nlinks : Nat
  i_zone : List Nat
deriving DecidableEq, Repr

/-- The zone number `ino->i_zone[i]`. -/
def MinixInode.zone (ino : MinixInode) (i : Nat) : Nat := ino.i_zone.getD i 0

/-- The function `seekToDataBlock` of `minix.c`: the volume after the call and the return
code. An index of `7+BLOCK_SIZE/2` or more falls through both tests: nothing is sought and
`OK` is returned. -/
def seekToDataBlock (d : Dev) (i : Nat) (ino : MinixInode) : Dev × Int :=
  if i < 7 then
    match sysLseek d ((ino.zone i * BLOCK_SIZE : Nat) : Int) with
    | (d1, r) => if r = -1 then (d1, ERR1) else (d1, OK)
  else if i < 7 + BLOCK_SIZE / 2 then
    match sysLseek d ((ino.zone 7 * BLOCK_SIZE : Nat) : Int) with
    | (d1, r1) =>
      if r1 = -1 then (d1, ERR1)
      else
        match sysRead d1 freshBuf BLOCK_SIZE with
        | (d2, indexblock, n) =>
          if n ≠ BLOCK_SIZE then (d2, ERR1)
          else
            match sysLseek d2 (shortAt indexblock (i - 7) * (BLOCK_SIZE : Int)) with
            | (d3, r3) => if r3 = -1 then (d3, ERR1) else (d3, OK)
  else (d, OK)

/-- The function `getDataBlock` of `minix.c`: the volume, the return code and the buffer
`datablk` after the call. -/
def getDataBlock (d : Dev) (i : Nat) (ino : MinixInode) (datablk : Bytes) : Dev × Int × Bytes :=
  match seekToDataBlock d i ino with
  | (d1, r) =>
    if r = ERR1 then (d1, ERR1, datablk)
    else
      match sysRead d1 datablk BLOCK_SIZE with
      | (d2, buf, n) => if n ≠ BLOCK_SIZE then (d2, ERR1, buf) else (d2, OK, buf)

/-- The function `writeDataBlock` of `minix.c`; the offset `blockNum*BLOCK_SIZE` is computed
in `int`. -/
def writeDataBlock (d : Dev) (blockNum : Int) (datablk : Bytes) : Dev × Int :=
  match sysLseek d (toInt (blockNum * (BLOCK_SIZE : Int))) with
  | (d1, r) =>
    if r = -1 then (d1, ERR1)
    else
      match sysWrite d1 datablk BLOCK_SIZE with
      | (d2, n) => if n ≠ BLOCK_SIZE then (d2, ERR1) else (d2, OK)

/-- The function `saveDataBlock` of `minix.c`: the volume after the call and the return
code. -/
def saveDataBlock (d : Dev) (i : Nat) (ino : MinixInode) (datablk : Bytes) : Dev × Int :=
  match seekToDataBlock d i ino with
  | (d1, r) =>
    if r = ERR1 then (d1, ERR1)
    else
      match sysWrite d1 datablk BLOCK_SIZE with
      | (d2, n) => if n ≠ BLOCK_SIZE then (d2, ERR1) else (d2, OK)

/-! ## Directory tables (`minix.c`) -/

/-- The bytes of directory entry `e` of a table: a `struct dentry` of 32 bytes, the `short`
inode number followed by the 30 bytes of the name. -/
def entryAt (tbl : Bytes) (e : Nat) : List Nat := (List.range 32).map (fun t => tbl (32 * e + t))

/-- The number of blocks of a table of `size` bytes as computed at the head of
`getMinixDirTable` (and of `saveMinixDirTable`, see `numRequired`): `size/BLOCK_SIZE`, plus one
when `size%BLOCK_SIZE` is not zero. -/
def numBlocks (size : Nat) : Nat :=
  if size % BLOCK_SIZE ≠ 0 then 1 + size / BLOCK_SIZE else size / BLOCK_SIZE

/-- The assignment `inoPtr->i_zone[i] = v` of an `int` to the 16-bit zone field. -/
def MinixInode.setZone (ino : MinixInode) (i : Nat) (v : Int) : MinixInode :=
  { ino with i_zone := ino.i_zone.set i (v % 65536).toNat }

/-- The loop of `saveMinixDirTable` from block `i` on, `n` blocks being left: a block whose
zone is 0 gets the zone returned by `findFreeDataBlock`, then block `i` of the table is written
with `saveDataBlock` (its return code is not looked at). -/
def saveDirBlocks (sb : MinixSuperBlock) (tbl : Bytes) :
    Nat → Nat → Dev → Bytes → MinixInode → Dev × Bytes × MinixInode
  | 0, _, d, zmap, ino => (d, zmap, ino)
  | n + 1, i, d, zmap, ino =>
    if ino.zone i = 0 then
      match findFreeDataBlock sb zmap with
      | (blk, zmap1) =>
        match saveDataBlock d i (ino.setZone i blk) (fun j => tbl (i * BLOCK_SIZE + j)) with
        | (d1, _) => saveDirBlocks sb tbl n (i + 1) d1 zmap1 (ino.setZone i blk)
    else
      match saveDataBlock d i ino (fun j => tbl (i * BLOCK_SIZE + j)) with
      | (d1, _) => saveDirBlocks sb tbl n (i + 1) d1 zmap ino

/-- The value `numRequired` computed at the head of `saveMinixDirTable`: the `int`
`sizeTable` receives `numRecords * sizeof(struct dentry)`, a product made in `size_t`; the
division and the remainder are those of `int`. -/
def numRequired (numRecords : Nat) : Int :=
  if (toInt ((numRecords * DIRENTRYSIZE % SIZE_T_MOD : Nat) : Int)).tmod (BLOCK_SIZE : Nat) ≠ 0
  then 1 + (toInt ((numRecords * DIRENTRYSIZE % SIZE_T_MOD : Nat) : Int)).tdiv (BLOCK_SIZE : Nat)
  else (toInt ((numRecords * DIRENTRYSIZE % SIZE_T_MOD : Nat) : Int)).tdiv (BLOCK_SIZE : Nat)

/-- The function `saveMinixDirTable` of `minix.c`: the volume, the zone bitmap and the inode
after the call. More than 7 blocks are refused with a message and nothing is written. -/
def saveMinixDirTable (sb : MinixSuperBlock) (d : Dev) (zmap : Bytes) (ino : MinixInode)
    (tbl : Bytes) (numRecords : Nat) : Dev × Bytes × MinixInode :=
  if numRequired numRecords > 7 then (d, zmap, ino)
  else saveDirBlocks sb tbl (numRequired numRecords).toNat 0 d zmap ino

/-- The loop of `getMinixDirTable` from record `i` on, `n` records being left: every 32nd
record a block is loaded with `getDataBlock` into `datablock`; on `ERR1` the table is freed and
the loop is left; otherwise record `i` is copied from the block into the table. -/
def getDirRecords (ino : MinixInode) : Nat → Nat → Dev → Bytes → Bytes → Dev × Option Bytes
  | 0, _, d, _, tbl => (d, some tbl)
  | n + 1, i, d, datablock, tbl =>
    if i % (BLOCK_SIZE / DIRENTRYSIZE) = 0 then
      match getDataBlock d (i / (BLOCK_SIZE / DIRENTRYSIZE)) ino datablock with
      | (d1, r, blk) =>
        if r = ERR1 then (d1, none)
        else
          getDirRecords ino n (i + 1) d1 blk
            (fun a => if DIRENTRYSIZE * i ≤ a ∧ a < DIRENTRYSIZE * i + DIRENTRYSIZE
              then blk (i % (BLOCK_SIZE / DIRENTRYSIZE) * DIRENTRYSIZE + (a - DIRENTRYSIZE * i))
              else tbl a)
    else
      getDirRecords ino n (i + 1) d datablock
        (fun a => if DIRENTRYSIZE * i ≤ a ∧ a < DIRENTRYSIZE * i + DIRENTRYSIZE
          then datablock (i % (BLOCK_SIZE / DIRENTRYSIZE) * DIRENTRYSIZE + (a - DIRENTRYSIZE * i))
          else tbl a)

/-- The function `getMinixDirTable` of `minix.c`: the volume after the call, the table
(`none` for `NULL`) and the value stored in `*numRecords`. The table starts as 7 zeroed
blocks. -/
def getMinixDirTable (d : Dev) (ino : MinixInode) : Dev × Option Bytes × Nat :=
  match getDirRecords ino (ino.i_size / DIRENTRYSIZE) 0 d freshBuf (fun _ => 0) with
  | (d1, tbl) => (d1, tbl, ino.i_size / DIRENTRYSIZE)

/-- The number of zones marked free in the zone bitmap among the data zones of the volume. -/
def freeZones (sb : MinixSuperBlock) (zmap : Bytes) : Nat :=
  ((List.range (sb.s_nzones - FIRSTZONE sb)).filter (fun i => !bitSet zmap i)).length

/-- The number of blocks among the first `r` of the inode that have no zone yet. -/
def unallocated (ino : MinixInode) (r : Nat) : Nat :=
  ((List.range r).filter (fun j => ino.zone j == 0)).length

/-! ## Inodes on the volume (`minix.c`) -/

/-- Byte `k` of the little-endian image of `v`. -/
def leByte (v k : Nat) : Nat := v / 256 ^ k % 256

/-- The little-endian 32-bit value held at byte offset `off`. -/
def getLE32 (b : Bytes) (off : Nat) : Nat :=
  b off + 256 * b (off + 1) + 65536 * b (off + 2) + 16777216 * b (off + 3)

/-- The 32 bytes of a `struct minix_inode` in memory: `i_mode` (2), `i_uid` (2), `i_size` (4),
`i_time` (4), `i_gid` (1), `i_nlinks` (1), `i_zone[9]` (2 each), little endian. -/
def encodeInode (ino : MinixInode) : Bytes := fun a =>
  if a < 2 then leByte ino.i_mode a
  else if a < 4 then leByte ino.i_uid (a - 2)
  else if a < 8 then leByte ino.i_size (a - 4)
  else if a < 12 then leByte ino.i_time (a - 8)
  else if a = 12 then leByte ino.i_gid 0
  else if a = 13 then leByte ino.i_nlinks 0
  else if a < 32 then leByte (ino.zone ((a - 14) / 2)) ((a - 14) % 2)
  else 0

/-- The `struct minix_inode` held by 32 bytes of memory. -/
def decodeInode (b : Bytes) : MinixInode :=
  { i_mode := getLE16 b 0, i_uid := getLE16 b 2, i_size := getLE32 b 4, i_time := getLE32 b 8,
    i_gid := b 12, i_nlinks := b 13,
    i_zone := (List.range 9).map (fun j => getLE16 b (14 + 2 * j)) }

/-- The contents given to a local `struct minix_inode` that has not been assigned (they are
indeterminate in C; they are only read after a failed `readInode`). -/
def uninitInode : MinixInode := decodeInode freshBuf

/-- The function `seekToInode` of `minix.c`. The offset is `start+((ino_num-1)*INODE_SIZE)`
with `start = (2+s_imap_blocks+s_zmap_blocks)*BLOCK_SIZE`, taken as the signed file offset it
denotes. -/
def seekToInode (sb : MinixSuperBlock) (d : Dev) (ino_num : Int) : Dev × Int :=
  match sysLseek d ((((2 + sb.s_imap_blocks + sb.s_zmap_blocks) * BLOCK_SIZE : Nat) : Int)
      + (ino_num - 1) * (INODE_SIZE : Int)) with
  | (d1, r) => if r = -1 then (d1, ERR1) else (d1, OK)

/-- The function `readInode` of `minix.c`: the volume, the return code and the inode at
`*ino` after the call (`ino` gives its contents before the call). -/
def readInode (sb : MinixSuperBlock) (d : Dev) (ino_num : Int) (ino : MinixInode) :
    Dev × Int × MinixInode :=
  match seekToInode sb d ino_num with
  | (d1, r) =>
    if r = ERR1 then (d1, ERR1, ino)
    else
      match sysRead d1 (encodeInode ino) INODE_SIZE with
      | (d2, buf, n) =>
        if n ≠ INODE_SIZE then (d2, ERR1, decodeInode buf) else (d2, OK, decodeInode buf)

/-- The function `saveInode` of `minix.c`. -/
def saveInode (sb : MinixSuperBlock) (d : Dev) (ino_num : Int) (ino : MinixInode) : Dev × Int :=
  match seekToInode sb d ino_num with
  | (d1, r) =>
    if r = ERR1 then (d1, ERR1)
    else
      match sysWrite d1 (encodeInode ino) INODE_SIZE with
      | (d2, n) => if n ≠ INODE_SIZE then (d2, ERR1) else (d2, OK)

/-! ## Path resolution on the Minix volume (`minix.c`) -/

/-- The characters of a C string literal, without the terminating NUL. -/
def str (s : String) : List Nat := s.toList.map Char.toNat

/-- The test `strncmp(s, t, n) == 0`, where `s` is a C string given by its characters (the
terminating NUL is implied) and `t` is the memory at the second pointer: at most `n`
characters are compared, and the comparison ends after a NUL found in both. -/
def strncmpZero : List Nat → Bytes → Nat → Bool
  | _, _, 0 => true
  | [], t, _ + 1 => t 0 == 0
  | c :: cs, t, n + 1 => t 0 == c && strncmpZero cs (fun j => t (j + 1)) n

/-- The name copied into `subDirName`: the characters of the path before the first `/`. -/
def segName (path : List Nat) : List Nat := path.takeWhile (fun c => c != 47)

/-- The path left after the name was copied and one `/`, if present, was skipped. -/
def segRest (path : List Nat) : List Nat := (path.dropWhile (fun c => c != 47)).drop 1

/-- The inode number `tbl[ix].ino` of a directory entry, a `short`. -/
def dentIno (tbl : Bytes) (ix : Nat) : Int := toShort (getLE16 tbl (DIRENTRYSIZE * ix) : Nat)

/-- The search loop of `scanMinixSubDirectories`, `n` entries being left from `ix` on:
the index of the first entry for which
`strncmp(subDirName, tbl[ix].name, strlen(subDirName)) == 0`, or the index past the last entry
looked at. -/
def findEntry (seg : List Nat) (tbl : Bytes) : Nat → Nat → Nat
  | 0, ix => ix
  | n + 1, ix =>
    if strncmpZero seg (fun j => tbl (DIRENTRYSIZE * ix + 2 + j)) seg.length then ix
    else findEntry seg tbl n (ix + 1)

/-- The function `scanMinixSubDirectories` of `minix.c`. Arguments: fuel for the recursion
(one unit per path segment), the volume, `path`, `tbl` (`none` for `NULL`), `numrecords`,
the inode at `*inoPtr`, `parentInoNum` and the value at `*retParentInoNum`. Result: the volume,
the return code, the inode at `*inoPtr` and the value at `*retParentInoNum`; `none` stands for
a run that has no defined result (a `NULL` table is indexed, or the fuel is used up).
On the recursive branch `getMinixDirTable` stores the record count of the next table into
`numrecords`, and the closing test `ix == numrecords` reads that value. -/
def scanMinixSubDirectories (sb : MinixSuperBlock) :
    Nat → Dev → List Nat → Option Bytes → Nat → MinixInode → Int → Int →
      Option (Dev × Int × MinixInode × Int)
  | 0, _, _, _, _, _, _, _ => none
  | fuel + 1, d, path, tbl, numrecords, inoOut, parentInoNum, retParent =>
    if numrecords = 0 then some (d, ERR1, inoOut, retParent)
    else
      match tbl with
      | none => none
      | some t =>
        if findEntry (segName path) t numrecords 0 < numrecords then
          match readInode sb d (dentIno t (findEntry (segName path) t numrecords 0))
              uninitInode with
          | (d1, _, ino) =>
            if segRest path = [] then
              some (d1, dentIno t (findEntry (segName path) t numrecords 0), ino, parentInoNum)
            else
              match getMinixDirTable d1 ino with
              | (d2, nextTbl, numrecords2) =>
                match scanMinixSubDirectories sb fuel d2 (segRest path) nextTbl numrecords2
                    inoOut (dentIno t (findEntry (segName path) t numrecords 0)) retParent with
                | none => none
                | some (d3, retcd, inoOut2, retParent2) =>
                  if findEntry (segName path) t numrecords 0 = numrecords2 then
                    some (d3, ERR1, inoOut2, retParent2)
                  else some (d3, retcd, inoOut2, retParent2)
        else some (d, ERR1, inoOut, retParent)

/-- The function `findInodeFromPath` of `minix.c`: the volume, the returned inode number
(or `ERR1`), the inode at `*inoPtr` and the value at `*parentInodeNum`. -/
def findInodeFromPath (sb : MinixSuperBlock) (d : Dev) (path : List Nat) (inoOut : MinixInode)
    (parentOut : Int) : Option (Dev × Int × MinixInode × Int) :=
  match readInode sb d 1 uninitInode with
  | (d1, _, ino) =>
    if path = str "/" then some (d1, 1, ino, 1)
    else
      match getMinixDirTable d1 ino with
      | (d2, rootdir, numrecords) =>
        scanMinixSubDirectories sb ((if path.head? = some 47 then path.drop 1 else path).length + 1)
          d2 (if path.head? = some 47 then path.drop 1 else path) rootdir numrecords inoOut 1
          parentOut

/-- A memory image that holds the given byte lists at the given offsets and zero
elsewhere. -/
def place (segs : List (Nat × List Nat)) : Bytes := fun a =>
  match segs.find? (fun s => decide (s.1 ≤ a ∧ a < s.1 + s.2.length)) with
  | some s => s.2.getD (a - s.1) 0
  | none => 0

/-- The 32 bytes of a directory entry: inode number and name. -/
def dentryBytes (ino : Nat) (name : String) : List Nat :=
  [leByte ino 0, leByte ino 1] ++ str name ++ List.replicate (30 - (str name).length) 0

/-! ## The FAT volume (`fatDefn.h`, `fat.c`) -/

/-- The fields of `struct fat_boot_sector` that the program reads; `sector_size` and
`dir_entries` are the 16-bit values held by the two-byte arrays of the same name. -/
structure FatBootSector where
  sector_size : Nat
  cluster_size : Nat
  reserved : Nat
  fats : Nat
  dir_entries : Nat
  sectors : Nat
  fat_length : Nat
deriving DecidableEq, Repr

/-- The macro `SECTOR_SIZE`: `(*(short *)fbs.sector_size)`. -/
def SECTOR_SIZE (fbs : FatBootSector) : Int := toShort (fbs.sector_size : Nat)

/-- The macro `CLUSTER_SIZE`: `(SECTOR_SIZE*fbs.cluster_size)`, an `int`; the product of a
`short` and a `__u8` does not leave the range of `int`. -/
def CLUSTER_SIZE (fbs : FatBootSector) : Int := SECTOR_SIZE fbs * (fbs.cluster_size : Nat)

/-- The macro `ROOTDIR_POS`: `(SECTOR_SIZE*(1+fbs.fats*fbs.fat_length))`, a product made in
`int` (the inner sum of a `__u8` times a `__u16` does not leave the range of `int`). -/
def ROOTDIR_POS (fbs : FatBootSector) : Int :=
  toInt (SECTOR_SIZE fbs * ((1 + fbs.fats * fbs.fat_length : Nat) : Int))

/-- The macro `DATA_POS`:
`(ROOTDIR_POS+((*(short *)fbs.dir_entries)*sizeof(struct msdos_dir_entry)))`: `sizeof` makes
both the product and the sum `size_t` operations; the value is that of the `size_t` result. -/
def DATA_POS (fbs : FatBootSector) : Int :=
  (ROOTDIR_POS fbs + toShort (fbs.dir_entries : Nat) * 32) % 18446744073709551616

/-- The file offset sought by `readCluster` and `writeCluster` for a cluster number:
`ROOTDIR_POS` for cluster 0, else `DATA_POS + (clusterNum-2)*CLUSTER_SIZE`, where the product
is made in `int`, the sum in `size_t`, and the result is passed as an `off_t`. -/
def clusterPos (fbs : FatBootSector) (clusterNum : Int) : Int :=
  if clusterNum = 0 then ROOTDIR_POS fbs
  else toLong (DATA_POS fbs + toInt ((clusterNum - 2) * CLUSTER_SIZE fbs))

/-- The function `readCluster` of `fat.c`: the first byte of the buffer is cleared, the
position is sought (a failure is only reported: the read is then made at the position the
volume had) and `CLUSTER_SIZE` bytes are read. -/
def readCluster (fbs : FatBootSector) (d : Dev) (clusterNum : Int) (buffer : Bytes) :
    Dev × Bytes :=
  match sysRead (sysLseek d (clusterPos fbs clusterNum)).1 (setByte buffer 0 0)
      (CLUSTER_SIZE fbs).toNat with
  | (d1, buf, _) => (d1, buf)

/-- The function `writeCluster` of `fat.c`. -/
def writeCluster (fbs : FatBootSector) (d : Dev) (clusterNum : Int) (buffer : Bytes) : Dev :=
  (sysWrite (sysLseek d (clusterPos fbs clusterNum)).1 buffer (CLUSTER_SIZE fbs).toNat).1

/-- The attribute byte `tbl[ix].attr` of a FAT directory entry. -/
def fatAttr (tbl : Bytes) (ix : Nat) : Nat := tbl (32 * ix + 11)

/-- The starting cluster `tbl[ix].start` of a FAT directory entry. -/
def fatStart (tbl : Bytes) (ix : Nat) : Nat := getLE16 tbl (32 * ix + 26)

/-- The file size `tbl[ix].size` of a FAT directory entry. -/
def fatSize (tbl : Bytes) (ix : Nat) : Nat := getLE32 tbl (32 * ix + 28)

def ATTR_VOLUME : Nat := 8
def ATTR_DIR : Nat := 16

/-- The structure `FATDIR` of `fatDefn.h`. -/
structure FatDir where
  name : List Nat
  clusterNum : Nat
  parentCluster : Nat
  table : Bytes
  numEntries : Int
  size : Int

/-- The local `numSubDirEntries` of `scanSubDirectories`:
`CLUSTER_SIZE/sizeof(struct msdos_dir_entry)`. -/
def numSubDirEntries (fbs : FatBootSector) : Nat := (CLUSTER_SIZE fbs / 32).toNat

/-- The search loop of `scanSubDirectories`, `n` entries being left from `ix` on: the index of
the first entry with `(tbl[ix].attr & ATTR_DIR)` set and
`strncmp(subDirName, tbl[ix].name, strlen(subDirName)) == 0`, or the index past the last entry
looked at. -/
def findFatEntry (seg : List Nat) (tbl : Bytes) : Nat → Nat → Nat
  | 0, ix => ix
  | n + 1, ix =>
    if fatAttr tbl ix &&& ATTR_DIR ≠ 0 ∧
        strncmpZero seg (fun j => tbl (32 * ix + j)) seg.length = true then ix
    else findFatEntry seg tbl n (ix + 1)

/-- The function `scanSubDirectories` of `fat.c`. Arguments: fuel for the recursion (one unit
per path segment), the boot sector, the volume, `path`, `tbl`, the handle at `*dirTablePtr` and
`parentCluster`. Result: the volume, the return code and the handle; `none` when the fuel is
used up. -/
def scanSubDirectories (fbs : FatBootSector) :
    Nat → Dev → List Nat → Bytes → FatDir → Nat → Option (Dev × Int × FatDir)
  | 0, _, _, _, _, _ => none
  | fuel + 1, d, path, tbl, dir, parentCluster =>
    if findFatEntry (segName path) tbl (numSubDirEntries fbs) 0
        < (numSubDirEntries fbs) then
      if segRest path = [] then
        match readCluster fbs d
            (fatStart tbl (findFatEntry (segName path) tbl (numSubDirEntries fbs) 0) : Nat)
            dir.table with
        | (d1, buf) =>
          some (d1, OK,
            { name := segRest path,
              clusterNum :=
                fatStart tbl (findFatEntry (segName path) tbl (numSubDirEntries fbs) 0),
              parentCluster := parentCluster, table := buf,
              numEntries := CLUSTER_SIZE fbs / 32, size := CLUSTER_SIZE fbs })
      else
        match readCluster fbs d
            (fatStart tbl (findFatEntry (segName path) tbl (numSubDirEntries fbs) 0) : Nat)
            freshBuf with
        | (d1, subDirTable) =>
          scanSubDirectories fbs fuel d1 (segRest path) subDirTable dir
            (fatStart tbl (findFatEntry (segName path) tbl (numSubDirEntries fbs) 0))
    else some (d, ERR1, dir)

/-- The function `getFatDirTable` of `fat.c`: the root directory is read with
`readCluster(0, ...)`; the path `/` yields that table, any other path is resolved by
`scanSubDirectories(path+1, ...)`. -/
def getFatDirTable (fbs : FatBootSector) (d : Dev) (path : List Nat) (dir : FatDir) :
    Option (Dev × Int × FatDir) :=
  match readCluster fbs d 0 freshBuf with
  | (d1, rootdir) =>
    if path = str "/" then
      some (d1, OK,
        { dir with
          clusterNum := 0, parentCluster := 0, size := CLUSTER_SIZE fbs,
          numEntries := CLUSTER_SIZE fbs / 32,
          table := fun j => if j < (CLUSTER_SIZE fbs).toNat then rootdir j else dir.table j })
    else scanSubDirectories fbs ((path.drop 1).length + 1) d1 (path.drop 1) rootdir dir 0

/-- The function `openFatDirectory` of `fat.c`: the handle (`none` for `NULL`), with a table
buffer that has not been written before the search. -/
def openFatDirectory (fbs : FatBootSector) (d : Dev) (dirname : List Nat) :
    Option (Dev × Option FatDir) :=
  match getFatDirTable fbs d dirname
      { name := [], clusterNum := 0, parentCluster := 0, table := freshBuf, numEntries := 0,
        size := 0 } with
  | none => none
  | some (d1, r, dir) => if r = OK then some (d1, some { dir with name := dirname })
                         else some (d1, none)

/-- The cluster-chain loop of `processSubDirectory`: the body is run on `clusterNum`; the loop
ends when `fatPtr[clusterNum] == fatPtr[1]` and goes on with `fatPtr[clusterNum]` otherwise.
The first argument bounds the number of iterations; `none` when it is used up. -/
def chainLoop {σ : Type} (fatPtr : Nat → Nat) (body : σ → Nat → σ) : Nat → Nat → σ → Option σ
  | 0, _, _ => none
  | fuel + 1, clusterNum, s =>
    if fatPtr clusterNum = fatPtr 1 then some (body s clusterNum)
    else chainLoop fatPtr body fuel (fatPtr clusterNum) (body s clusterNum)

/-- The clusters `c0, c1, ...` form a chain of the FAT: each link leads to the next cluster,
and the link of the last cluster is the first one equal to the end-of-chain value
`fatPtr[1]`. -/
def IsChain (fatPtr : Nat → Nat) : List Nat → Prop
  | [] => False
  | [c] => fatPtr c = fatPtr 1
  | c :: c2 :: rest => fatPtr c ≠ fatPtr 1 ∧ fatPtr c = c2 ∧ IsChain fatPtr (c2 :: rest)

/-! ## Names of FAT entries (`fat.c`) -/

/-- The C string held by a character array: its characters up to the first NUL. -/
def cstr (bytes : List Nat) : List Nat := bytes.takeWhile (fun c => c != 0)

/-- The function `removeTrailingSpace` of `fat.c` on a C string given by its characters. -/
def removeTrailingSpace (s : List Nat) : List Nat := (s.reverse.dropWhile (fun c => c == 32)).reverse

/-- The function `tolower` on a character of the C locale. -/
def tolower (c : Nat) : Nat := if 65 ≤ c ∧ c ≤ 90 then c + 32 else c

/-- The function `getFatName` of `fat.c` on the directory entry that starts at `fatDir`: the
8 bytes of the name without trailing spaces, then, when the 3 bytes of the extension without
trailing spaces are not empty, a dot and the extension; upper case is turned to lower case. -/
def getFatName (fatDir : Bytes) : List Nat :=
  ((removeTrailingSpace (cstr ((List.range 8).map fatDir))) ++
    (if removeTrailingSpace (cstr ((List.range 3).map (fun j => fatDir (8 + j)))) ≠ []
     then 46 :: removeTrailingSpace (cstr ((List.range 3).map (fun j => fatDir (8 + j))))
     else [])).map tolower

/-! ## The translator (`fat2minix.c`) -/

/-- The state that the translator works on: the two open volumes and the two bitmaps of the
Minix volume held in memory. -/
structure World where
  fat : Dev
  mx : Dev
  imap : Bytes
  zmap : Bytes

/-- The function `openMinixDirectory` of `minix.c`: the volume after the call, the table
(`none` for `NULL`), `*numRecs`, `*inoNum`, `*parentInoNum` and `*inoPtr`; the outer `none`
stands for a run without defined result. -/
def openMinixDirectory (sb : MinixSuperBlock) (d : Dev) (dirPathName : List Nat) :
    Option (Dev × Option Bytes × Nat × Int × Int × MinixInode) :=
  match findInodeFromPath sb d dirPathName uninitInode 0 with
  | none => none
  | some (d1, inoNum, ino, parentInoNum) =>
    if inoNum = ERR1 then some (d1, none, 0, inoNum, parentInoNum, ino)
    else
      match getMinixDirTable d1 ino with
      | (d2, tbl, numRecs) => some (d2, tbl, numRecs, inoNum, parentInoNum, ino)

/-- The function `closeMinixDirectory` of `minix.c`: `i_size` is set from the record count,
the table is saved, then the inode is saved; the return codes are not looked at. -/
def closeMinixDirectory (sb : MinixSuperBlock) (d : Dev) (zmap : Bytes) (dirPtr : Bytes)
    (numRecs : Nat) (inoNum : Int) (ino : MinixInode) : Dev × Bytes × MinixInode :=
  match saveMinixDirTable sb d zmap
      { ino with i_size := (DIRENTRYSIZE * numRecs) % 4294967296 } dirPtr numRecs with
  | (d1, zmap1, ino1) => ((saveInode sb d1 inoNum ino1).1, zmap1, ino1)

/-- The function `createMinixDir` of `fat2minix.c`: its body prints the name and is
otherwise left to be completed; nothing is stored. -/
def createMinixDir (w : World) (minixDirTable : Bytes) (_slot : Nat) (_name : List Nat)
    (_fatDir : Bytes) : World × Bytes :=
  (w, minixDirTable)

/-- The function `createMinixFile` of `fat2minix.c`: its body computes the name, prints it and
is otherwise left to be completed; nothing is stored. -/
def createMinixFile (w : World) (minixDirTable : Bytes) (_slot : Nat) (_fatDir : Bytes) :
    World × Bytes :=
  (w, minixDirTable)

/-- The function `addContentsToMinix` of `fat2minix.c`: its body is empty. -/
def addContentsToMinix (w : World) (_fatDir : Bytes) (inoPtr : MinixInode) :
    World × MinixInode :=
  (w, inoPtr)

/-- The stores `minixDirTable[slot].ino = ino; strcpy(minixDirTable[slot].name, name)`. -/
def setDentry (tbl : Bytes) (slot : Nat) (ino : Int) (name : List Nat) : Bytes := fun a =>
  if a = DIRENTRYSIZE * slot then leByte (ino % 65536).toNat 0
  else if a = DIRENTRYSIZE * slot + 1 then leByte (ino % 65536).toNat 1
  else if DIRENTRYSIZE * slot + 2 ≤ a ∧ a < DIRENTRYSIZE * slot + 2 + name.length
    then name.getD (a - (DIRENTRYSIZE * slot + 2)) 0
  else if a = DIRENTRYSIZE * slot + 2 + name.length then 0
  else tbl a

/-- The state of the first loop of `copyDirEntries`: the world, the Minix directory table,
`numRecords` and the inode `ino` of the directory. -/
structure CopyState where
  w : World
  tbl : Bytes
  numRecords : Nat
  ino : MinixInode

/-- One pass of the first loop of `copyDirEntries` on the FAT entry that starts at `e`. -/
def copyEntry (inodeNum parentInodeNum : Int) (st : CopyState) (e : Bytes) : CopyState :=
  if e 11 = 0x0f then st
  else if e 0 = 0x00 then st
  else if e 0 = 0x05 then st
  else if e 0 = 0xE5 then st
  else if e 0 = 0x2E ∨ e 11 &&& ATTR_DIR ≠ 0 then
    if getFatName e = str "." then
      { w := st.w, tbl := setDentry st.tbl st.numRecords inodeNum (str "."),
        numRecords := st.numRecords + 1,
        ino := { st.ino with i_nlinks := (st.ino.i_nlinks + 1) % 256,
                             i_size := (st.ino.i_size + DIRENTRYSIZE) % 4294967296 } }
    else if getFatName e = str ".." then
      { w := st.w, tbl := setDentry st.tbl st.numRecords parentInodeNum (str ".."),
        numRecords := st.numRecords + 1,
        ino := { st.ino with i_nlinks := (st.ino.i_nlinks + 1) % 256,
                             i_size := (st.ino.i_size + DIRENTRYSIZE) % 4294967296 } }
    else
      { w := (createMinixDir st.w st.tbl st.numRecords (getFatName e) e).1,
        tbl := (createMinixDir st.w st.tbl st.numRecords (getFatName e) e).2,
        numRecords := st.numRecords + 1,
        ino := { st.ino with i_nlinks := (st.ino.i_nlinks + 1) % 256,
                             i_size := (st.ino.i_size + DIRENTRYSIZE) % 4294967296 } }
  else
    { w := (createMinixFile st.w st.tbl st.numRecords e).1,
      tbl := (createMinixFile st.w st.tbl st.numRecords e).2,
      numRecords := st.numRecords + 1,
      ino := { st.ino with i_size := (st.ino.i_size + DIRENTRYSIZE) % 4294967296 } }

/-- The first loop of `copyDirEntries` over the entries `0 .. numEntries-1` of the FAT table
`dirTbl`. -/
def copyEntries (inodeNum parentInodeNum : Int) (dirTbl : Bytes) (numEntries : Nat)
    (st : CopyState) : CopyState :=
  (List.range numEntries).foldl
    (fun st i => copyEntry inodeNum parentInodeNum st (fun j => dirTbl (32 * i + j))) st

/-- The test of the second loop of `copyDirEntries`: the entry is descended into. -/
def isSubDirEntry (e : Bytes) : Bool :=
  !(e 11 == 0x0f) && !(e 0 == 0x00) && !(e 0 == 0x05) && !(e 0 == 0xE5) && !(e 0 == 0x2E)
    && (e 11 &&& ATTR_DIR != 0)

/-- The function `copyDirEntries` of `fat2minix.c`, given the function to be called for
`processSubDirectory`: the Minix directory `name` is opened, the first loop fills its table,
`closeMinixDirectory` saves it, and the second loop descends into the sub-directories. `none`
stands for a run without defined result. -/
def copyDirEntriesWith (sb : MinixSuperBlock)
    (processSub : Bytes → List Nat → World → Option World)
    (name : List Nat) (dirTbl : Bytes) (numEntries : Nat) (w : World) : Option World :=
  match openMinixDirectory sb w.mx name with
  | none => none
  | some (mx1, none, _, _, _, _) => some { w with mx := mx1 }
  | some (mx1, some minixDirTable, numRecords, inodeNum, parentInodeNum, ino) =>
    match copyEntries inodeNum parentInodeNum dirTbl numEntries
        { w := { w with mx := mx1 }, tbl := minixDirTable, numRecords := numRecords,
          ino := ino } with
    | st =>
      match closeMinixDirectory sb st.w.mx st.w.zmap st.tbl st.numRecords inodeNum st.ino with
      | (mx2, zmap2, _) =>
        (List.range numEntries).foldl
          (fun ow i =>
            match ow with
            | none => none
            | some w1 =>
              if isSubDirEntry (fun j => dirTbl (32 * i + j)) then
                processSub (fun j => dirTbl (32 * i + j)) name w1
              else some w1)
          (some { st.w with mx := mx2, zmap := zmap2 })

/-- The local `toFATDataRegion` of `processSubDirectory`:
`(1 + fbs.fat_length*(fbs.fats)) * sectorSize + (maxRootEntries*sizeof(struct msdos_dir_entry))`:
the first product is made in `int`, the second product and the sum in `size_t`, and the result
is stored in an `int`. -/
def toFATDataRegion (fbs : FatBootSector) : Int :=
  toInt ((toInt (((1 + fbs.fat_length * fbs.fats : Nat) : Int) * SECTOR_SIZE fbs)
    + toShort (fbs.dir_entries : Nat) * 32) % 18446744073709551616)

/-- The offset sought by `processSubDirectory` for a cluster:
`(clusterNum-2)*clusterSize + toFATDataRegion`, computed in `int`. -/
def processSubDirectoryPos (fbs : FatBootSector) (clusterNum : Int) : Int :=
  toInt (toInt ((clusterNum - 2) * (SECTOR_SIZE fbs * (fbs.cluster_size : Nat)))
    + toFATDataRegion fbs)

/-- The offset sought by `copyFatDir` to read the root directory:
`sectorSize*(1+fbs.fats*fbs.fat_length)`, computed in `int`. -/
def copyFatDirRootPos (fbs : FatBootSector) : Int :=
  toInt (SECTOR_SIZE fbs * ((1 + fbs.fats * fbs.fat_length : Nat) : Int))

/-- The body of the cluster loop of `processSubDirectory` on one cluster: seek (the result of
`lseek` is not looked at), read the cluster into `subDir`, and call `copyDirEntries` when the
read returned more than 0. The state is the world and the array `subDir`. -/
def subDirCluster (fbs : FatBootSector)
    (copyDir : List Nat → Bytes → Nat → World → Option World) (minixName : List Nat)
    (s : Option (World × Bytes)) (clusterNum : Nat) : Option (World × Bytes) :=
  match s with
  | none => none
  | some (w, subDir) =>
    match sysRead (sysLseek w.fat (processSubDirectoryPos fbs (clusterNum : Int))).1
        subDir (SECTOR_SIZE fbs * (fbs.cluster_size : Nat)).toNat with
    | (fat1, buf, n) =>
      if n > 0 then
        match copyDir minixName buf (SECTOR_SIZE fbs * (fbs.cluster_size : Nat) / 32).toNat
            { w with fat := fat1 } with
        | none => none
        | some w1 => some (w1, buf)
      else some ({ w with fat := fat1 }, buf)

/-- The function `processSubDirectory` of `fat2minix.c`, given the function to be called for
`copyDirEntries`. A 16-bit cluster number that has not met the end of the chain after 65536
steps never will: the loop then does not end (`none`). -/
def processSubDirectoryWith (fbs : FatBootSector) (fatPtr : Nat → Nat)
    (copyDir : List Nat → Bytes → Nat → World → Option World)
    (de : Bytes) (curMinixPath : List Nat) (w : World) : Option World :=
  match chainLoop fatPtr
      (subDirCluster fbs copyDir
        (if curMinixPath = str "/" then 47 :: getFatName de
         else curMinixPath ++ 47 :: getFatName de))
      65536 (fatStart de 0) (some (w, freshBuf)) with
  | some (some (w1, _)) => some w1
  | _ => none

/-- The function `copyDirEntries` of `fat2minix.c`; the first argument bounds the depth of the
recursion through `processSubDirectory` (`none` when it is used up). -/
def copyDirEntries (sb : MinixSuperBlock) (fbs : FatBootSector) (fatPtr : Nat → Nat) :
    Nat → List Nat → Bytes → Nat → World → Option World
  | 0 => fun _ _ _ _ => none
  | fuel + 1 =>
    copyDirEntriesWith sb
      (processSubDirectoryWith fbs fatPtr (copyDirEntries sb fbs fatPtr fuel))

/-- The function `processSubDirectory` of `fat2minix.c`. -/
def processSubDirectory (sb : MinixSuperBlock) (fbs : FatBootSector) (fatPtr : Nat → Nat)
    (fuel : Nat) : Bytes → List Nat → World → Option World :=
  processSubDirectoryWith fbs fatPtr (copyDirEntries sb fbs fatPtr fuel)

/-- The function `copyFatDir` of `fat2minix.c`: the root directory is read at
`sectorSize*(1+fbs.fats*fbs.fat_length)` and handed to `copyDirEntries` with the path `/`. -/
def copyFatDir (sb : MinixSuperBlock) (fbs : FatBootSector) (fatPtr : Nat → Nat) (fuel : Nat)
    (w : World) : Option World :=
  match sysRead (sysLseek w.fat (copyFatDirRootPos fbs)).1
      freshBuf (32 * toShort (fbs.dir_entries : Nat)).toNat with
  | (fat1, rootdir, _) =>
    copyDirEntries sb fbs fatPtr fuel (str "/") rootdir (toShort (fbs.dir_entries : Nat)).toNat
      { w with fat := fat1 }

/-- A volume of 64 Mi bytes whose only non-zero byte is the high byte of entry 0 of block
600: read as an index block, block 600 holds the block number 0x8000 = 32768 at position 0. -/
def highIndexDev : Dev :=
  { data := fun a => if a = 600 * 1024 + 1 then 128 else 0, size := 65536 * 1024, pos := 0 }

/-- An inode whose single-indirect zone is block 600 and whose direct zones are unset. -/
def indirectIno : MinixInode :=
  { i_mode := 0o100644, i_uid := 0, i_size := 8 * 1024, i_time := 0, i_gid := 0, i_nlinks := 1,
    i_zone := [0, 0, 0, 0, 0, 0, 0, 600, 0] }

/-- The bitmap `m` has its lowest-numbered clear bit at index `r`. -/
def LowestClear (m : Bytes) (r : Nat) : Prop := bitSet m r = false ∧ ∀ j < r, bitSet m j = true

/-- A super block with the given inode and zone counts and one block for each bitmap. -/
def smallSB (ninodes nzones : Nat) : MinixSuperBlock :=
  { s_ninodes := ninodes, s_nzones := nzones, s_imap_blocks := 1, s_zmap_blocks := 1,
    s_firstdatazone := 3 + (ninodes + 31) / 32, s_log_zone_size := 0, s_max_size := 268966912,
    s_magic := 0x137f, s_state := 1 }

/-- A super block announcing 40000 inodes (five blocks of inode bitmap). -/
def bigInodeSB : MinixSuperBlock :=
  { smallSB 40000 65535 with s_imap_blocks := 5, s_zmap_blocks := 8, s_firstdatazone := 1265 }

/-- An inode bitmap whose first 32768 bits are set and whose other bits are clear. -/
def halfFullImap : Bytes := fun i => if i < 4096 then 255 else 0

/-- An inode bitmap with inodes 0 and 1 in use and every other inode free. -/
def freshImap : Bytes := fun i => if i = 0 then 3 else 0

/-- A zone bitmap block in which every bit is set: no zone is free. -/
def fullZmap : Bytes := fun _ => 255

/-- A volume of 100 KiB, all zero, positioned at its start. -/
def blankDev : Dev := { data := fun _ => 0, size := 100 * 1024, pos := 0 }

/-- A zone bitmap in which only the first data zone is in use. -/
def oneUsedZmap : Bytes := fun i => if i = 0 then 1 else 0

/-- An inode none of whose zones is allocated. -/
def emptyIno : MinixInode :=
  { i_mode := 0o40755, i_uid := 0, i_size := 0, i_time := 0, i_gid := 0, i_nlinks := 0,
    i_zone := [0, 0, 0, 0, 0, 0, 0, 0, 0] }

/-- A directory table buffer with a recognisable byte pattern. -/
def patternTbl : Bytes := fun a => a % 251

/-- The 32 bytes of an inode as they lie in the inode table. -/
def inodeBytes (ino : MinixInode) : List Nat := (List.range 32).map (encodeInode ino)

/-- A directory inode of the given size and link count whose table is in block `zone0`. -/
def dirIno (size nlinks zone0 : Nat) : MinixInode :=
  { i_mode := 0o40755, i_uid := 0, i_size := size, i_time := 0, i_gid := 0, i_nlinks := nlinks,
    i_zone := [zone0, 0, 0, 0, 0, 0, 0, 0, 0] }

/-- A Minix volume for `smallSB 32 100` (inode table at byte 4096, first zone 5): the root
directory (inode 1, block 5) holds `.`, `..` and `docs`; the directory `docs` (inode 2,
block 6) holds `.` and `..`. -/
def docsVolume : Dev :=
  { data := place [(4096, inodeBytes (dirIno 96 3 5)), (4128, inodeBytes (dirIno 64 2 6)),
      (5120, dentryBytes 1 "." ++ dentryBytes 1 ".." ++ dentryBytes 2 "docs"),
      (6144, dentryBytes 2 "." ++ dentryBytes 1 "..")],
    size := 100 * 1024, pos := 0 }

/-- A Minix volume for `smallSB 32 100` whose root directory (inode 1, block 5) holds `.`,
`..`, `docset` (inode 2, block 6) and `docs` (inode 3, block 7), in this order. -/
def docsetVolume : Dev :=
  { data := place [(4096, inodeBytes (dirIno 128 4 5)), (4128, inodeBytes (dirIno 64 2 6)),
      (4160, inodeBytes (dirIno 64 2 7)),
      (5120, dentryBytes 1 "." ++ dentryBytes 1 ".." ++ dentryBytes 2 "docset"
        ++ dentryBytes 3 "docs"),
      (6144, dentryBytes 2 "." ++ dentryBytes 1 ".."),
      (7168, dentryBytes 3 "." ++ dentryBytes 1 "..")],
    size := 100 * 1024, pos := 0 }

/-- The return code of a path resolution, when the run has a defined result. -/
def retCode (r : Option (Dev × Int × MinixInode × Int)) : Option Int := r.map (fun x => x.2.1)

/-- The parent inode number reported by a path resolution. -/
def retParent (r : Option (Dev × Int × MinixInode × Int)) : Option Int :=
  r.map (fun x => x.2.2.2)

/-- The boot sector of the example FAT volume: sectors of 512 bytes, clusters of 2 sectors,
one FAT of one sector, 16 root directory entries; the root directory is at byte 1024 and
cluster 2 at byte 1536. -/
def demoFbs : FatBootSector :=
  { sector_size := 512, cluster_size := 2, reserved := 1, fats := 1, dir_entries := 16,
    sectors := 16, fat_length := 1 }

/-- The FAT of the example volume: cluster 2 is a chain of its own (the directory `docs`),
clusters 3, 4, 5 form a chain (the file `a.txt`); `fatPtr[1]` is the end-of-chain value. -/
def demoFat : Nat → Nat := fun c => [0xFFF8, 0xFFFF, 0xFFFF, 4, 5, 0xFFFF].getD c 0

/-- The 32 bytes of a FAT directory entry: the 11 bytes of name and extension, the attribute
byte, 14 bytes left zero, the starting cluster and the size. -/
def fatEntryBytes (name11 : String) (attr start size : Nat) : List Nat :=
  str name11 ++ [attr] ++ List.replicate 14 0 ++ [leByte start 0, leByte start 1]
    ++ [leByte size 0, leByte size 1, leByte size 2, leByte size 3]

/-- The example FAT volume: the root directory holds the sub-directory `DOCS` (cluster 2) and
the empty file `B.TXT`; `DOCS` holds `.`, `..` and the file `A.TXT` of 3072 bytes
(clusters 3, 4, 5, filled with `a`, `b`, `c`). -/
def demoFatDev : Dev :=
  { data := place
      [(1024, fatEntryBytes "DOCS       " 0x10 2 0 ++ fatEntryBytes "B       TXT" 0x20 0 0),
       (1536, fatEntryBytes ".          " 0x10 2 0 ++ fatEntryBytes "..         " 0x10 0 0
          ++ fatEntryBytes "A       TXT" 0x20 3 3072),
       (2560, List.replicate 1024 0x61), (3584, List.replicate 1024 0x62),
       (4608, List.replicate 1024 0x63)],
    size := 8192, pos := 0 }

/-- The example empty Minix volume for `smallSB 32 100`: the root directory (inode 1,
block 5) holds `.` and `..`. -/
def demoMinixDev : Dev :=
  { data := place [(4096, inodeBytes (dirIno 64 2 5)),
      (5120, dentryBytes 1 "." ++ dentryBytes 1 "..")],
    size := 100 * 1024, pos := 0 }

/-- The example world: both volumes, inodes 0 and 1 in use, the first data zone in use. -/
def demoWorld : World :=
  { fat := demoFatDev, mx := demoMinixDev, imap := freshImap, zmap := oneUsedZmap }

/-- The table of the root directory of the example Minix volume, as it is in memory once
opened: the records `.` and `..`, then zeros. -/
def demoRootTbl : Bytes := place [(0, dentryBytes 1 "." ++ dentryBytes 1 "..")]

/-- The state of the first loop of `copyDirEntries` when the root directory of the example
Minix volume has just been opened. -/
def demoCopyState : CopyState :=
  { w := demoWorld, tbl := demoRootTbl, numRecords := 2, ino := dirIno 64 2 5 }

/-- The entry `DOCS` (a sub-directory) of the root directory of the example FAT volume. -/
def demoDocsEntry : Bytes := fun j => demoFatDev.data (1024 + j)

/-- The entry `B.TXT` (a file) of the root directory of the example FAT volume. -/
def demoBTxtEntry : Bytes := fun j => demoFatDev.data (1024 + 32 + j)

/-! ## Paths and well-formed FAT volumes -/

/-- The relative path made of the given segments: they are joined with `/`. -/
def relPath : List (List Nat) → List Nat
  | [] => []
  | [s] => s
  | s :: t => s ++ 47 :: relPath t

/-- The absolute path made of the given segments; no segment gives `/`. -/
def absPath (segs : List (List Nat)) : List Nat := 47 :: relPath segs

/-- A path segment: not empty and without `/`. -/
def IsSegment (s : List Nat) : Prop := s ≠ [] ∧ 47 ∉ s

/-- The value lies in the range of the C type `int`. -/
def FitsInt (v : Int) : Prop := -2147483648 ≤ v ∧ v < 2147483648

/-- The place of the root directory on a FAT volume, in exact arithmetic: it follows the boot
sector and the FATs. -/
def rootDirOffset (fbs : FatBootSector) : Int :=
  SECTOR_SIZE fbs * ((1 + fbs.fats * fbs.fat_length : Nat) : Int)

/-- The place of the data region, in exact arithmetic: it follows the root directory with its
entries of 32 bytes. -/
def dataRegionOffset (fbs : FatBootSector) : Int :=
  rootDirOffset fbs + toShort (fbs.dir_entries : Nat) * 32

/-- The place of data cluster `n`, in exact arithmetic; the first cluster of the data region
has the number 2. -/
def dataClusterOffset (fbs : FatBootSector) (n : Int) : Int :=
  dataRegionOffset fbs + (n - 2) * CLUSTER_SIZE fbs

/-- The place of cluster `n`, in exact arithmetic, where the number 0 stands for the root
directory. -/
def clusterOffset (fbs : FatBootSector) (n : Int) : Int :=
  if n = 0 then rootDirOffset fbs else dataClusterOffset fbs n

/-- Absence of integer overflow in the offset of cluster `n` as `readCluster`, `writeCluster`
and `getFatDataBlock` compute it: the products `SECTOR_SIZE*(1+fats*fat_length)` and
`(n-2)*CLUSTER_SIZE` lie in the range of `int`, and the data region does not start at a
negative offset. -/
def OffsetsFit (fbs : FatBootSector) (n : Int) : Prop :=
  FitsInt (rootDirOffset fbs) ∧ 0 ≤ dataRegionOffset fbs ∧ FitsInt ((n - 2) * CLUSTER_SIZE fbs)

/-- The cluster lies within the volume: its offset is computed without overflow, is not
negative, and its `CLUSTER_SIZE` bytes end before the end of the volume. -/
def Readable (fbs : FatBootSector) (d : Dev) (c : Nat) : Prop :=
  OffsetsFit fbs c ∧ 0 ≤ clusterOffset fbs c ∧
    (clusterOffset fbs c).toNat + (CLUSTER_SIZE fbs).toNat ≤ d.size

/-- The bytes of a cluster on the volume. -/
def clusterBytes (fbs : FatBootSector) (d : Dev) (c : Nat) : Bytes :=
  fun j => d.data ((clusterOffset fbs c).toNat + j)

/-- Entry `ix` of a FAT directory table has the directory attribute, and its name field begins
with the characters of `s`. -/
def IsDirNamed (s : List Nat) (tbl : Bytes) (ix : Nat) : Prop :=
  fatAttr tbl ix &&& ATTR_DIR ≠ 0 ∧ ∀ j, j < s.length → tbl (32 * ix + j) = s.getD j 0

/-- The cluster of the directory reached from the root directory along the given segments:
the root directory is cluster number 0, and a further segment `s` leads from the directory in
cluster `c` to the starting cluster recorded in the first entry of the table held by `c` that
has the directory attribute and a name field beginning with `s`. -/
inductive OnPath (fbs : FatBootSector) (d : Dev) : List (List Nat) → Nat → Prop
  | root : OnPath fbs d [] 0
  | step (segs : List (List Nat)) (s : List Nat) (c ix : Nat) : OnPath fbs d segs c →
      ix < numSubDirEntries fbs → IsDirNamed s (clusterBytes fbs d c) ix →
      (∀ k, k < ix → ¬ IsDirNamed s (clusterBytes fbs d c) k) →
      OnPath fbs d (segs ++ [s]) (fatStart (clusterBytes fbs d c) ix)

/-- The directories met along the path lie within the volume: the root directory and the
directory reached along every initial part of the path. -/
def PathReadable (fbs : FatBootSector) (d : Dev) (segs : List (List Nat)) : Prop :=
  ∀ pre c, List.IsPrefix pre segs → OnPath fbs d pre c → Readable fbs d c

/-- A handle as `openFatDirectory` allocates it, before the search. -/
def blankFatDir : FatDir :=
  { name := [], clusterNum := 0, parentCluster := 0, table := freshBuf, numEntries := 0,
    size := 0 }

/-- A FAT volume with the geometry of `demoFbs` whose root directory holds the
sub-directories `DOCSET` (cluster 2) and `DOCS` (cluster 3), in this order. -/
def prefixFatDev : Dev :=
  { data := place
      [(1024, fatEntryBytes "DOCSET     " 0x10 2 0 ++ fatEntryBytes "DOCS       " 0x10 3 0),
       (1536, fatEntryBytes ".          " 0x10 2 0 ++ fatEntryBytes "..         " 0x10 0 0),
       (2560, fatEntryBytes ".          " 0x10 3 0 ++ fatEntryBytes "..         " 0x10 0 0)],
    size := 8192, pos := 0 }

/-- The outcome `r` of a resolution selects the child named by segment `s` in the directory
of handle `parent`: when entry `ix` is the first entry of the table of `parent` that has the
directory attribute and a name field beginning with `s`, `r` is `OK` with a handle whose
`clusterNum` is the starting cluster recorded in entry `ix`, whose `parentCluster` is the
cluster of `parent` and whose table holds the bytes of that cluster; when the table has no such
entry, `r` is `ERR1`. -/
def ResolvesToChild (fbs : FatBootSector) (d : Dev) (s : List Nat) (parent : FatDir)
    (r : Option (Dev × Int × FatDir)) : Prop :=
  (∀ ix, ix < numSubDirEntries fbs → IsDirNamed s parent.table ix →
    (∀ k, k < ix → ¬ IsDirNamed s parent.table k) →
    ∃ d2 h2, r = some (d2, OK, h2) ∧
      h2.clusterNum = fatStart parent.table ix ∧
      h2.parentCluster = parent.clusterNum ∧
      ∀ j, j < (CLUSTER_SIZE fbs).toNat → h2.table j = clusterBytes fbs d h2.clusterNum j) ∧
  ((∀ ix, ix < numSubDirEntries fbs → ¬ IsDirNamed s parent.table ix) →
    ∃ d2 h2, r = some (d2, ERR1, h2))

/-- The outcome of resolving `/DOCS` on the example FAT volume. -/
def demoDocsResolved : Dev × Int × FatDir :=
  (getFatDirTable demoFbs demoFatDev (absPath [str "DOCS"]) blankFatDir).getD
    (demoFatDev, ERR1, blankFatDir)

/-- The macro `MSDOS_DOT` of `fatDefn.h`: the name `.` padded to 11 characters. -/
def MSDOS_DOT : List Nat := str ".          "

/-- The macro `MSDOS_DOTDOT` of `fatDefn.h`: the name `..` padded to 11 characters. -/
def MSDOS_DOTDOT : List Nat := str "..         "

/-- The name held by entry `ix` of a Minix directory table: the C string in its 30 bytes. -/
def dentName (tbl : Bytes) (ix : Nat) : List Nat :=
  cstr ((List.range 30).map (fun j => tbl (DIRENTRYSIZE * ix + 2 + j)))

/-- The second loop of `copyDirEntries` over a list of FAT entries, given the function to be
called for `processSubDirectory`. -/
def descendEntries (processSub : Bytes → List Nat → World → Option World) (name : List Nat)
    (entries : List Bytes) (ow : Option World) : Option World :=
  entries.foldl
    (fun ow e =>
      match ow with
      | none => none
      | some w1 => if isSubDirEntry e then processSub e name w1 else some w1)
    ow

/-- A volume-label entry of a FAT root directory: the name `MYDISK`, attribute 0x08. -/
def volLabelEntry : Bytes := fun j => (fatEntryBytes "MYDISK     " 0x08 0 0).getD j 0

/-- The `.` entry of the directory `DOCS` of the example FAT volume. -/
def demoDotEntry : Bytes := fun j => demoFatDev.data (1536 + j)

/-- The `..` entry of the directory `DOCS` of the example FAT volume. -/
def demoDotDotEntry : Bytes := fun j => demoFatDev.data (1536 + 32 + j)

/-- A deleted entry: the first byte of the name of `B.TXT` replaced by 0xE5. -/
def deletedEntry : Bytes := fun j => if j = 0 then 0xE5 else demoBTxtEntry j

/-- The fields of `struct tm` that `getMinixTimeFromFat` sets before it calls `mktime`. -/
structure Tm where
  tm_sec : Int
  tm_min : Int
  tm_hour : Int
  tm_mday : Int
  tm_mon : Int
  tm_year : Int
deriving DecidableEq, Repr

/-- The operator `&` on an `int` and a constant that is not negative: the bits of the two's
complement representation (32 bits) of `a` selected by `mask`. -/
def andMask (a : Int) (mask : Nat) : Int := (((a % 4294967296).toNat &&& mask : Nat) : Int)

/-- The local `curTime` of `getMinixTimeFromFat` when `mktime` is called, for the 16-bit fields
`time` and `date` of the FAT entry: both are first stored in a `short`, so `>>` and `&` work on
sign-extended values. -/
def curTime (time date : Nat) : Tm :=
  { tm_sec := andMask (toShort (time : Int)) 0x001f * 2,
    tm_min := Int.shiftRight (andMask (toShort (time : Int)) 0x07ef) 5,
    tm_hour := andMask (Int.shiftRight (toShort (time : Int)) 11) 0x1f,
    tm_mday := andMask (toShort (date : Int)) 0x001f,
    tm_mon := Int.shiftRight (andMask (toShort (date : Int)) 0x01e0) 5 - 1,
    tm_year := (1980 + Int.shiftRight (toShort (date : Int)) 9) - 1900 }

/-- The function `getMinixTimeFromFat` of `fat2minix.c`, given the library function `mktime`:
the `time_t` it returns is converted to `unsigned`. -/
def getMinixTimeFromFat (mktime : Tm → Int) (time date : Nat) : Nat :=
  (mktime (curTime time date) % 4294967296).toNat

/-- The packed FAT date of a day: year offset from 1980 in bits 9-15, month in bits 5-8, day in
bits 0-4. -/
def packDate (year month day : Nat) : Nat := (year - 1980) * 512 + month * 32 + day

/-- The packed FAT time: hour in bits 11-15, minute in bits 5-10, seconds/2 in bits 0-4. -/
def packTime (hour minute second : Nat) : Nat := hour * 2048 + minute * 32 + second / 2

/-- An inode bitmap in which every bit is set. -/
def fullImap : Bytes := fun _ => 255

/-- A zone bitmap whose first 96 bits are set and whose other bits are clear: on a volume
with 95 data zones no data zone is free. -/
def dataFullZmap : Bytes := fun i => if i < 12 then 255 else 0

/-- A volume of 100 blocks in which every byte holds the number of its block, its file
position left at block 5 by an earlier transfer. -/
def staleDev : Dev := { data := fun a => a / 1024, size := 100 * 1024, pos := 5 * 1024 }

/-- A volume of 100 blocks whose block 0 starts with the 16-bit value 3 and whose block 3 is
filled with the byte 0x61. -/
def bootIndexDev : Dev :=
  { data := place [(0, [3, 0]), (3 * 1024, List.replicate 1024 0x61)], size := 100 * 1024,
    pos := 0 }

/-- A directory inode whose size announces 225 records (7200 bytes, an eighth block): the
direct zones are the blocks 10 to 16, the single-indirect zone is block 20. -/
def bigDirIno : MinixInode :=
  { i_mode := 0o40755, i_uid := 0, i_size := 7200, i_time := 0, i_gid := 0, i_nlinks := 2,
    i_zone := [10, 11, 12, 13, 14, 15, 16, 20, 0] }

/-- A volume of 100 blocks for `bigDirIno`: entry 0 of the index block 20 names block 21,
which starts with the directory entry `x` (inode 9); the other blocks are zero. -/
def bigDirDev : Dev :=
  { data := place [(20 * 1024, [21, 0]), (21 * 1024, dentryBytes 9 "x")], size := 100 * 1024,
    pos := 0 }

/-- The outcome of `closeMinixDirectory` called for the root directory of the example Minix
volume with a table of 225 records. -/
def closedWith225 : Dev × Bytes × MinixInode :=
  closeMinixDirectory (smallSB 32 100) demoMinixDev oneUsedZmap patternTbl 225 1 (dirIno 64 2 5)

/-- The super block of the layout described in `minix.h` (boot 0, super block 1, inode bitmap
2-3, zone bitmap 4-11, inode table 12-523, data zones 524-65535). -/
def layoutSB : MinixSuperBlock :=
  { s_ninodes := 16384, s_nzones := 65535, s_imap_blocks := 2, s_zmap_blocks := 8,
    s_firstdatazone := 524, s_log_zone_size := 0, s_max_size := 268966912, s_magic := 0x137f,
    s_state := 1 }

/-- A zone bitmap of 8 blocks in which every bit is set; the memory behind it is zero. -/
def fullZmap8k : Bytes := fun i => if i < 8192 then 255 else 0

/-- A blank volume of 65536 blocks. -/
def bigBlankDev : Dev := { data := fun _ => 0, size := 65536 * 1024, pos := 0 }

/-- The fields of the inode hold values of their C types (`__u16`, `__u32`, `__u8`) and
`i_zone` has its nine elements. -/
def MinixInode.Valid (x : MinixInode) : Prop :=
  x.i_mode < 65536 ∧ x.i_uid < 65536 ∧ x.i_size < 4294967296 ∧ x.i_time < 4294967296 ∧
    x.i_gid < 256 ∧ x.i_nlinks < 256 ∧ x.i_zone.length = 9 ∧ ∀ z ∈ x.i_zone, z < 65536

/-- The byte offset of inode `n` on the volume:
`(2 + s_imap_blocks + s_zmap_blocks) * 1024 + (n - 1) * 32`. -/
def inodePos (sb : MinixSuperBlock) (n : Int) : Int :=
  (((2 + sb.s_imap_blocks + sb.s_zmap_blocks) * 1024 : Nat) : Int) + (n - 1) * 32

/-- The function `closeMinixFS` of `minix.c` on the volume: the inode bitmap is written at
`2*BLOCK_SIZE`, the zone bitmap at `(2+s_imap_blocks)*BLOCK_SIZE`; a failed seek or a short
write is only reported. -/
def closeMinixFS (sb : MinixSuperBlock) (d : Dev) (imap zmap : Bytes) : Dev :=
  match sysLseek d ((2 * BLOCK_SIZE : Nat) : Int) with
  | (da, ra) =>
    match sysLseek (if ra = -1 then da else (sysWrite da imap (sb.s_imap_blocks * BLOCK_SIZE)).1)
        (((2 + sb.s_imap_blocks) * BLOCK_SIZE : Nat) : Int) with
    | (db, rb) => if rb = -1 then db else (sysWrite db zmap (sb.s_zmap_blocks * BLOCK_SIZE)).1

/-- The function `loadIMAP` of `minix.c` (`malloc` is taken to succeed): the volume after the
call and the map, `none` for `NULL`. -/
def loadIMAP (sb : MinixSuperBlock) (d : Dev) : Dev × Option Bytes :=
  match sysLseek d ((2 * BLOCK_SIZE : Nat) : Int) with
  | (d1, r) =>
    if r = -1 then (d1, none)
    else
      match sysRead d1 freshBuf (sb.s_imap_blocks * BLOCK_SIZE) with
      | (d2, map, n) => if n ≠ sb.s_imap_blocks * BLOCK_SIZE then (d2, none) else (d2, some map)

/-- The function `loadZMAP` of `minix.c` (`malloc` is taken to succeed). -/
def loadZMAP (sb : MinixSuperBlock) (d : Dev) : Dev × Option Bytes :=
  match sysLseek d (((2 + sb.s_imap_blocks) * BLOCK_SIZE : Nat) : Int) with
  | (d1, r) =>
    if r = -1 then (d1, none)
    else
      match sysRead d1 freshBuf (sb.s_zmap_blocks * BLOCK_SIZE) with
      | (d2, map, n) => if n ≠ sb.s_zmap_blocks * BLOCK_SIZE then (d2, none) else (d2, some map)

/-- The first four tests of the loops of `copyDirEntries`: the entry is a long-name fragment,
unused or deleted. -/
def isSkippedEntry (e : Bytes) : Bool :=
  e 11 == 0x0f || e 0 == 0x00 || e 0 == 0x05 || e 0 == 0xE5

/-- The entry takes the directory branch of the first loop of `copyDirEntries`. -/
def isDirClass (e : Bytes) : Bool :=
  !isSkippedEntry e && (e 0 == 0x2E || e 11 &&& ATTR_DIR != 0)

/-- The entry takes the file branch of the first loop of `copyDirEntries`. -/
def isFileClass (e : Bytes) : Bool :=
  !isSkippedEntry e && !(e 0 == 0x2E || e 11 &&& ATTR_DIR != 0)

/-- The number of entries of the directory class among the first `numEntries` of a table. -/
def dirCount (dirTbl : Bytes) (numEntries : Nat) : Nat :=
  ((List.range numEntries).filter (fun i => isDirClass (fun j => dirTbl (32 * i + j)))).length

/-- The number of entries of the file class among the first `numEntries` of a table. -/
def fileCount (dirTbl : Bytes) (numEntries : Nat) : Nat :=
  ((List.range numEntries).filter (fun i => isFileClass (fun j => dirTbl (32 * i + j)))).length

/-- The root directory of the example FAT volume, as `copyFatDir` reads it. -/
def demoFatRoot : Bytes := fun j => demoFatDev.data (1024 + j)

/-- The state of the first loop of `copyDirEntries` for a Minix directory that has 2 records
and the link count 255. -/
def manyLinksState : CopyState :=
  { w := demoWorld, tbl := demoRootTbl, numRecords := 2, ino := dirIno 64 255 5 }

/-- The offset sought by `getFatDataBlock` for a cluster:
`(clusterNum-2)*CLUSTER_SIZE + DATA_POS`, where the product is made in `int`, the sum in
`size_t`, and the result is passed as an `off_t`. -/
def getFatDataBlockPos (fbs : FatBootSector) (clusterNum : Int) : Int :=
  toLong (toInt ((clusterNum - 2) * CLUSTER_SIZE fbs) + DATA_POS fbs)

/-- The loop `for(i=0 ; i<num ; i++) { clusterNum = fatPtr[clusterNum];
if(clusterNum == fatPtr[1]) break; }` of `getFatDataBlock`; the first argument counts the
iterations left, the value is `clusterNum` when the loop is left. -/
def followChain (fatPtr : Nat → Nat) : Nat → Nat → Nat
  | 0, clusterNum => clusterNum
  | k + 1, clusterNum =>
    if fatPtr clusterNum = fatPtr 1 then fatPtr clusterNum
    else followChain fatPtr k (fatPtr clusterNum)

/-- The function `getFatDataBlock` of `fat2minix.c`: the volume after the call and the buffer
`block` when its address is returned (`none` for `NULL`). `CLUSTER_SIZE/BLOCK_SIZE` is taken
not to be zero. -/
def getFatDataBlock (fbs : FatBootSector) (fatPtr : Nat → Nat) (d : Dev) (blockNum : Nat)
    (clusterNum : Nat) (block : Bytes) : Dev × Option Bytes :=
  if followChain fatPtr
      ((blockNum : Int).tdiv ((CLUSTER_SIZE fbs).tdiv (BLOCK_SIZE : Nat))).toNat clusterNum
      = fatPtr 1 then (d, none)
  else
    match sysLseek d
        (getFatDataBlockPos fbs
          (followChain fatPtr
            ((blockNum : Int).tdiv ((CLUSTER_SIZE fbs).tdiv (BLOCK_SIZE : Nat))).toNat
            clusterNum : Nat)) with
    | (d1, r) =>
      if r = -1 then (d1, none)
      else
        match sysRead d1 freshBuf (CLUSTER_SIZE fbs).toNat with
        | (d2, cluster, n) =>
          if n > 0 then
            (d2, some (fun j =>
              if j < BLOCK_SIZE then
                cluster (((blockNum : Int).tmod ((CLUSTER_SIZE fbs).tdiv (BLOCK_SIZE : Nat))).toNat
                  * BLOCK_SIZE + j)
              else block j))
          else (d2, none)

/-- The boot sector of the example FAT volume with clusters of 4 sectors (2048 bytes). -/
def twoBlockFbs : FatBootSector := { demoFbs with cluster_size := 4 }

/-- A boot sector with the geometry of `demoFbs` but clusters of 128 sectors (64 KiB). -/
def bigClusterFbs : FatBootSector := { demoFbs with cluster_size := 128 }

/-- A FAT volume of 4 GiB whose only non-zero byte, 170, is the first byte of cluster 40000
under the geometry of `bigClusterFbs` (offset `1536 + 39998 * 65536 = 2621310464`). -/
def bigFatDev : Dev :=
  { data := fun a => if a = 2621310464 then 170 else 0, size := 4294967296, pos := 0 }

/-- A FAT in which every link holds the end-of-chain value `0xFFFF`. -/
def endFat : Nat → Nat := fun _ => 0xFFFF

/-- Data cluster `c` lies within the volume, at an offset that an `int` holds. -/
def ClusterInVolume (fbs : FatBootSector) (d : Dev) (c : Nat) : Prop :=
  0 ≤ dataClusterOffset fbs c ∧ dataClusterOffset fbs c < 2147483648 ∧
    (dataClusterOffset fbs c).toNat + (CLUSTER_SIZE fbs).toNat ≤ d.size

/-- The content of data cluster `c` of the volume as a buffer of `CLUSTER_SIZE` bytes. -/
def clusterContent (fbs : FatBootSector) (d : Dev) (c : Nat) : Bytes :=
  fun j => if j < (CLUSTER_SIZE fbs).toNat then d.data ((dataClusterOffset fbs c).toNat + j)
    else 0

/-- What reading the clusters `cs` of the FAT volume `fat0` one after the other amounts to:
for each cluster of the list, in order, the content of that cluster is handed to `copyDir`
under the name `minixName` with the number of entries of a cluster, in a world whose FAT volume
stands at the end of that cluster; `none` when a call of `copyDir` has no result. -/
def visitClusters (fbs : FatBootSector)
    (copyDir : List Nat → Bytes → Nat → World → Option World) (minixName : List Nat)
    (fat0 : Dev) : List Nat → World → Option World
  | [], w => some w
  | c :: cs, w =>
    match copyDir minixName (clusterContent fbs fat0 c) (numSubDirEntries fbs)
        { w with fat :=
          { fat0 with pos := (dataClusterOffset fbs c).toNat + (CLUSTER_SIZE fbs).toNat } } with
    | none => none
    | some w1 => visitClusters fbs copyDir minixName fat0 cs w1

/-- A directory entry `SUB` whose starting cluster is 3. -/
def demoSubEntry : Bytes := fun j => (fatEntryBytes "SUB        " 0x10 3 0).getD j 0

/-- A stand-in for `copyDirEntries` that does nothing but keep the table handed to it, in the
place of the inode bitmap of the world. -/
def keepTable : List Nat → Bytes → Nat → World → Option World :=
  fun _ tbl _ w => some { w with imap := tbl }

/-- A directory entry `SUB` whose starting cluster is 40000. -/
def bigSubEntry : Bytes := fun j => (fatEntryBytes "SUB        " 0x10 40000 0).getD j 0

/-- The example world with the FAT volume `bigFatDev`. -/
def bigWorld : World := { demoWorld with fat := bigFatDev }

/-! # Theorems -/

/-! ## Facts about the bitmap scans -/

theorem scanBytes_le (map : Bytes) (n b : Nat) : scanBytes map n b ≤ b + n := by
  induction n generalizing b with
  | zero => simp [scanBytes]
  | succ n ih =>
    unfold scanBytes
    split
    · omega
    · have := ih (b + 1); omega

theorem scanBytes_ge (map : Bytes) (n b : Nat) : b ≤ scanBytes map n b := by
  induction n generalizing b with
  | zero => simp [scanBytes]
  | succ n ih =>
    unfold scanBytes
    split
    · omega
    · have := ih (b + 1); omega

/-- Every byte passed over by the scan is `0xff`. -/
theorem scanBytes_full (map : Bytes) (n b j : Nat) (h1 : b ≤ j) (h2 : j < scanBytes map n b) :
    map j = 255 := by
  induction n generalizing b with
  | zero => simp [scanBytes] at h2; omega
  | succ n ih =>
    unfold scanBytes at h2
    split at h2
    · omega
    · rename_i hne
      rcases Nat.eq_or_lt_of_le h1 with h | h
      · subst h; simpa using hne
      · exact ih (b + 1) h h2

/-- When the scan stops before its limit, it stops on a byte that is not `0xff`. -/
theorem scanBytes_stop (map : Bytes) (n b : Nat) (h : scanBytes map n b < b + n) :
    map (scanBytes map n b) ≠ 255 := by
  induction n generalizing b with
  | zero => simp [scanBytes] at h
  | succ n ih =>
    by_cases hb : map b = 255
    · have e : scanBytes map (n + 1) b = scanBytes map n (b + 1) := by simp [scanBytes, hb]
      rw [e] at h ⊢
      exact ih (b + 1) (by omega)
    · have e : scanBytes map (n + 1) b = b := by simp [scanBytes, hb]
      rw [e]; exact hb

theorem and_shift_eq_zero_iff (b k : Nat) : (b &&& (1 <<< k) == 0) = !b.testBit k := by
  rw [Nat.one_shiftLeft, Nat.and_two_pow]
  cases h : b.testBit k <;> simp [Nat.pos_iff_ne_zero.mp (Nat.two_pow_pos k)]

theorem scanBits_le (b n k : Nat) : scanBits b n k ≤ k + n := by
  induction n generalizing k with
  | zero => simp [scanBits]
  | succ n ih =>
    unfold scanBits
    split
    · omega
    · have := ih (k + 1); omega

theorem scanBits_ge (b n k : Nat) : k ≤ scanBits b n k := by
  induction n generalizing k with
  | zero => simp [scanBits]
  | succ n ih =>
    unfold scanBits
    split
    · omega
    · have := ih (k + 1); omega

/-- Every bit passed over by the bit scan is set. -/
theorem scanBits_set (b n k j : Nat) (h1 : k ≤ j) (h2 : j < scanBits b n k) :
    b.testBit j = true := by
  induction n generalizing k with
  | zero => simp [scanBits] at h2; omega
  | succ n ih =>
    by_cases hb : b.testBit k = true
    · have e : scanBits b (n + 1) k = scanBits b n (k + 1) := by
        simp [scanBits, and_shift_eq_zero_iff, hb]
      rw [e] at h2
      rcases Nat.eq_or_lt_of_le h1 with h | h
      · subst h; exact hb
      · exact ih (k + 1) h h2
    · have e : scanBits b (n + 1) k = k := by
        simp [scanBits, and_shift_eq_zero_iff, hb]
      omega

/-- When the bit scan stops before its limit, it stops on a clear bit. -/
theorem scanBits_clear (b n k : Nat) (h : scanBits b n k < k + n) :
    b.testBit (scanBits b n k) = false := by
  induction n generalizing k with
  | zero => simp [scanBits] at h
  | succ n ih =>
    by_cases hb : b.testBit k = true
    · have e : scanBits b (n + 1) k = scanBits b n (k + 1) := by
        simp [scanBits, and_shift_eq_zero_iff, hb]
      rw [e] at h ⊢
      exact ih (k + 1) (by omega)
    · have e : scanBits b (n + 1) k = k := by
        simp [scanBits, and_shift_eq_zero_iff, hb]
      rw [e]; simpa using hb

/-- A byte whose eight bits are set is `0xff`. -/
theorem byte_eq_255 (b : Nat) (hb : b < 256) (h : ∀ j < 8, b.testBit j = true) : b = 255 := by
  apply Nat.eq_of_testBit_eq
  intro i
  by_cases hi : i < 8
  · rw [h i hi]
    have : i = 0 ∨ i = 1 ∨ i = 2 ∨ i = 3 ∨ i = 4 ∨ i = 5 ∨ i = 6 ∨ i = 7 := by omega
    rcases this with h | h | h | h | h | h | h | h <;> subst h <;> decide
  · have h1 : b.testBit i = false :=
      Nat.testBit_lt_two_pow (lt_of_lt_of_le hb
        (le_trans (by norm_num : 256 ≤ 2 ^ 8) (Nat.pow_le_pow_right (by norm_num) (by omega))))
    have h2 : (255 : Nat).testBit i = false :=
      Nat.testBit_lt_two_pow (lt_of_lt_of_le (by norm_num : 255 < 2 ^ 8)
        (Nat.pow_le_pow_right (by norm_num) (by omega)))
    rw [h1, h2]

theorem testBit_255 (j : Nat) (hj : j < 8) : (255 : Nat).testBit j = true := by
  have : j = 0 ∨ j = 1 ∨ j = 2 ∨ j = 3 ∨ j = 4 ∨ j = 5 ∨ j = 6 ∨ j = 7 := by omega
  rcases this with h | h | h | h | h | h | h | h <;> subst h <;> decide

/-- Bits of a byte after `b |= 1<<k` (stored back into an `unsigned char`). -/
theorem testBit_or_shift (b k j : Nat) (hj : j < 8) :
    ((b ||| (1 <<< k)) % 256).testBit j = (b.testBit j || decide (k = j)) := by
  have e : (256 : Nat) = 2 ^ 8 := by norm_num
  rw [e, Nat.testBit_mod_two_pow, Nat.testBit_or, Nat.one_shiftLeft, Nat.testBit_two_pow]
  simp [hj]

/-- Storing `b | (1<<8)` into an `unsigned char` leaves the byte as it was. -/
theorem or_shift_eight (b : Nat) (hb : b < 256) : (b ||| (1 <<< 8)) % 256 = b := by
  apply Nat.eq_of_testBit_eq
  intro i
  have e : (256 : Nat) = 2 ^ 8 := by norm_num
  rw [e, Nat.testBit_mod_two_pow, Nat.testBit_or, Nat.one_shiftLeft, Nat.testBit_two_pow]
  by_cases hi : i < 8
  · have : ¬ (8 = i) := by omega
    simp [hi, this]
  · have h1 : b.testBit i = false :=
      Nat.testBit_lt_two_pow (lt_of_lt_of_le hb
        (le_trans (by norm_num : 256 ≤ 2 ^ 8) (Nat.pow_le_pow_right (by norm_num) (by omega))))
    simp [hi, h1]

/-- Every bit below the position reached by the byte scan and the bit scan is set. -/
theorem scan_below (m : Bytes) (L j : Nat)
    (h : j < scanBytes m L 0 * 8 + scanBits (m (scanBytes m L 0)) 8 0) : bitSet m j = true := by
  unfold bitSet
  by_cases hj : j / 8 < scanBytes m L 0
  · rw [scanBytes_full m L 0 (j / 8) (Nat.zero_le _) hj]
    exact testBit_255 _ (Nat.mod_lt _ (by norm_num))
  · have hK := scanBits_le (m (scanBytes m L 0)) 8 0
    have e : j / 8 = scanBytes m L 0 := by omega
    rw [e]
    exact scanBits_set _ 8 0 _ (Nat.zero_le _) (by omega)

/-- When the bit scan stops on a bit below 8, that bit of the bitmap is clear. -/
theorem scan_at (m : Bytes) (L : Nat) (h : scanBits (m (scanBytes m L 0)) 8 0 < 8) :
    bitSet m (scanBytes m L 0 * 8 + scanBits (m (scanBytes m L 0)) 8 0) = false := by
  unfold bitSet
  have e1 : (scanBytes m L 0 * 8 + scanBits (m (scanBytes m L 0)) 8 0) / 8 = scanBytes m L 0 := by
    omega
  have e2 : (scanBytes m L 0 * 8 + scanBits (m (scanBytes m L 0)) 8 0) % 8
      = scanBits (m (scanBytes m L 0)) 8 0 := by omega
  rw [e1, e2]
  exact scanBits_clear _ 8 0 (by omega)

/-- A clear bit within the scanned bytes stops the scan at or before it. -/
theorem scan_found (m : Bytes) (hv : ValidBytes m) (L i : Nat) (hi : bitSet m i = false)
    (hL : i / 8 ≤ L) :
    scanBits (m (scanBytes m L 0)) 8 0 < 8 ∧
      scanBytes m L 0 * 8 + scanBits (m (scanBytes m L 0)) 8 0 ≤ i := by
  have hB : scanBytes m L 0 ≤ i / 8 := by
    by_contra hc
    have h255 := scanBytes_full m L 0 (i / 8) (Nat.zero_le _) (by omega)
    unfold bitSet at hi
    rw [h255, testBit_255 _ (Nat.mod_lt _ (by norm_num))] at hi
    exact absurd hi (by simp)
  have hK := scanBits_le (m (scanBytes m L 0)) 8 0
  rcases Nat.eq_or_lt_of_le hB with hEq | hLt
  · have hK2 : scanBits (m (scanBytes m L 0)) 8 0 ≤ i % 8 := by
      by_contra hc
      have := scanBits_set (m (scanBytes m L 0)) 8 0 (i % 8) (Nat.zero_le _) (by omega)
      unfold bitSet at hi
      rw [← hEq, this] at hi
      exact absurd hi (by simp)
    have := Nat.mod_lt i (by norm_num : 8 > 0)
    omega
  · have hne := scanBytes_stop m L 0 (by omega)
    have hK8 : scanBits (m (scanBytes m L 0)) 8 0 < 8 := by
      by_contra hc
      apply hne
      apply byte_eq_255 _ (hv _)
      intro j hj
      exact scanBits_set _ 8 0 j (Nat.zero_le _) (by omega)
    omega

/-- Effect of `map[bytenum] |= 1<<bitnum` on the bits of the bitmap. -/
theorem bitSet_setByte (m : Bytes) (B K j : Nat) (hK : K < 8) :
    bitSet (setByte m B ((m B ||| (1 <<< K)) % 256)) j
      = if j = B * 8 + K then true else bitSet m j := by
  unfold bitSet setByte
  by_cases hj : j / 8 = B
  · simp only [hj, if_true]
    rw [testBit_or_shift _ _ _ (Nat.mod_lt _ (by norm_num))]
    by_cases hk : K = j % 8
    · have hj2 : j = B * 8 + K := by omega
      rw [if_pos hj2, decide_eq_true hk, Bool.or_true]
    · have hj2 : ¬ (j = B * 8 + K) := by omega
      rw [if_neg hj2, decide_eq_false hk, Bool.or_false]
  · have hj2 : ¬ (j = B * 8 + K) := by omega
    rw [if_neg hj, if_neg hj2]

theorem toShort_small (v : Nat) (h : v < 32768) : toShort (v : Int) = (v : Int) := by
  unfold toShort; split <;> omega

/-! ## C1: `findFreeInode` -/

theorem halfFullImap_valid : ValidBytes halfFullImap := by
  intro i; unfold halfFullImap; split <;> omega

theorem halfFullImap_lowest : LowestClear halfFullImap 32768 := by
  constructor
  · decide
  · intro j hj
    unfold bitSet halfFullImap
    rw [if_pos (by omega)]
    exact testBit_255 _ (Nat.mod_lt _ (by norm_num))

/-- C1, as stated, fails: with 40000 inodes announced and the first 32768 bits of the inode
bitmap set, `findFreeInode` takes its success branch and returns the `short` value -32768,
which is not the index 32768 of the lowest-numbered clear bit. -/
theorem findFreeInode_wraps_past_short :
    ValidBytes halfFullImap ∧ LowestClear halfFullImap 32768 ∧
      (findFreeInode bigInodeSB halfFullImap).1 ≠ ERR1 ∧
      (findFreeInode bigInodeSB halfFullImap).1 = -32768 := by
  refine ⟨halfFullImap_valid, halfFullImap_lowest, ?_, ?_⟩ <;> decide!

/-- C1, amended: when the inode bitmap (of `unsigned char` cells) holds a clear bit at an
index below 32768 and `findFreeInode` does not return `ERR1`, the returned number is the index
of the lowest-numbered clear bit; that bit is clear before the call and set after it, and every
other bit of the bitmap is unchanged. -/
theorem findFreeInode_lowest_clear (sb : MinixSuperBlock) (imap : Bytes)
    (hv : ValidBytes imap) (hfree : ∃ i, i < 32768 ∧ bitSet imap i = false)
    (hok : (findFreeInode sb imap).1 ≠ ERR1) :
    ∃ r : Nat, (findFreeInode sb imap).1 = (r : Int) ∧ LowestClear imap r ∧
      bitSet (findFreeInode sb imap).2 r = true ∧
      ∀ j, j ≠ r → bitSet (findFreeInode sb imap).2 j = bitSet imap j := by
  obtain ⟨i, hi, hclr⟩ := hfree
  have hBle := scanBytes_le imap (sb.s_ninodes / 8) 0
  have hKle := scanBits_le (imap (scanBytes imap (sb.s_ninodes / 8) 0)) 8 0
  -- the scan position is at most `i`, hence fits a `short`
  have hvle : scanBytes imap (sb.s_ninodes / 8) 0 * 8
      + scanBits (imap (scanBytes imap (sb.s_ninodes / 8) 0)) 8 0 ≤ i := by
    by_cases hL : i / 8 ≤ sb.s_ninodes / 8
    · exact (scan_found imap hv _ i hclr hL).2
    · omega
  have hshort := toShort_small _ (lt_of_le_of_lt hvle hi)
  unfold findFreeInode at hok ⊢
  simp only [hshort] at hok ⊢
  by_cases hgt : ((scanBytes imap (sb.s_ninodes / 8) 0 * 8
      + scanBits (imap (scanBytes imap (sb.s_ninodes / 8) 0)) 8 0 : Nat) : Int)
        > (sb.s_ninodes : Int)
  · rw [if_pos hgt] at hok; exact absurd rfl hok
  · rw [if_neg hgt]
    have hgt2 : scanBytes imap (sb.s_ninodes / 8) 0 * 8
      + scanBits (imap (scanBytes imap (sb.s_ninodes / 8) 0)) 8 0 ≤ sb.s_ninodes := by omega
    have hK8 : scanBits (imap (scanBytes imap (sb.s_ninodes / 8) 0)) 8 0 < 8 := by
      by_contra hc
      have hK : scanBits (imap (scanBytes imap (sb.s_ninodes / 8) 0)) 8 0 = 8 := by omega
      have hBlt : scanBytes imap (sb.s_ninodes / 8) 0 < sb.s_ninodes / 8 := by omega
      apply scanBytes_stop imap (sb.s_ninodes / 8) 0 (by omega)
      apply byte_eq_255 _ (hv _)
      intro j hj
      exact scanBits_set _ 8 0 j (Nat.zero_le _) (by omega)
    refine ⟨_, rfl, ⟨scan_at imap _ hK8, fun j hj => scan_below imap _ j hj⟩, ?_, ?_⟩
    · simp only [bitSet_setByte _ _ _ _ hK8, if_true]
    · intro j hj
      simp only [bitSet_setByte _ _ _ _ hK8, if_neg hj]

theorem freshImap_valid : ValidBytes freshImap := by
  intro i; unfold freshImap; split <;> omega

/-- Witness for C1 (amended): on a volume of 32 inodes with inodes 0 and 1 in use, the
hypotheses hold and `findFreeInode` allocates the lowest free inode. -/
theorem findFreeInode_lowest_clear_witness :
    ∃ r : Nat, (findFreeInode (smallSB 32 100) freshImap).1 = (r : Int) ∧
      LowestClear freshImap r ∧
      bitSet (findFreeInode (smallSB 32 100) freshImap).2 r = true ∧
      ∀ j, j ≠ r → bitSet (findFreeInode (smallSB 32 100) freshImap).2 j = bitSet freshImap j :=
  findFreeInode_lowest_clear (smallSB 32 100) freshImap freshImap_valid
    ⟨2, by decide, by decide⟩ (by decide)

/-! ## C2: `findFreeDataBlock` -/

theorem setByte_valid (m : Bytes) (hv : ValidBytes m) (i v : Nat) :
    ValidBytes (setByte m i (v % 256)) := by
  intro j; unfold setByte; split
  · exact Nat.mod_lt _ (by norm_num)
  · exact hv j

theorem toInt_small (v : Nat) (h : v < 2147483648) : toInt (v : Int) = (v : Int) := by
  unfold toInt; split <;> omega

/-- C2 at its failing input: on a volume of 100 zones whose zone bitmap block has every bit
set, `findFreeDataBlock` does not return `ERR1`: it returns block 813 (beyond the 100 zones of
the volume), although no bit of the bitmap was clear, and it leaves every bit as it was. -/
theorem findFreeDataBlock_full_bitmap_succeeds :
    FIRSTZONE (smallSB 32 100) = 5 ∧ zoneScanLimit (smallSB 32 100) = 100 ∧
      (∀ j, bitSet fullZmap j = true) ∧
      (findFreeDataBlock (smallSB 32 100) fullZmap).1 = 813 ∧
      (∀ j, bitSet (findFreeDataBlock (smallSB 32 100) fullZmap).2 j = bitSet fullZmap j) := by
  have hall : ∀ j, bitSet fullZmap j = true := fun j =>
    testBit_255 _ (Nat.mod_lt _ (by norm_num))
  have hB : scanBytes fullZmap (zoneScanLimit (smallSB 32 100)) 0 = 100 := by decide!
  have hK : scanBits (fullZmap 100) 8 0 = 8 := by decide
  refine ⟨by decide, by decide, hall, by decide!, ?_⟩
  intro j
  have e : (findFreeDataBlock (smallSB 32 100) fullZmap).2
      = setByte fullZmap 100 ((fullZmap 100 ||| (1 <<< 8)) % 256) := by
    unfold findFreeDataBlock
    simp only [hB, hK]
    rfl
  rw [e, or_shift_eight _ (by decide)]
  unfold bitSet setByte
  split
  · rename_i h; rw [h]
  · rfl

/-- The allocation made by `findFreeDataBlock` when a clear bit lies within the scanned bytes:
the returned block is the lowest clear bit offset by `FIRSTZONE`, and only that bit changes. -/
theorem findFreeDataBlock_alloc (sb : MinixSuperBlock) (zmap : Bytes) (hv : ValidBytes zmap)
    (i : Nat) (hclr : bitSet zmap i = false) (hL : i / 8 ≤ zoneScanLimit sb)
    (hmax : i + FIRSTZONE sb ≤ 65535) :
    ∃ (r : Nat) (zmap2 : Bytes),
      findFreeDataBlock sb zmap = (((r + FIRSTZONE sb : Nat) : Int), zmap2) ∧
      r ≤ i ∧ LowestClear zmap r ∧ bitSet zmap2 r = true ∧
      (∀ j, j ≠ r → bitSet zmap2 j = bitSet zmap j) ∧ ValidBytes zmap2 := by
  obtain ⟨hK8, hvle⟩ := scan_found zmap hv _ i hclr hL
  have hmod : (scanBytes zmap (zoneScanLimit sb) 0 * 8
      + scanBits (zmap (scanBytes zmap (zoneScanLimit sb) 0)) 8 0 + FIRSTZONE sb) % SIZE_T_MOD
      = scanBytes zmap (zoneScanLimit sb) 0 * 8
      + scanBits (zmap (scanBytes zmap (zoneScanLimit sb) 0)) 8 0 + FIRSTZONE sb := by
    apply Nat.mod_eq_of_lt
    have : (65536 : Nat) < SIZE_T_MOD := by unfold SIZE_T_MOD; norm_num
    omega
  have hle : ¬ (((scanBytes zmap (zoneScanLimit sb) 0 * 8
      + scanBits (zmap (scanBytes zmap (zoneScanLimit sb) 0)) 8 0 + FIRSTZONE sb : Nat) : Int)
      > (TOTALBLOCKS : Int)) := by
    unfold TOTALBLOCKS; omega
  refine ⟨scanBytes zmap (zoneScanLimit sb) 0 * 8
      + scanBits (zmap (scanBytes zmap (zoneScanLimit sb) 0)) 8 0,
    setByte zmap (scanBytes zmap (zoneScanLimit sb) 0)
      ((zmap (scanBytes zmap (zoneScanLimit sb) 0)
        ||| (1 <<< scanBits (zmap (scanBytes zmap (zoneScanLimit sb) 0)) 8 0)) % 256),
    ?_, hvle, ⟨scan_at zmap _ hK8, fun j hj => scan_below zmap _ j hj⟩, ?_, ?_, ?_⟩
  · unfold findFreeDataBlock
    simp only [hmod]
    rw [toInt_small _ (by omega), if_neg hle]
  · simp only [bitSet_setByte _ _ _ _ hK8, if_true]
  · intro j hj
    simp only [bitSet_setByte _ _ _ _ hK8, if_neg hj]
  · exact setByte_valid _ hv _ _

/-! ## C4: logical block addressing -/

/-- C4 at its failing input: block 600, the single-indirect block of the inode, holds the
16-bit block number 32768 at position 0 and block 32768 lies within the volume, yet for logical
index 7 `getDataBlock` and `saveDataBlock` return `ERR1` and transfer nothing: the entry is
read through a `short` array as -32768 and the seek to a negative offset fails. -/
theorem indirect_entry_32768_fails :
    getLE16 (fun j => highIndexDev.data (indirectIno.zone 7 * 1024 + j)) (2 * (7 - 7)) = 32768 ∧
      32768 * 1024 + 1024 ≤ highIndexDev.size ∧
      (getDataBlock highIndexDev 7 indirectIno freshBuf).2.1 = ERR1 ∧
      (∀ j, (getDataBlock highIndexDev 7 indirectIno freshBuf).2.2 j = freshBuf j) ∧
      (saveDataBlock highIndexDev 7 indirectIno (fun _ => 1)).2 = ERR1 ∧
      (∀ a, (saveDataBlock highIndexDev 7 indirectIno (fun _ => 1)).1.data a
        = highIndexDev.data a) := by
  refine ⟨by decide, by decide, by decide!, ?_, by decide!, ?_⟩
  · intro j
    have e : (getDataBlock highIndexDev 7 indirectIno freshBuf).2.2 = freshBuf := rfl
    rw [e]
  · intro a
    have e : (saveDataBlock highIndexDev 7 indirectIno (fun _ => 1)).1.data
        = highIndexDev.data := rfl
    rw [e]

/-- A direct block is sought at `zone[i]*1024`. -/
theorem seekToDataBlock_direct (d : Dev) (i : Nat) (ino : MinixInode) (hi : i < 7) :
    seekToDataBlock d i ino = ({ d with pos := ino.zone i * 1024 }, OK) := by
  have h0 : ¬ (((ino.zone i * 1024 : Nat) : Int) < 0) := by omega
  have h1 : ¬ (((ino.zone i * 1024 : Nat) : Int) = -1) := by omega
  unfold seekToDataBlock sysLseek BLOCK_SIZE
  rw [if_pos hi, if_neg h0]
  simp only [h1, if_false, Int.toNat_ofNat]

/-- Reading a direct block that lies within the volume: the 1024 bytes at `zone[i]*1024` are
transferred to the buffer. -/
theorem getDataBlock_direct (d : Dev) (i : Nat) (ino : MinixInode) (buf : Bytes) (hi : i < 7)
    (hsz : ino.zone i * 1024 + 1024 ≤ d.size) :
    getDataBlock d i ino buf =
      ({ d with pos := ino.zone i * 1024 + 1024 }, OK,
        fun j => if j < 1024 then d.data (ino.zone i * 1024 + j) else buf j) := by
  have hmin : min 1024 (d.size - ino.zone i * 1024) = 1024 := by omega
  unfold getDataBlock
  rw [seekToDataBlock_direct d i ino hi]
  simp [sysRead, OK, ERR1, BLOCK_SIZE, hmin]

/-- Writing a direct block that lies within the volume: the 1024 bytes at `zone[i]*1024`
are replaced by the head of the buffer and no other byte changes. -/
theorem saveDataBlock_direct (d : Dev) (i : Nat) (ino : MinixInode) (buf : Bytes) (hi : i < 7)
    (hsz : ino.zone i * 1024 + 1024 ≤ d.size) :
    saveDataBlock d i ino buf =
      ({ d with
          data := fun a =>
            if ino.zone i * 1024 ≤ a ∧ a < ino.zone i * 1024 + 1024
            then buf (a - ino.zone i * 1024) else d.data a,
          pos := ino.zone i * 1024 + 1024 }, OK) := by
  have hmin : min 1024 (d.size - ino.zone i * 1024) = 1024 := by omega
  unfold saveDataBlock
  rw [seekToDataBlock_direct d i ino hi]
  simp [sysWrite, OK, ERR1, BLOCK_SIZE, hmin]

/-! ## C3: directory tables written and read back -/

theorem zone_setZone_self (ino : MinixInode) (i : Nat) (v : Int) (hi : i < ino.i_zone.length) :
    (ino.setZone i v).zone i = (v % 65536).toNat := by
  simp [MinixInode.zone, MinixInode.setZone, List.getD_eq_getElem?_getD, hi]

theorem zone_setZone_ne (ino : MinixInode) (i j : Nat) (v : Int) (hj : j ≠ i) :
    (ino.setZone i v).zone j = ino.zone j := by
  simp [MinixInode.zone, MinixInode.setZone, List.getD_eq_getElem?_getD, List.getElem?_set, Ne.symm hj]

theorem setZone_length (ino : MinixInode) (i : Nat) (v : Int) :
    (ino.setZone i v).i_zone.length = ino.i_zone.length := by
  simp [MinixInode.setZone]

theorem zoneScanLimit_eq (sb : MinixSuperBlock) (h1 : FIRSTZONE sb ≤ sb.s_nzones)
    (h2 : sb.s_nzones < 65536) : zoneScanLimit sb = sb.s_nzones - FIRSTZONE sb / 8 := by
  unfold zoneScanLimit SIZE_T_MOD
  omega

theorem FIRSTZONE_ge (sb : MinixSuperBlock) : 2 ≤ FIRSTZONE sb := by
  unfold FIRSTZONE; omega

/-- Two different blocks do not share a byte. -/
theorem block_disjoint (z1 z2 a : Nat) (h : z1 ≠ z2) (h1 : z1 * 1024 ≤ a ∧ a < z1 * 1024 + 1024) :
    ¬ (z2 * 1024 ≤ a ∧ a < z2 * 1024 + 1024) := by
  omega

/-- The effect of `saveDataBlock` on a direct block, stated on the bytes of the volume. -/
theorem saveDataBlock_direct_data (d : Dev) (i : Nat) (ino : MinixInode) (buf : Bytes)
    (hi : i < 7) (hsz : ino.zone i * 1024 + 1024 ≤ d.size) :
    ∃ d1, saveDataBlock d i ino buf = (d1, OK) ∧ d1.size = d.size ∧
      ∀ a, d1.data a =
        if ino.zone i * 1024 ≤ a ∧ a < ino.zone i * 1024 + 1024
        then buf (a - ino.zone i * 1024) else d.data a :=
  ⟨_, saveDataBlock_direct d i ino buf hi hsz, rfl, fun _ => rfl⟩

theorem saveDirBlocks_spec (sb : MinixSuperBlock) (tbl : Bytes) (hnz : sb.s_nzones < 65536) :
    ∀ (n i : Nat) (d : Dev) (zmap : Bytes) (ino : MinixInode) (fl : List Nat),
      i + n ≤ 7 → ValidBytes zmap → ino.i_zone.length = 9 → sb.s_nzones * 1024 ≤ d.size →
      (∀ j, j < i + n → ino.zone j ≠ 0 →
        FIRSTZONE sb ≤ ino.zone j ∧ ino.zone j < sb.s_nzones ∧
          bitSet zmap (ino.zone j - FIRSTZONE sb) = true) →
      (∀ j1 j2, j1 < i + n → j2 < i + n → ino.zone j1 ≠ 0 → ino.zone j1 = ino.zone j2 → j1 = j2) →
      (∀ j, j < i → ino.zone j ≠ 0) →
      fl.Nodup → (∀ x ∈ fl, x < sb.s_nzones - FIRSTZONE sb ∧ bitSet zmap x = false) →
      ((List.range' i n).filter (fun j => ino.zone j == 0)).length ≤ fl.length →
      ∃ d2 zmap2 ino2, saveDirBlocks sb tbl n i d zmap ino = (d2, zmap2, ino2) ∧
        d2.size = d.size ∧ ino2.i_zone.length = 9 ∧ ino2.i_size = ino.i_size ∧
        (∀ j, j < i → ino2.zone j = ino.zone j) ∧
        (∀ j, j < i + n → ino2.zone j ≠ 0 ∧ ino2.zone j < sb.s_nzones) ∧
        (∀ j1 j2, j1 < i + n → j2 < i + n → ino2.zone j1 = ino2.zone j2 → j1 = j2) ∧
        (∀ j, i ≤ j → j < i + n → ∀ t, t < 1024 →
          d2.data (ino2.zone j * 1024 + t) = tbl (j * 1024 + t)) ∧
        (∀ a, (∀ j, i ≤ j → j < i + n →
          ¬ (ino2.zone j * 1024 ≤ a ∧ a < ino2.zone j * 1024 + 1024)) → d2.data a = d.data a) := by
  intro n
  induction n with
  | zero =>
    intro i d zmap ino fl hin hv hlen hsz hP1 hP2 hP4 hnd hfl hcnt
    refine ⟨d, zmap, ino, rfl, rfl, hlen, rfl, fun j _ => rfl, ?_, ?_, ?_, ?_⟩
    · intro j hj
      exact ⟨hP4 j (by omega), (hP1 j hj (hP4 j (by omega))).2.1⟩
    · intro j1 j2 h1 h2 he
      exact hP2 j1 j2 h1 h2 (hP4 j1 (by omega)) he
    · intro j h1 h2; omega
    · intro a _; rfl
  | succ n ih =>
    intro i d zmap ino fl hin hv hlen hsz hP1 hP2 hP4 hnd hfl hcnt
    have hi7 : i < 7 := by omega
    rw [List.range'_succ, List.filter_cons] at hcnt
    by_cases hz : ino.zone i = 0
    · -- a zone is allocated for block `i`
      have hz' : (ino.zone i == 0) = true := by simp [hz]
      rw [if_pos hz', List.length_cons] at hcnt
      obtain ⟨x, hx⟩ : ∃ x, x ∈ fl := by
        cases fl with
        | nil => simp at hcnt
        | cons x _ => exact ⟨x, List.mem_cons_self _ _⟩
      obtain ⟨hxN, hxclr⟩ := hfl x hx
      have hFZ := FIRSTZONE_ge sb
      obtain ⟨r0, zmap1, hfind, hr0x, hlow, hset, hframe, hv1⟩ :=
        findFreeDataBlock_alloc sb zmap hv x hxclr
          (by rw [zoneScanLimit_eq sb (by omega) hnz]; omega) (by omega)
      have hzi : (ino.setZone i ((r0 + FIRSTZONE sb : Nat) : Int)).zone i = r0 + FIRSTZONE sb := by
        rw [zone_setZone_self _ _ _ (by omega)]; omega
      have hzj : ∀ j, j ≠ i →
          (ino.setZone i ((r0 + FIRSTZONE sb : Nat) : Int)).zone j = ino.zone j :=
        fun j hj => zone_setZone_ne _ _ _ _ hj
      obtain ⟨d1, hsave, hs1, hdata1⟩ :=
        saveDataBlock_direct_data d i (ino.setZone i ((r0 + FIRSTZONE sb : Nat) : Int))
          (fun j => tbl (i * BLOCK_SIZE + j)) hi7 (by rw [hzi]; omega)
      rw [hzi] at hdata1
      have hbit : ∀ y, bitSet zmap y = true → bitSet zmap1 y = true := by
        intro y hy
        by_cases hyr : y = r0
        · rw [hyr]; exact hset
        · rw [hframe y hyr]; exact hy
      obtain ⟨d2, zmap2, ino2, heq, hs2, hl2, hsz2, hz2, hnz2, hd2, hdat2, hfr2⟩ :=
        ih (i + 1) d1 zmap1 (ino.setZone i ((r0 + FIRSTZONE sb : Nat) : Int)) (fl.erase r0)
          (by omega) hv1 (by rw [setZone_length]; exact hlen) (by rw [hs1]; exact hsz)
          (by
            intro j hj hjz
            by_cases hji : j = i
            · subst hji
              rw [hzi]
              refine ⟨by omega, by omega, ?_⟩
              rw [Nat.add_sub_cancel]; exact hset
            · rw [hzj j hji] at hjz ⊢
              obtain ⟨a1, a2, a3⟩ := hP1 j (by omega) hjz
              exact ⟨a1, a2, hbit _ a3⟩)
          (by
            intro j1 j2 h1 h2 hne he
            by_cases hj1 : j1 = i
            · by_cases hj2 : j2 = i
              · omega
              · exfalso
                rw [hj1, hzi, hzj j2 hj2] at he
                have := (hP1 j2 (by omega) (by omega)).2.2
                rw [← he, Nat.add_sub_cancel, hlow.1] at this
                exact absurd this (by simp)
            · by_cases hj2 : j2 = i
              · exfalso
                rw [hj2, hzi, hzj j1 hj1] at he
                have := (hP1 j1 (by omega) (by omega)).2.2
                rw [he, Nat.add_sub_cancel, hlow.1] at this
                exact absurd this (by simp)
              · rw [hzj j1 hj1] at hne he
                rw [hzj j2 hj2] at he
                exact hP2 j1 j2 (by omega) (by omega) hne he)
          (by
            intro j hj
            by_cases hji : j = i
            · rw [hji, hzi]; omega
            · rw [hzj j hji]; exact hP4 j (by omega))
          (hnd.erase r0)
          (by
            intro y hy
            rw [hnd.mem_erase_iff] at hy
            obtain ⟨b1, b2⟩ := hfl y hy.2
            exact ⟨b1, by rw [hframe y hy.1]; exact b2⟩)
          (by
            have e : (List.range' (i + 1) n).filter
                (fun j => (ino.setZone i ((r0 + FIRSTZONE sb : Nat) : Int)).zone j == 0)
                = (List.range' (i + 1) n).filter (fun j => ino.zone j == 0) := by
              apply List.filter_congr
              intro j hj
              rw [List.mem_range'_1] at hj
              rw [hzj j (by omega)]
            rw [e]
            have := List.length_erase_of_mem (a := r0) (l := fl)
            by_cases hm : r0 ∈ fl
            · rw [List.length_erase_of_mem hm]; omega
            · rw [List.erase_of_not_mem hm]; omega)
      refine ⟨d2, zmap2, ino2, ?_, ?_, hl2, ?_, ?_, ?_, ?_, ?_, ?_⟩
      · rw [saveDirBlocks, if_pos hz, hfind]
        simp only [hsave]
        exact heq
      · rw [hs2, hs1]
      · rw [hsz2]; rfl
      · intro j hj; rw [hz2 j (by omega), hzj j (by omega)]
      · intro j hj; exact hnz2 j (by omega)
      · intro j1 j2 h1 h2 he; exact hd2 j1 j2 (by omega) (by omega) he
      · intro j h1 h2 t ht
        by_cases hji : j = i
        · subst hji
          rw [hfr2]
          · rw [hz2 j (by omega), hzi, hdata1, if_pos (by omega)]
            dsimp only [BLOCK_SIZE]
            congr 1; omega
          · intro j' h1' h2'
            apply block_disjoint (ino2.zone j) (ino2.zone j')
            · intro he; have := hd2 j j' (by omega) (by omega) he; omega
            · omega
        · exact hdat2 j (by omega) (by omega) t ht
      · intro a ha
        rw [hfr2 a (fun j h1 h2 => ha j (by omega) (by omega))]
        have := ha i (le_refl _) (by omega)
        rw [hz2 i (by omega), hzi] at this
        rw [hdata1, if_neg this]
    · -- block `i` already has a zone
      have hz' : (ino.zone i == 0) = false := by simp [hz]
      rw [hz'] at hcnt
      simp only [Bool.false_eq_true, if_false] at hcnt
      obtain ⟨q1, q2, q3⟩ := hP1 i (by omega) hz
      obtain ⟨d1, hsave, hs1, hdata1⟩ :=
        saveDataBlock_direct_data d i ino (fun j => tbl (i * BLOCK_SIZE + j)) hi7 (by omega)
      obtain ⟨d2, zmap2, ino2, heq, hs2, hl2, hsz2, hz2, hnz2, hd2, hdat2, hfr2⟩ :=
        ih (i + 1) d1 zmap ino fl (by omega) hv hlen (by rw [hs1]; exact hsz)
          (fun j hj hjz => hP1 j (by omega) hjz)
          (fun j1 j2 h1 h2 hne he => hP2 j1 j2 (by omega) (by omega) hne he)
          (by
            intro j hj
            by_cases hji : j = i
            · rw [hji]; exact hz
            · exact hP4 j (by omega))
          hnd hfl hcnt
      refine ⟨d2, zmap2, ino2, ?_, ?_, hl2, hsz2, ?_, ?_, ?_, ?_, ?_⟩
      · rw [saveDirBlocks, if_neg hz]
        simp only [hsave]
        exact heq
      · rw [hs2, hs1]
      · intro j hj; exact hz2 j (by omega)
      · intro j hj; exact hnz2 j (by omega)
      · intro j1 j2 h1 h2 he; exact hd2 j1 j2 (by omega) (by omega) he
      · intro j h1 h2 t ht
        by_cases hji : j = i
        · subst hji
          rw [hfr2]
          · rw [hz2 j (by omega), hdata1, if_pos (by omega)]
            dsimp only [BLOCK_SIZE]
            congr 1; omega
          · intro j' h1' h2'
            apply block_disjoint (ino2.zone j) (ino2.zone j')
            · intro he; have := hd2 j j' (by omega) (by omega) he; omega
            · omega
        · exact hdat2 j (by omega) (by omega) t ht
      · intro a ha
        rw [hfr2 a (fun j h1 h2 => ha j (by omega) (by omega))]
        have := ha i (le_refl _) (by omega)
        rw [hz2 i (by omega)] at this
        rw [hdata1, if_neg this]
/-- The loop of `getMinixDirTable` over an inode whose first blocks hold the bytes `src`:
every record is copied, and the table returned agrees with `src` on the `k` records. -/
theorem getDirRecords_spec (ino : MinixInode) (src D : Bytes) (S k : Nat) (hk : k ≤ 224)
    (hblk : ∀ b, b < numBlocks (k * DIRENTRYSIZE) →
      ino.zone b * 1024 + 1024 ≤ S ∧ ∀ t, t < 1024 → D (ino.zone b * 1024 + t) = src (b * 1024 + t)) :
    ∀ (n i : Nat) (d : Dev) (blk tbl : Bytes),
      i + n = k → d.data = D → d.size = S →
      (i % 32 ≠ 0 → ∀ t, t < 1024 → blk t = src (i / 32 * 1024 + t)) →
      (∀ a, a < 32 * i → tbl a = src a) →
      ∃ d2 t2, getDirRecords ino n i d blk tbl = (d2, some t2) ∧
        ∀ a, a < 32 * k → t2 a = src a := by
  intro n
  induction n with
  | zero =>
    intro i d blk tbl hin hD hS hb ht
    exact ⟨d, tbl, rfl, fun a ha => ht a (by omega)⟩
  | succ n ih =>
    intro i d blk tbl hin hD hS hb ht
    have hik : i < k := by omega
    have hnb : i / 32 < numBlocks (k * DIRENTRYSIZE) := by
      unfold numBlocks DIRENTRYSIZE BLOCK_SIZE
      split <;> omega
    obtain ⟨hz1, hz2⟩ := hblk (i / 32) hnb
    by_cases hj : i % 32 = 0
    · have hget := getDataBlock_direct d (i / 32) ino blk (by omega) (by rw [hS]; exact hz1)
      obtain ⟨d2, t2, heq, hres⟩ := ih (i + 1)
        { d with pos := ino.zone (i / 32) * 1024 + 1024 }
        (fun j => if j < 1024 then d.data (ino.zone (i / 32) * 1024 + j) else blk j)
        (fun a => if 32 * i ≤ a ∧ a < 32 * i + 32
          then (fun j => if j < 1024 then d.data (ino.zone (i / 32) * 1024 + j) else blk j)
            (i % 32 * 32 + (a - 32 * i))
          else tbl a)
        (by omega) hD hS
        (by
          intro hne t ht'
          beta_reduce
          rw [if_pos ht', hD, hz2 t ht']
          exact congrArg src (by omega))
        (by
          intro a ha
          beta_reduce
          by_cases hin' : 32 * i ≤ a ∧ a < 32 * i + 32
          · rw [if_pos hin', if_pos (by omega), hD, hz2 _ (by omega)]
            exact congrArg src (by omega)
          · rw [if_neg hin']
            exact ht a (by omega))
      refine ⟨d2, t2, ?_, hres⟩
      rw [getDirRecords]
      simp only [BLOCK_SIZE, DIRENTRYSIZE, Nat.reduceDiv, Nat.reduceAdd]
      rw [if_pos hj, hget]
      simp only [OK, ERR1]
      rw [if_neg (by decide)]
      exact heq
    · obtain ⟨d2, t2, heq, hres⟩ := ih (i + 1) d blk
        (fun a => if 32 * i ≤ a ∧ a < 32 * i + 32
          then blk (i % 32 * 32 + (a - 32 * i)) else tbl a)
        (by omega) hD hS
        (by
          intro hne t ht'
          rw [hb hj t ht']
          exact congrArg src (by omega))
        (by
          intro a ha
          beta_reduce
          by_cases hin' : 32 * i ≤ a ∧ a < 32 * i + 32
          · rw [if_pos hin', hb hj _ (by omega)]
            exact congrArg src (by omega)
          · rw [if_neg hin']
            exact ht a (by omega))
      refine ⟨d2, t2, ?_, hres⟩
      rw [getDirRecords]
      simp only [BLOCK_SIZE, DIRENTRYSIZE, Nat.reduceDiv, Nat.reduceAdd]
      rw [if_neg hj]
      exact heq
theorem numBlocks_le_seven (k : Nat) (hk : k ≤ 224) : numBlocks (k * DIRENTRYSIZE) ≤ 7 := by
  unfold numBlocks DIRENTRYSIZE BLOCK_SIZE
  split <;> omega

theorem numRequired_eq (k : Nat) (hk : k < 67108864) :
    numRequired k = ((numBlocks (k * DIRENTRYSIZE) : Nat) : Int) := by
  have hmod : k * DIRENTRYSIZE % SIZE_T_MOD = k * DIRENTRYSIZE := by
    unfold DIRENTRYSIZE SIZE_T_MOD; omega
  have hsmall : toInt ((k * DIRENTRYSIZE : Nat) : Int) = ((k * DIRENTRYSIZE : Nat) : Int) :=
    toInt_small _ (by unfold DIRENTRYSIZE; omega)
  unfold numRequired numBlocks
  rw [hmod, hsmall, ← Int.ofNat_tmod, ← Int.ofNat_tdiv]
  by_cases h : k * DIRENTRYSIZE % BLOCK_SIZE = 0
  · rw [if_neg (by rw [h]; simp), if_neg (by rw [h]; simp)]
  · rw [if_pos (by exact_mod_cast h), if_pos h]
    push_cast
    rfl

/-- C3: for `k ≤ 224` records, on a volume that holds its `s_nzones` blocks, with an inode whose
allocated blocks (among those needed) are distinct data zones marked in the zone bitmap, and a
zone bitmap with at least as many free zones as there are unallocated blocks:
`saveMinixDirTable` on the inode with `i_size` set to `32*k` (as `closeMinixDirectory` sets it)
followed by `getMinixDirTable` returns a table, the record count `k`, and the same `k` entries
in the same order. -/
theorem dirTable_roundtrip (sb : MinixSuperBlock) (d : Dev) (zmap : Bytes) (ino : MinixInode)
    (tbl : Bytes) (k : Nat) (hk : k ≤ 224) (hnz : sb.s_nzones < 65536) (hv : ValidBytes zmap)
    (hlen : ino.i_zone.length = 9) (hsz : sb.s_nzones * 1024 ≤ d.size)
    (hused : ∀ j, j < numBlocks (k * DIRENTRYSIZE) → ino.zone j ≠ 0 →
      FIRSTZONE sb ≤ ino.zone j ∧ ino.zone j < sb.s_nzones ∧
        bitSet zmap (ino.zone j - FIRSTZONE sb) = true)
    (hdist : ∀ j1, j1 < numBlocks (k * DIRENTRYSIZE) → ∀ j2, j2 < numBlocks (k * DIRENTRYSIZE) →
      ino.zone j1 ≠ 0 → ino.zone j1 = ino.zone j2 → j1 = j2)
    (hfree : unallocated ino (numBlocks (k * DIRENTRYSIZE)) ≤ freeZones sb zmap) :
    ∃ d1 zmap1 ino1 d2 t2,
      saveMinixDirTable sb d zmap { ino with i_size := DIRENTRYSIZE * k } tbl k
        = (d1, zmap1, ino1) ∧
      getMinixDirTable d1 ino1 = (d2, some t2, k) ∧
      (List.range k).map (entryAt t2) = (List.range k).map (entryAt tbl) := by
  have hr := numBlocks_le_seven k hk
  obtain ⟨d1, zmap1, ino1, heq, hs1, hl1, hsize1, hz1, hnz1, hd1, hdat1, hfr1⟩ :=
    saveDirBlocks_spec sb tbl hnz (numBlocks (k * DIRENTRYSIZE)) 0 d zmap
      { ino with i_size := DIRENTRYSIZE * k }
      ((List.range (sb.s_nzones - FIRSTZONE sb)).filter (fun i => !bitSet zmap i))
      (by omega) hv hlen hsz
      (fun j hj hjz => hused j (by omega) hjz)
      (fun j1 j2 h1 h2 hne he => hdist j1 (by omega) j2 (by omega) hne he)
      (fun j hj => by omega)
      ((List.nodup_range _).filter _)
      (by
        intro x hx
        rw [List.mem_filter, List.mem_range] at hx
        exact ⟨hx.1, by simpa using hx.2⟩)
      (by
        rw [← List.range_eq_range']
        exact hfree)
  obtain ⟨d2, t2, hget, hres⟩ :=
    getDirRecords_spec ino1 tbl d1.data d1.size k hk
      (by
        intro b hb
        refine ⟨?_, fun t ht => hdat1 b (Nat.zero_le _) (by omega) t ht⟩
        have := (hnz1 b (by omega)).2
        rw [hs1]
        omega)
      k 0 d1 freshBuf (fun _ => 0) (by omega) rfl rfl (fun h => absurd rfl h)
      (fun a ha => by omega)
  have hk1 : ino1.i_size / DIRENTRYSIZE = k := by
    rw [hsize1]
    show DIRENTRYSIZE * k / DIRENTRYSIZE = k
    unfold DIRENTRYSIZE; omega
  refine ⟨d1, zmap1, ino1, d2, t2, ?_, ?_, ?_⟩
  · unfold saveMinixDirTable
    rw [numRequired_eq k (by omega), if_neg (by omega), Int.toNat_ofNat]
    exact heq
  · unfold getMinixDirTable
    rw [hk1, hget]
  · apply List.map_congr_left
    intro e he
    rw [List.mem_range] at he
    unfold entryAt
    apply List.map_congr_left
    intro t ht
    rw [List.mem_range] at ht
    exact hres _ (by omega)

theorem oneUsedZmap_valid : ValidBytes oneUsedZmap := by
  intro i; unfold oneUsedZmap; split <;> omega

/-- Witness for C3: a table of 33 records (two blocks) written into an inode without zones, on
a blank volume of 100 blocks whose zone bitmap has one zone in use, reads back unchanged. -/
theorem dirTable_roundtrip_witness :
    ∃ d1 zmap1 ino1 d2 t2,
      saveMinixDirTable (smallSB 32 100) blankDev oneUsedZmap
        { emptyIno with i_size := DIRENTRYSIZE * 33 } patternTbl 33 = (d1, zmap1, ino1) ∧
      getMinixDirTable d1 ino1 = (d2, some t2, 33) ∧
      (List.range 33).map (entryAt t2) = (List.range 33).map (entryAt patternTbl) :=
  dirTable_roundtrip (smallSB 32 100) blankDev oneUsedZmap emptyIno patternTbl 33
    (by decide) (by decide) oneUsedZmap_valid (by decide) (by decide)
    (by decide!) (by decide!) (by decide!)
/-! ## C5 and C6: `findInodeFromPath` -/

/-- C5 at its failing input: on `docsVolume` every segment of `/docs/.` matches an entry
(`docs` is entry 2 of the root table, `.` is entry 0 of the table of `docs`, and `/docs`
alone resolves to inode 2), yet `findInodeFromPath` returns `ERR1` for `/docs/.`: after the
recursive call the test `ix == numrecords` compares the index 2 of `docs` with the record
count 2 of the table of `docs`. -/
theorem findInodeFromPath_matched_path_err :
    findEntry (str "docs") (fun j => docsVolume.data (5 * 1024 + j)) 3 0 = 2 ∧
      findEntry (str ".") (fun j => docsVolume.data (6 * 1024 + j)) 2 0 = 0 ∧
      retCode (findInodeFromPath (smallSB 32 100) docsVolume (str "/docs") uninitInode 0)
        = some 2 ∧
      retCode (findInodeFromPath (smallSB 32 100) docsVolume (str "/docs/.") uninitInode 0)
        = some ERR1 := by
  refine ⟨?_, ?_, ?_, ?_⟩ <;> decide!

/-- C6 at its failing input: in the root directory of `docsetVolume` the entry `docset`
(inode 2) precedes the entry `docs` (inode 3); the segment `docs` is compared over its own
length only, so `docset` is selected: `findInodeFromPath "/docs"` returns inode 2. -/
theorem findInodeFromPath_selects_prefix_entry :
    dentIno (fun j => docsetVolume.data (5 * 1024 + j)) 2 = 2 ∧
      dentIno (fun j => docsetVolume.data (5 * 1024 + j)) 3 = 3 ∧
      findEntry (str "docs") (fun j => docsetVolume.data (5 * 1024 + j)) 4 0 = 2 ∧
      retCode (findInodeFromPath (smallSB 32 100) docsetVolume (str "/docs") uninitInode 0)
        = some 2 := by
  refine ⟨?_, ?_, ?_, ?_⟩ <;> decide!

/-! ## The integer arithmetic of the FAT offsets -/

theorem toInt_of_fits (v : Int) (h : FitsInt v) : toInt v = v := by
  obtain ⟨h1, h2⟩ := h
  unfold toInt
  split <;> omega

theorem toLong_of_range (v : Int) (h1 : -9223372036854775808 ≤ v)
    (h2 : v < 9223372036854775808) : toLong v = v := by
  unfold toLong
  split <;> omega

theorem toInt_emod (v : Int) : toInt v % 4294967296 = v % 4294967296 := by
  unfold toInt
  split <;> omega

theorem toInt_congr (a b : Int) (h : a % 4294967296 = b % 4294967296) : toInt a = toInt b := by
  unfold toInt
  rw [h]

theorem toInt_fits (v : Int) : FitsInt (toInt v) := by
  unfold toInt FitsInt
  split <;> omega

theorem toShort_range (v : Int) : -32768 ≤ toShort v ∧ toShort v < 32768 := by
  unfold toShort
  split <;> omega

theorem ROOTDIR_POS_exact (fbs : FatBootSector) (h : FitsInt (rootDirOffset fbs)) :
    ROOTDIR_POS fbs = rootDirOffset fbs :=
  toInt_of_fits _ h

theorem DATA_POS_exact (fbs : FatBootSector) (h : FitsInt (rootDirOffset fbs))
    (h2 : 0 ≤ dataRegionOffset fbs) : DATA_POS fbs = dataRegionOffset fbs := by
  have hr := toShort_range (fbs.dir_entries : Nat)
  unfold DATA_POS
  rw [ROOTDIR_POS_exact fbs h]
  unfold dataRegionOffset at h2 ⊢
  unfold FitsInt at h
  omega

theorem clusterPos_exact (fbs : FatBootSector) (n : Int) (h : OffsetsFit fbs n) :
    clusterPos fbs n = clusterOffset fbs n := by
  obtain ⟨h1, h2, h3⟩ := h
  have hr := toShort_range (fbs.dir_entries : Nat)
  unfold clusterPos clusterOffset
  split
  · exact ROOTDIR_POS_exact fbs h1
  · rw [DATA_POS_exact fbs h1 h2, toInt_of_fits _ h3]
    unfold dataClusterOffset
    apply toLong_of_range
    · unfold FitsInt at h3; omega
    · unfold FitsInt at h1 h3; unfold dataRegionOffset; omega

theorem getFatDataBlockPos_exact (fbs : FatBootSector) (n : Int) (h : OffsetsFit fbs n) :
    getFatDataBlockPos fbs n = dataClusterOffset fbs n := by
  obtain ⟨h1, h2, h3⟩ := h
  have hr := toShort_range (fbs.dir_entries : Nat)
  unfold getFatDataBlockPos
  rw [DATA_POS_exact fbs h1 h2, toInt_of_fits _ h3]
  unfold dataClusterOffset
  rw [add_comm]
  apply toLong_of_range
  · unfold FitsInt at h3; omega
  · unfold FitsInt at h1 h3; unfold dataRegionOffset; omega

/-- The offset of `getFatDataBlock` is that of `readCluster`, with or without overflow. -/
theorem getFatDataBlockPos_eq_clusterPos (fbs : FatBootSector) (n : Int) (hn : n ≠ 0) :
    getFatDataBlockPos fbs n = clusterPos fbs n := by
  unfold getFatDataBlockPos clusterPos
  rw [if_neg hn, add_comm]

/-- The offset of `processSubDirectory` is the exact offset of the cluster, reduced to an
`int`. -/
theorem processSubDirectoryPos_eq (fbs : FatBootSector) (n : Int) :
    processSubDirectoryPos fbs n = toInt (dataClusterOffset fbs n) := by
  unfold processSubDirectoryPos toFATDataRegion
  apply toInt_congr
  have e1 := toInt_emod ((n - 2) * (SECTOR_SIZE fbs * (fbs.cluster_size : Nat)))
  have e2 := toInt_emod ((toInt (((1 + fbs.fat_length * fbs.fats : Nat) : Int) * SECTOR_SIZE fbs)
    + toShort (fbs.dir_entries : Nat) * 32) % 18446744073709551616)
  have e3 := toInt_emod (((1 + fbs.fat_length * fbs.fats : Nat) : Int) * SECTOR_SIZE fbs)
  have e4 : dataClusterOffset fbs n
      = (n - 2) * (SECTOR_SIZE fbs * (fbs.cluster_size : Nat))
        + (((1 + fbs.fat_length * fbs.fats : Nat) : Int) * SECTOR_SIZE fbs
          + toShort (fbs.dir_entries : Nat) * 32) := by
    unfold dataClusterOffset dataRegionOffset rootDirOffset CLUSTER_SIZE
    push_cast
    ring
  rw [e4]
  omega

theorem processSubDirectoryPos_exact (fbs : FatBootSector) (n : Int)
    (h : FitsInt (dataClusterOffset fbs n)) :
    processSubDirectoryPos fbs n = dataClusterOffset fbs n := by
  rw [processSubDirectoryPos_eq, toInt_of_fits _ h]

/-! ## Cluster chains of the FAT -/

/-- The loop run on the first cluster of a chain, with enough iterations allowed, ends and has
run its body on the clusters of the chain, in order. -/
theorem chainLoop_chain {σ : Type} (fatPtr : Nat → Nat) (body : σ → Nat → σ) :
    ∀ (cs : List Nat) (fuel : Nat) (s : σ), IsChain fatPtr cs → cs.length ≤ fuel →
      chainLoop fatPtr body fuel (cs.headD 0) s = some (cs.foldl body s) := by
  intro cs
  induction cs with
  | nil => intro fuel s h; exact absurd h (by simp [IsChain])
  | cons c rest ih =>
    intro fuel s h hf
    cases fuel with
    | zero => simp at hf
    | succ f =>
      cases rest with
      | nil =>
        have hc : fatPtr c = fatPtr 1 := h
        simp [chainLoop, hc]
      | cons c2 rest2 =>
        obtain ⟨h1, h2, h3⟩ := h
        have := ih f (body s c) h3 (by simpa using hf)
        simp only [List.headD_cons] at this ⊢
        rw [chainLoop, if_neg h1, h2, this]
        rfl

/-- A chain is determined by its first cluster. -/
theorem IsChain_unique (fatPtr : Nat → Nat) :
    ∀ (l1 l2 : List Nat) (c : Nat), IsChain fatPtr (c :: l1) → IsChain fatPtr (c :: l2) →
      l1 = l2 := by
  intro l1
  induction l1 with
  | nil =>
    intro l2 c h1 h2
    cases l2 with
    | nil => rfl
    | cons c2 r2 => exact absurd h1 h2.1
  | cons a r1 ih =>
    intro l2 c h1 h2
    cases l2 with
    | nil => exact absurd h2 h1.1
    | cons b r2 =>
      obtain ⟨_, ha, hr1⟩ := h1
      obtain ⟨_, hb, hr2⟩ := h2
      have hab : a = b := by rw [← ha, ← hb]
      subst hab
      rw [ih r2 a hr1 hr2]

/-- The tail of a chain from any of its clusters on is a chain. -/
theorem IsChain_suffix (fatPtr : Nat → Nat) :
    ∀ (l1 l2 : List Nat) (c : Nat), IsChain fatPtr (l1 ++ c :: l2) → IsChain fatPtr (c :: l2) := by
  intro l1
  induction l1 with
  | nil => intro l2 c h; exact h
  | cons a r1 ih =>
    intro l2 c h
    cases r1 with
    | nil => exact h.2.2
    | cons b r => exact ih l2 c h.2.2

/-- No cluster occurs twice in a chain. -/
theorem IsChain_nodup (fatPtr : Nat → Nat) :
    ∀ cs : List Nat, IsChain fatPtr cs → cs.Nodup := by
  intro cs
  induction cs with
  | nil => intro h; exact absurd h (by simp [IsChain])
  | cons c rest ih =>
    intro h
    rw [List.nodup_cons]
    constructor
    · intro hmem
      obtain ⟨a, b, hab⟩ := List.append_of_mem hmem
      have hsuf : IsChain fatPtr (c :: b) := by
        apply IsChain_suffix fatPtr (c :: a) b c
        rw [List.cons_append, ← hab]; exact h
      have := IsChain_unique fatPtr rest b c h hsuf
      rw [this] at hab
      have hl := congrArg List.length hab
      simp at hl
      omega
    · cases rest with
      | nil => exact List.nodup_nil
      | cons c2 r => exact ih h.2.2

/-- A list of distinct 16-bit numbers has at most 65536 elements. -/
theorem length_le_of_nodup_u16 (cs : List Nat) (hn : cs.Nodup) (h16 : ∀ c ∈ cs, c < 65536) :
    cs.length ≤ 65536 := by
  have hsub : cs ⊆ List.range 65536 := by
    intro x hx; rw [List.mem_range]; exact h16 x hx
  have := (List.subperm_of_subset hn hsub).length_le
  simpa using this

theorem demoFat_chain : IsChain demoFat [3, 4, 5] :=
  ⟨by decide, by decide, by decide, by decide, (by decide : demoFat 5 = demoFat 1)⟩

/-! ## C9 and C10: what the translator creates -/

/-- One pass of the first loop of `copyDirEntries` leaves the world as it was. -/
theorem copyEntry_w (inodeNum parentInodeNum : Int) (st : CopyState) (e : Bytes) :
    (copyEntry inodeNum parentInodeNum st e).w = st.w := by
  unfold copyEntry createMinixDir createMinixFile
  repeat' split
  all_goals rfl

/-- The first loop of `copyDirEntries` leaves the world as it was. -/
theorem copyEntries_w (inodeNum parentInodeNum : Int) (dirTbl : Bytes) (numEntries : Nat)
    (st : CopyState) : (copyEntries inodeNum parentInodeNum dirTbl numEntries st).w = st.w := by
  unfold copyEntries
  generalize List.range numEntries = l
  induction l generalizing st with
  | nil => rfl
  | cons i l ih => rw [List.foldl_cons, ih, copyEntry_w]

/-- A property of the loop state kept by the body is kept by the cluster loop. -/
theorem chainLoop_inv {σ : Type} (fatPtr : Nat → Nat) (body : σ → Nat → σ) (P : σ → Prop)
    (hbody : ∀ s c, P s → P (body s c)) :
    ∀ (fuel c : Nat) (s s2 : σ), P s → chainLoop fatPtr body fuel c s = some s2 → P s2 := by
  intro fuel
  induction fuel with
  | zero => intro c s s2 _ h; simp [chainLoop] at h
  | succ f ih =>
    intro c s s2 hP h
    rw [chainLoop] at h
    split at h
    · cases h; exact hbody s c hP
    · exact ih _ _ _ (hbody s c hP) h

/-- `processSubDirectory` keeps the inode bitmap when `copyDirEntries` does. -/
theorem processSubDirectoryWith_imap (fbs : FatBootSector) (fatPtr : Nat → Nat)
    (copyDir : List Nat → Bytes → Nat → World → Option World)
    (hcopy : ∀ n t k w w2, copyDir n t k w = some w2 → w2.imap = w.imap)
    (de : Bytes) (cur : List Nat) (w w2 : World)
    (h : processSubDirectoryWith fbs fatPtr copyDir de cur w = some w2) : w2.imap = w.imap := by
  unfold processSubDirectoryWith at h
  split at h
  · rename_i w1 buf hloop
    cases h
    have := chainLoop_inv fatPtr _ (fun s => ∀ x, s = some x → x.1.imap = w.imap)
      (by
        intro s c hP x hx
        unfold subDirCluster at hx
        split at hx
        · exact absurd hx (by simp)
        · rename_i w0 sub
          have h0 := hP (w0, sub) rfl
          split at hx
          rename_i fat1 buf1 n hread
          split at hx
          · split at hx
            · exact absurd hx (by simp)
            · rename_i w3 hc
              cases hx
              rw [hcopy _ _ _ _ _ hc]
              exact h0
          · cases hx
            exact h0)
      _ _ _ _ (by intro x hx; cases hx; rfl) hloop
    exact this (w2, buf) rfl
  · exact absurd h (by simp)

/-- `copyDirEntries` keeps the inode bitmap when `processSubDirectory` does. -/
theorem copyDirEntriesWith_imap (sb : MinixSuperBlock)
    (processSub : Bytes → List Nat → World → Option World)
    (hsub : ∀ e n w w2, processSub e n w = some w2 → w2.imap = w.imap)
    (name : List Nat) (dirTbl : Bytes) (numEntries : Nat) (w w2 : World)
    (h : copyDirEntriesWith sb processSub name dirTbl numEntries w = some w2) :
    w2.imap = w.imap := by
  unfold copyDirEntriesWith at h
  split at h
  · exact absurd h (by simp)
  · cases h; rfl
  · rename_i mx1 tbl numRecords inodeNum parentInodeNum ino hopen
    dsimp only at h
    have key : ∀ (l : List Nat) (ow : Option World),
        (∀ x, ow = some x → x.imap = w.imap) →
        ∀ y, l.foldl (fun ow i =>
            match ow with
            | none => none
            | some w1 =>
              if isSubDirEntry (fun j => dirTbl (32 * i + j)) then
                processSub (fun j => dirTbl (32 * i + j)) name w1
              else some w1) ow = some y → y.imap = w.imap := by
      intro l
      induction l with
      | nil => intro ow hP y hy; exact hP y hy
      | cons i l ih =>
        intro ow hP y hy
        rw [List.foldl_cons] at hy
        refine ih _ ?_ y hy
        intro x hx
        split at hx
        · exact absurd hx (by simp)
        · rename_i w1
          have h1 := hP w1 rfl
          split at hx
          · rw [hsub _ _ _ _ hx]; exact h1
          · cases hx; exact h1
    refine key _ _ ?_ w2 h
    intro x hx
    cases hx
    show (copyEntries _ _ _ _ _).w.imap = _
    rw [copyEntries_w]

/-- No run of `copyDirEntries` changes the inode bitmap: no inode is ever allocated. -/
theorem copyDirEntries_imap (sb : MinixSuperBlock) (fbs : FatBootSector) (fatPtr : Nat → Nat) :
    ∀ (fuel : Nat) (name : List Nat) (dirTbl : Bytes) (numEntries : Nat) (w w2 : World),
      copyDirEntries sb fbs fatPtr fuel name dirTbl numEntries w = some w2 →
      w2.imap = w.imap := by
  intro fuel
  induction fuel with
  | zero => intro name dirTbl numEntries w w2 h; simp [copyDirEntries] at h
  | succ f ih =>
    intro name dirTbl numEntries w w2 h
    rw [copyDirEntries] at h
    exact copyDirEntriesWith_imap sb _
      (fun e n w w2 h => processSubDirectoryWith_imap fbs fatPtr _ ih e n w w2 h)
      name dirTbl numEntries w w2 h

/-- No run of `copyFatDir` changes the inode bitmap, whatever the two volumes hold. -/
theorem copyFatDir_imap (sb : MinixSuperBlock) (fbs : FatBootSector) (fatPtr : Nat → Nat)
    (fuel : Nat) (w w2 : World) (h : copyFatDir sb fbs fatPtr fuel w = some w2) :
    w2.imap = w.imap := by
  unfold copyFatDir at h
  split at h
  have key := copyDirEntries_imap sb fbs fatPtr fuel _ _ _ _ _ h
  exact key

/-- C9 at its failing inputs: the first loop of `copyDirEntries` run on the file entry `B.TXT`
and on the sub-directory entry `DOCS` of the example FAT root directory counts one more
record, but slot 2 of the Minix directory table stays zero (no name, no inode number) and the
inode bitmap is not changed (no inode is allocated): `createMinixFile` and `createMinixDir`
store nothing. -/
theorem copyEntry_fills_no_slot :
    getFatName demoBTxtEntry = str "b.txt" ∧ getFatName demoDocsEntry = str "docs" ∧
      (copyEntry 1 1 demoCopyState demoBTxtEntry).numRecords = 3 ∧
      entryAt (copyEntry 1 1 demoCopyState demoBTxtEntry).tbl 2 = List.replicate 32 0 ∧
      (copyEntry 1 1 demoCopyState demoBTxtEntry).w.imap = demoWorld.imap ∧
      (copyEntry 1 1 demoCopyState demoDocsEntry).numRecords = 3 ∧
      entryAt (copyEntry 1 1 demoCopyState demoDocsEntry).tbl 2 = List.replicate 32 0 ∧
      (copyEntry 1 1 demoCopyState demoDocsEntry).w.imap = demoWorld.imap := by
  refine ⟨by decide!, by decide!, by decide!, by decide!, ?_, by decide!, by decide!, ?_⟩
  · rw [copyEntry_w]; rfl
  · rw [copyEntry_w]; rfl

/-- C10 at its failing input: `copyFatDir` run on the example FAT volume (root: sub-directory
`DOCS` holding `.`, `..` and `A.TXT` of 3 clusters, and the empty file `B.TXT`) against the
example empty Minix volume ends with a root inode of 4 records whose records 2 and 3 are
zero: neither `/docs` nor `/b.txt` nor `/docs/a.txt` resolves, and the first bytes of the inode
bitmap still mark inodes 0 and 1 only. -/
theorem copyFatDir_example_creates_nothing :
    (copyFatDir (smallSB 32 100) demoFbs demoFat 3 demoWorld).map
        (fun w => (readInode (smallSB 32 100) w.mx 1 uninitInode).2.2.i_size) = some 128 ∧
      (copyFatDir (smallSB 32 100) demoFbs demoFat 3 demoWorld).map
        (fun w => (List.range 4).map (entryAt (fun j => w.mx.data (5 * 1024 + j))))
        = some [dentryBytes 1 ".", dentryBytes 1 "..", List.replicate 32 0,
            List.replicate 32 0] ∧
      (copyFatDir (smallSB 32 100) demoFbs demoFat 3 demoWorld).map
        (fun w => retCode (findInodeFromPath (smallSB 32 100) w.mx (str "/docs") uninitInode 0))
        = some (some ERR1) ∧
      (copyFatDir (smallSB 32 100) demoFbs demoFat 3 demoWorld).map
        (fun w => retCode (findInodeFromPath (smallSB 32 100) w.mx (str "/b.txt") uninitInode 0))
        = some (some ERR1) ∧
      (copyFatDir (smallSB 32 100) demoFbs demoFat 3 demoWorld).map
        (fun w => retCode
          (findInodeFromPath (smallSB 32 100) w.mx (str "/docs/a.txt") uninitInode 0))
        = some (some ERR1) ∧
      (copyFatDir (smallSB 32 100) demoFbs demoFat 3 demoWorld).map
        (fun w => (List.range 4).map w.imap) = some [3, 0, 0, 0] := by
  refine ⟨?_, ?_, ?_, ?_, ?_, ?_⟩ <;> decide!

/-! ## C7: the clusters read by `processSubDirectory` -/

/-- Once the loop state is lost, it stays lost. -/
theorem foldl_subDirCluster_none (fbs : FatBootSector)
    (copyDir : List Nat → Bytes → Nat → World → Option World) (minixName : List Nat) :
    ∀ cs : List Nat, cs.foldl (subDirCluster fbs copyDir minixName) none = none := by
  intro cs
  induction cs with
  | nil => rfl
  | cons c cs ih => rw [List.foldl_cons]; exact ih

/-- One pass of the cluster loop of `processSubDirectory` on a cluster that lies within the
volume: the content of the cluster is read and handed to `copyDirEntries`. -/
theorem subDirCluster_inVolume (fbs : FatBootSector)
    (copyDir : List Nat → Bytes → Nat → World → Option World) (minixName : List Nat)
    (fat0 : Dev) (w : World) (buf : Bytes) (c : Nat) (hcsz : 0 < CLUSTER_SIZE fbs)
    (hd : w.fat.data = fat0.data) (hs : w.fat.size = fat0.size)
    (hbuf : ∀ j, (CLUSTER_SIZE fbs).toNat ≤ j → buf j = 0)
    (hvol : ClusterInVolume fbs fat0 c) :
    subDirCluster fbs copyDir minixName (some (w, buf)) c
      = (copyDir minixName (clusterContent fbs fat0 c) (numSubDirEntries fbs)
          { w with fat :=
            { fat0 with pos := (dataClusterOffset fbs c).toNat + (CLUSTER_SIZE fbs).toNat } }).map
          (fun w1 => (w1, clusterContent fbs fat0 c)) := by
  obtain ⟨h1, h2, h3⟩ := hvol
  have hpos : processSubDirectoryPos fbs (c : Int) = dataClusterOffset fbs c :=
    processSubDirectoryPos_exact fbs c ⟨by omega, h2⟩
  have hneg : ¬ (dataClusterOffset fbs (c : Int) < 0) := by omega
  have hcs : SECTOR_SIZE fbs * ((fbs.cluster_size : Nat) : Int) = CLUSTER_SIZE fbs := rfl
  have hmin : min (CLUSTER_SIZE fbs).toNat (w.fat.size - (dataClusterOffset fbs (c : Int)).toNat)
      = (CLUSTER_SIZE fbs).toNat := by
    rw [hs]; omega
  have hgt : (CLUSTER_SIZE fbs).toNat > 0 := by omega
  have hb : (fun j => if j < (CLUSTER_SIZE fbs).toNat
        then w.fat.data ((dataClusterOffset fbs (c : Int)).toNat + j) else buf j)
      = clusterContent fbs fat0 c := by
    funext j
    unfold clusterContent
    by_cases hj : j < (CLUSTER_SIZE fbs).toNat
    · rw [if_pos hj, if_pos hj, hd]
    · rw [if_neg hj, if_neg hj]
      exact hbuf j (by omega)
  unfold subDirCluster
  simp only [hpos, hcs, sysLseek, sysRead, if_neg hneg, hmin, if_pos hgt, hb]
  rw [hd, hs]
  unfold numSubDirEntries
  cases copyDir minixName (clusterContent fbs fat0 c) (CLUSTER_SIZE fbs / 32).toNat
      { w with fat :=
        { fat0 with pos := (dataClusterOffset fbs c).toNat + (CLUSTER_SIZE fbs).toNat } } with
  | none => rfl
  | some w1 => rfl

/-- The passes of the cluster loop over clusters that lie within the volume. -/
theorem foldl_subDirCluster (fbs : FatBootSector)
    (copyDir : List Nat → Bytes → Nat → World → Option World) (minixName : List Nat)
    (fat0 : Dev) (hcsz : 0 < CLUSTER_SIZE fbs)
    (hcopy : ∀ n t k w1 w2, copyDir n t k w1 = some w2 →
      w2.fat.data = w1.fat.data ∧ w2.fat.size = w1.fat.size) :
    ∀ (cs : List Nat) (w : World) (buf : Bytes),
      w.fat.data = fat0.data → w.fat.size = fat0.size →
      (∀ j, (CLUSTER_SIZE fbs).toNat ≤ j → buf j = 0) →
      (∀ c ∈ cs, ClusterInVolume fbs fat0 c) →
      (cs.foldl (subDirCluster fbs copyDir minixName) (some (w, buf))).map Prod.fst
        = visitClusters fbs copyDir minixName fat0 cs w := by
  intro cs
  induction cs with
  | nil => intro w buf _ _ _ _; rfl
  | cons c cs ih =>
    intro w buf hd hs hbuf hvol
    rw [List.foldl_cons, subDirCluster_inVolume fbs copyDir minixName fat0 w buf c hcsz hd hs
      hbuf (hvol c (by simp))]
    unfold visitClusters
    cases hc : copyDir minixName (clusterContent fbs fat0 c) (numSubDirEntries fbs)
        { w with fat :=
          { fat0 with pos := (dataClusterOffset fbs c).toNat + (CLUSTER_SIZE fbs).toNat } } with
    | none =>
      simp only [Option.map_none']
      rw [foldl_subDirCluster_none]
      rfl
    | some w1 =>
      obtain ⟨e1, e2⟩ := hcopy _ _ _ _ _ hc
      simp only [Option.map_some']
      exact ih w1 (clusterContent fbs fat0 c) e1 e2
        (fun j hj => by unfold clusterContent; rw [if_neg (by omega)])
        (fun c2 h2 => hvol c2 (List.mem_cons_of_mem _ h2))

/-- The walk has a result when every call of `copyDir` has one. -/
theorem visitClusters_isSome (fbs : FatBootSector)
    (copyDir : List Nat → Bytes → Nat → World → Option World) (minixName : List Nat)
    (fat0 : Dev) (htot : ∀ n t k w1, (copyDir n t k w1).isSome = true) :
    ∀ (cs : List Nat) (w : World),
      (visitClusters fbs copyDir minixName fat0 cs w).isSome = true := by
  intro cs
  induction cs with
  | nil => intro w; rfl
  | cons c cs ih =>
    intro w
    unfold visitClusters
    have h := htot minixName (clusterContent fbs fat0 c) (numSubDirEntries fbs)
      { w with fat :=
        { fat0 with pos := (dataClusterOffset fbs c).toNat + (CLUSTER_SIZE fbs).toNat } }
    cases hc : copyDir minixName (clusterContent fbs fat0 c) (numSubDirEntries fbs)
        { w with fat :=
          { fat0 with pos := (dataClusterOffset fbs c).toNat + (CLUSTER_SIZE fbs).toNat } } with
    | none => rw [hc] at h; exact absurd h (by simp)
    | some w1 => exact ih w1

/-- C7, as stated, fails: with clusters of 64 KiB and the chain that consists of cluster 40000
alone, which lies within the volume of 4 GiB at offset 2621310464 and starts with byte 170,
`processSubDirectory` seeks an offset that does not fit an `int` (-1673656832 is passed to
`lseek`, which fails) and reads the 65536 bytes at the position the volume had, 0: the table
handed on starts with byte 0, and the volume stands at 65536, not at the end of
cluster 40000. -/
theorem processSubDirectory_reads_stale_position :
    fatStart bigSubEntry 0 = 40000 ∧ endFat 40000 = endFat 1 ∧
      CLUSTER_SIZE bigClusterFbs = 65536 ∧
      dataClusterOffset bigClusterFbs 40000 = 2621310464 ∧
      2621310464 + 65536 ≤ bigWorld.fat.size ∧ bigWorld.fat.data 2621310464 = 170 ∧
      bigWorld.fat.pos = 0 ∧ bigWorld.fat.data 0 = 0 ∧
      processSubDirectoryPos bigClusterFbs 40000 = -1673656832 ∧
      (processSubDirectoryWith bigClusterFbs endFat keepTable bigSubEntry (str "/") bigWorld).map
        (fun w => (w.imap 0, w.fat.pos)) = some (0, 65536) := by
  refine ⟨?_, ?_, ?_, ?_, ?_, ?_, ?_, ?_, ?_, ?_⟩ <;> decide!

/-- C7, amended: when the links of the FAT from the start cluster `de->start` form a chain
`c0, ..., c(n-1)` of 16-bit cluster numbers (each link leads to the next cluster, the link of
`c(n-1)` being the first equal to the end-of-chain value `fatPtr[1]`), the clusters lie within
the volume at offsets that an `int` holds, the cluster size is positive, and the function
called for `copyDirEntries` leaves the content and the size of the FAT volume alone: no
cluster occurs twice in the chain, and `processSubDirectory` does what `visitClusters`
describes: for `c0, ..., c(n-1)`, in this order and once each, the bytes of the cluster are
read (the FAT volume stands at the end of the cluster) and handed to `copyDirEntries` under the
name of the sub-directory; nothing else is read, and the walk ends whenever the calls of
`copyDirEntries` do. -/
theorem processSubDirectory_walks_chain (fbs : FatBootSector) (fatPtr : Nat → Nat)
    (copyDir : List Nat → Bytes → Nat → World → Option World)
    (de : Bytes) (curMinixPath : List Nat) (w : World) (cs : List Nat)
    (hcsz : 0 < CLUSTER_SIZE fbs) (hchain : IsChain fatPtr cs)
    (hstart : cs.headD 0 = fatStart de 0) (h16 : ∀ c ∈ cs, c < 65536)
    (hvol : ∀ c ∈ cs, ClusterInVolume fbs w.fat c)
    (hcopy : ∀ n t k w1 w2, copyDir n t k w1 = some w2 →
      w2.fat.data = w1.fat.data ∧ w2.fat.size = w1.fat.size) :
    cs.Nodup ∧
    processSubDirectoryWith fbs fatPtr copyDir de curMinixPath w
      = visitClusters fbs copyDir
          (if curMinixPath = str "/" then 47 :: getFatName de
           else curMinixPath ++ 47 :: getFatName de) w.fat cs w ∧
    ((∀ n t k w1, (copyDir n t k w1).isSome = true) →
      (processSubDirectoryWith fbs fatPtr copyDir de curMinixPath w).isSome = true) := by
  have hnodup := IsChain_nodup fatPtr cs hchain
  have hloop := chainLoop_chain fatPtr
    (subDirCluster fbs copyDir
      (if curMinixPath = str "/" then 47 :: getFatName de
       else curMinixPath ++ 47 :: getFatName de)) cs 65536 (some (w, freshBuf)) hchain
    (length_le_of_nodup_u16 cs hnodup h16)
  have hfold := foldl_subDirCluster fbs copyDir
    (if curMinixPath = str "/" then 47 :: getFatName de
     else curMinixPath ++ 47 :: getFatName de) w.fat hcsz hcopy cs w freshBuf rfl rfl
    (fun _ _ => rfl) hvol
  have heq : processSubDirectoryWith fbs fatPtr copyDir de curMinixPath w
      = visitClusters fbs copyDir
          (if curMinixPath = str "/" then 47 :: getFatName de
           else curMinixPath ++ 47 :: getFatName de) w.fat cs w := by
    unfold processSubDirectoryWith
    rw [← hstart, hloop, ← hfold]
    cases cs.foldl (subDirCluster fbs copyDir
      (if curMinixPath = str "/" then 47 :: getFatName de
       else curMinixPath ++ 47 :: getFatName de)) (some (w, freshBuf)) with
    | none => rfl
    | some x => rfl
  refine ⟨hnodup, heq, ?_⟩
  intro htot
  rw [heq]
  exact visitClusters_isSome fbs copyDir _ w.fat htot cs w

/-- `processSubDirectory` leaves the content and the size of the FAT volume alone when
`copyDirEntries` does. -/
theorem processSubDirectoryWith_fat (fbs : FatBootSector) (fatPtr : Nat → Nat)
    (copyDir : List Nat → Bytes → Nat → World → Option World)
    (hcopy : ∀ n t k w w2, copyDir n t k w = some w2 →
      w2.fat.data = w.fat.data ∧ w2.fat.size = w.fat.size)
    (de : Bytes) (cur : List Nat) (w w2 : World)
    (h : processSubDirectoryWith fbs fatPtr copyDir de cur w = some w2) :
    w2.fat.data = w.fat.data ∧ w2.fat.size = w.fat.size := by
  unfold processSubDirectoryWith at h
  split at h
  · rename_i w1 buf hloop
    cases h
    have := chainLoop_inv fatPtr _
      (fun s => ∀ x, s = some x → x.1.fat.data = w.fat.data ∧ x.1.fat.size = w.fat.size)
      (by
        intro s c hP x hx
        unfold subDirCluster at hx
        split at hx
        · exact absurd hx (by simp)
        · rename_i w0 sub
          have h0 := hP (w0, sub) rfl
          split at hx
          rename_i fat1 buf1 n hread
          have hf1 : fat1.data = w0.fat.data ∧ fat1.size = w0.fat.size := by
            have e := congrArg Prod.fst hread
            simp only at e
            rw [← e]
            unfold sysRead sysLseek
            split <;> exact ⟨rfl, rfl⟩
          split at hx
          · split at hx
            · exact absurd hx (by simp)
            · rename_i w3 hc
              cases hx
              obtain ⟨e1, e2⟩ := hcopy _ _ _ _ _ hc
              exact ⟨by rw [e1]; exact hf1.1.trans h0.1, by rw [e2]; exact hf1.2.trans h0.2⟩
          · cases hx
            exact ⟨hf1.1.trans h0.1, hf1.2.trans h0.2⟩)
      _ _ _ _ (by intro x hx; cases hx; exact ⟨rfl, rfl⟩) hloop
    exact this (w2, buf) rfl
  · exact absurd h (by simp)

/-- `copyDirEntries` leaves the content and the size of the FAT volume alone when
`processSubDirectory` does. -/
theorem copyDirEntriesWith_fat (sb : MinixSuperBlock)
    (processSub : Bytes → List Nat → World → Option World)
    (hsub : ∀ e n w w2, processSub e n w = some w2 →
      w2.fat.data = w.fat.data ∧ w2.fat.size = w.fat.size)
    (name : List Nat) (dirTbl : Bytes) (numEntries : Nat) (w w2 : World)
    (h : copyDirEntriesWith sb processSub name dirTbl numEntries w = some w2) :
    w2.fat.data = w.fat.data ∧ w2.fat.size = w.fat.size := by
  unfold copyDirEntriesWith at h
  split at h
  · exact absurd h (by simp)
  · cases h; exact ⟨rfl, rfl⟩
  · rename_i mx1 tbl numRecords inodeNum parentInodeNum ino hopen
    dsimp only at h
    have key : ∀ (l : List Nat) (ow : Option World),
        (∀ x, ow = some x → x.fat.data = w.fat.data ∧ x.fat.size = w.fat.size) →
        ∀ y, l.foldl (fun ow i =>
            match ow with
            | none => none
            | some w1 =>
              if isSubDirEntry (fun j => dirTbl (32 * i + j)) then
                processSub (fun j => dirTbl (32 * i + j)) name w1
              else some w1) ow = some y → y.fat.data = w.fat.data ∧ y.fat.size = w.fat.size := by
      intro l
      induction l with
      | nil => intro ow hP y hy; exact hP y hy
      | cons i l ih =>
        intro ow hP y hy
        rw [List.foldl_cons] at hy
        refine ih _ ?_ y hy
        intro x hx
        split at hx
        · exact absurd hx (by simp)
        · rename_i w1
          have h1 := hP w1 rfl
          split at hx
          · obtain ⟨e1, e2⟩ := hsub _ _ _ _ hx
            exact ⟨e1.trans h1.1, e2.trans h1.2⟩
          · cases hx; exact h1
    refine key _ _ ?_ w2 h
    intro x hx
    cases hx
    show (copyEntries _ _ _ _ _).w.fat.data = _ ∧ (copyEntries _ _ _ _ _).w.fat.size = _
    rw [copyEntries_w]
    exact ⟨rfl, rfl⟩

/-- No run of `copyDirEntries` changes the content or the size of the FAT volume. -/
theorem copyDirEntries_fat (sb : MinixSuperBlock) (fbs : FatBootSector) (fatPtr : Nat → Nat) :
    ∀ (fuel : Nat) (name : List Nat) (dirTbl : Bytes) (numEntries : Nat) (w w2 : World),
      copyDirEntries sb fbs fatPtr fuel name dirTbl numEntries w = some w2 →
      w2.fat.data = w.fat.data ∧ w2.fat.size = w.fat.size := by
  intro fuel
  induction fuel with
  | zero => intro name dirTbl numEntries w w2 h; simp [copyDirEntries] at h
  | succ f ih =>
    intro name dirTbl numEntries w w2 h
    rw [copyDirEntries] at h
    exact copyDirEntriesWith_fat sb _
      (fun e n w w2 h => processSubDirectoryWith_fat fbs fatPtr _ ih e n w w2 h)
      name dirTbl numEntries w w2 h

theorem demoWorld_clusters : ∀ c ∈ [3, 4, 5], ClusterInVolume demoFbs demoWorld.fat c := by
  unfold ClusterInVolume
  decide!

/-- Witness for C7, amended: in the example FAT the clusters 3, 4, 5 form a chain;
`processSubDirectory` run on a directory entry that starts at cluster 3 hands the content of
the clusters 3, 4 and 5 to `copyDirEntries`. -/
theorem processSubDirectory_walks_chain_witness :
    0 < CLUSTER_SIZE demoFbs ∧ IsChain demoFat [3, 4, 5] ∧
      [3, 4, 5].headD 0 = fatStart demoSubEntry 0 ∧ (∀ c ∈ [3, 4, 5], c < 65536) ∧
      (∀ c ∈ [3, 4, 5], ClusterInVolume demoFbs demoWorld.fat c) ∧
      [3, 4, 5].Nodup ∧
      processSubDirectory (smallSB 32 100) demoFbs demoFat 2 demoSubEntry (str "/") demoWorld
        = visitClusters demoFbs (copyDirEntries (smallSB 32 100) demoFbs demoFat 2)
            (if str "/" = str "/" then 47 :: getFatName demoSubEntry
             else str "/" ++ 47 :: getFatName demoSubEntry) demoWorld.fat [3, 4, 5] demoWorld ∧
      ((∀ n t k w1,
          (copyDirEntries (smallSB 32 100) demoFbs demoFat 2 n t k w1).isSome = true) →
        (processSubDirectory (smallSB 32 100) demoFbs demoFat 2 demoSubEntry (str "/")
          demoWorld).isSome = true) :=
  ⟨by decide!, demoFat_chain, by decide!, by decide, demoWorld_clusters,
    processSubDirectory_walks_chain demoFbs demoFat
      (copyDirEntries (smallSB 32 100) demoFbs demoFat 2) demoSubEntry (str "/") demoWorld
      [3, 4, 5] (by decide!) demoFat_chain (by decide!) (by decide) demoWorld_clusters
      (copyDirEntries_fat (smallSB 32 100) demoFbs demoFat 2)⟩

/-! ## C8: resolution of FAT directory paths -/

theorem strncmpZero_congr : ∀ (n : Nat) (seg : List Nat) (a b : Bytes),
    (∀ j, j < n → a j = b j) → strncmpZero seg a n = strncmpZero seg b n := by
  intro n
  induction n with
  | zero => intro seg a b _; simp [strncmpZero]
  | succ n ih =>
    intro seg a b h
    cases seg with
    | nil => simp [strncmpZero, h 0 (by omega)]
    | cons c cs =>
      simp only [strncmpZero, h 0 (by omega)]
      rw [ih cs (fun j => a (j + 1)) (fun j => b (j + 1)) (fun j hj => h (j + 1) (by omega))]

/-- The search of `scanSubDirectories` looks at the bytes of the entries only. -/
theorem findFatEntry_congr (seg : List Nat) (t1 t2 : Bytes) (n : Nat) (hseg : seg.length ≤ 32)
    (h : ∀ j, j < 32 * n → t1 j = t2 j) :
    ∀ m ix, ix + m ≤ n → findFatEntry seg t1 m ix = findFatEntry seg t2 m ix := by
  intro m
  induction m with
  | zero => intro ix _; rfl
  | succ m ih =>
    intro ix hix
    have ha : fatAttr t1 ix = fatAttr t2 ix := by
      unfold fatAttr; exact h _ (by omega)
    have hc : strncmpZero seg (fun j => t1 (32 * ix + j)) seg.length
        = strncmpZero seg (fun j => t2 (32 * ix + j)) seg.length :=
      strncmpZero_congr _ _ _ _ (fun j hj => h _ (by omega))
    rw [findFatEntry, findFatEntry, ha, hc, ih (ix + 1) (by omega)]

/-- An entry found by the search of `scanSubDirectories` has the directory attribute. -/
theorem findFatEntry_attr (seg : List Nat) (t : Bytes) :
    ∀ m ix, findFatEntry seg t m ix < ix + m →
      fatAttr t (findFatEntry seg t m ix) &&& ATTR_DIR ≠ 0 := by
  intro m
  induction m with
  | zero => intro ix h; simp [findFatEntry] at h
  | succ m ih =>
    intro ix h
    rw [findFatEntry] at h ⊢
    split
    · rename_i hc; exact hc.1
    · rename_i hc
      rw [if_neg hc] at h
      exact ih (ix + 1) (by omega)

theorem segName_segment (s : List Nat) (h : 47 ∉ s) : segName s = s := by
  unfold segName
  rw [List.takeWhile_eq_self_iff]
  intro x hx
  have : x ≠ 47 := fun e => h (e ▸ hx)
  simpa using this

theorem segRest_segment (s : List Nat) (h : 47 ∉ s) : segRest s = [] := by
  unfold segRest
  have : s.dropWhile (fun c => c != 47) = [] := by
    rw [List.dropWhile_eq_nil_iff]
    intro x hx
    have : x ≠ 47 := fun e => h (e ▸ hx)
    simpa using this
  rw [this]; rfl

theorem segName_append (s r : List Nat) (h : 47 ∉ s) : segName (s ++ 47 :: r) = s := by
  unfold segName
  induction s with
  | nil => simp
  | cons x xs ih =>
    have hx : x ≠ 47 := fun e => h (by simp [e])
    have hxs : 47 ∉ xs := fun e => h (by simp [e])
    simp [List.takeWhile_cons, hx, ih hxs]

theorem segRest_append (s r : List Nat) (h : 47 ∉ s) : segRest (s ++ 47 :: r) = r := by
  unfold segRest
  induction s with
  | nil => simp
  | cons x xs ih =>
    have hx : x ≠ 47 := fun e => h (by simp [e])
    have hxs : 47 ∉ xs := fun e => h (by simp [e])
    simp only [List.cons_append, List.dropWhile_cons]
    rw [if_pos (by simpa using hx)]
    exact ih hxs
theorem OK_ne_ERR1 : OK ≠ ERR1 := by decide

/-- The last level of `scanSubDirectories`: the path is one segment. -/
theorem scan_last (fbs : FatBootSector) (f : Nat) (d : Dev) (s : List Nat) (tbl : Bytes)
    (dir : FatDir) (pc : Nat) (hs : 47 ∉ s) :
    scanSubDirectories fbs (f + 1) d s tbl dir pc =
      if findFatEntry s tbl (numSubDirEntries fbs) 0 < numSubDirEntries fbs then
        some ((readCluster fbs d
            (fatStart tbl (findFatEntry s tbl (numSubDirEntries fbs) 0) : Nat) dir.table).1, OK,
          { name := [],
            clusterNum := fatStart tbl (findFatEntry s tbl (numSubDirEntries fbs) 0),
            parentCluster := pc,
            table := (readCluster fbs d
              (fatStart tbl (findFatEntry s tbl (numSubDirEntries fbs) 0) : Nat) dir.table).2,
            numEntries := CLUSTER_SIZE fbs / 32, size := CLUSTER_SIZE fbs })
      else some (d, ERR1, dir) := by
  rw [scanSubDirectories, segName_segment s hs, segRest_segment s hs]
  simp only [if_true]

/-- An inner level of `scanSubDirectories`: the path goes on after its first segment. -/
theorem scan_descend (fbs : FatBootSector) (f : Nat) (d : Dev) (s0 rest : List Nat)
    (tbl : Bytes) (dir : FatDir) (pc : Nat) (hs : 47 ∉ s0) (hrest : rest ≠ []) :
    scanSubDirectories fbs (f + 1) d (s0 ++ 47 :: rest) tbl dir pc =
      if findFatEntry s0 tbl (numSubDirEntries fbs) 0 < numSubDirEntries fbs then
        scanSubDirectories fbs f
          (readCluster fbs d
            (fatStart tbl (findFatEntry s0 tbl (numSubDirEntries fbs) 0) : Nat) freshBuf).1
          rest
          (readCluster fbs d
            (fatStart tbl (findFatEntry s0 tbl (numSubDirEntries fbs) 0) : Nat) freshBuf).2
          dir (fatStart tbl (findFatEntry s0 tbl (numSubDirEntries fbs) 0))
      else some (d, ERR1, dir) := by
  rw [scanSubDirectories, segName_append s0 rest hs, segRest_append s0 rest hs]
  simp only [hrest, if_false]
theorem numSubDirEntries_le (fbs : FatBootSector) :
    32 * numSubDirEntries fbs ≤ (CLUSTER_SIZE fbs).toNat := by
  unfold numSubDirEntries; omega

theorem fatAttr_congr (t1 t2 : Bytes) (n ix : Nat) (hix : ix < n)
    (h : ∀ j, j < 32 * n → t1 j = t2 j) : fatAttr t1 ix = fatAttr t2 ix := by
  unfold fatAttr; exact h _ (by omega)

theorem fatStart_congr (t1 t2 : Bytes) (n ix : Nat) (hix : ix < n)
    (h : ∀ j, j < 32 * n → t1 j = t2 j) : fatStart t1 ix = fatStart t2 ix := by
  unfold fatStart getLE16; rw [h _ (by omega), h _ (by omega)]

theorem relPath_cons_cons (s0 s1 : List Nat) (t : List (List Nat)) :
    relPath (s0 :: s1 :: t) = s0 ++ 47 :: relPath (s1 :: t) := rfl

theorem relPath_ne_nil (segs : List (List Nat)) (hne : segs ≠ [])
    (h : ∀ x ∈ segs, IsSegment x) : relPath segs ≠ [] := by
  cases segs with
  | nil => exact absurd rfl hne
  | cons s0 t =>
    cases t with
    | nil => exact (h s0 (by simp)).1
    | cons s1 t => rw [relPath_cons_cons]; simp

theorem relPath_length (segs : List (List Nat)) (h : ∀ x ∈ segs, IsSegment x) :
    segs.length ≤ (relPath segs).length := by
  induction segs with
  | nil => simp
  | cons s0 t ih =>
    have h0 : 1 ≤ s0.length := by
      have := (h s0 (by simp)).1
      cases s0 with
      | nil => exact absurd rfl this
      | cons _ _ => simp
    cases t with
    | nil => simpa [relPath] using h0
    | cons s1 t2 =>
      have := ih (fun x hx => h x (List.mem_cons_of_mem _ hx))
      rw [relPath_cons_cons]
      simp only [List.length_append, List.length_cons] at this ⊢
      omega

theorem str_slash : str "/" = [47] := by decide

/-- C8, as stated, fails: the root directory of `prefixFatDev` holds the sub-directories
`DOCSET` (starting cluster 2) and `DOCS` (starting cluster 3), in this order; the handle
produced for the path `/DOCS` has `clusterNum` 2, not the starting cluster 3 recorded in the
entry named `DOCS`. -/
theorem getFatDirTable_takes_prefix_entry :
    (List.range 11).map (fun j => prefixFatDev.data (1024 + 32 * 1 + j)) = str "DOCS       " ∧
      fatStart (fun j => prefixFatDev.data (1024 + j)) 1 = 3 ∧
      (List.range 11).map (fun j => prefixFatDev.data (1024 + 32 * 0 + j)) = str "DOCSET     " ∧
      fatStart (fun j => prefixFatDev.data (1024 + j)) 0 = 2 ∧
      (getFatDirTable demoFbs prefixFatDev (str "/DOCS") blankFatDir).map
        (fun r => (r.2.1, r.2.2.clusterNum)) = some (OK, 2) ∧
      (openFatDirectory demoFbs prefixFatDev (str "/DOCS")).map
        (fun r => r.2.map (fun h => h.clusterNum)) = some (some 2) := by
  refine ⟨?_, ?_, ?_, ?_, ?_, ?_⟩ <;> decide!
/-- A cluster that lies within the volume is read in full, wherever the position was. -/
theorem readCluster_readable (fbs : FatBootSector) (d0 d : Dev) (c : Nat) (buf : Bytes)
    (hd : d.data = d0.data) (hs : d.size = d0.size) (hr : Readable fbs d0 c) :
    ∃ d1 b, readCluster fbs d (c : Int) buf = (d1, b) ∧ d1.data = d0.data ∧ d1.size = d0.size ∧
      ∀ j, j < (CLUSTER_SIZE fbs).toNat → b j = clusterBytes fbs d0 c j := by
  obtain ⟨hfit, h1, h2⟩ := hr
  have hpos := clusterPos_exact fbs c hfit
  have hneg : ¬ (clusterOffset fbs (c : Int) < 0) := by omega
  have hmin : min (CLUSTER_SIZE fbs).toNat (d.size - (clusterOffset fbs (c : Int)).toNat)
      = (CLUSTER_SIZE fbs).toNat := by
    rw [hs]; omega
  refine ⟨_, _, rfl, ?_, ?_, ?_⟩
  · simp only [readCluster, sysRead, sysLseek, hpos, if_neg hneg]
    exact hd
  · simp only [readCluster, sysRead, sysLseek, hpos, if_neg hneg]
    exact hs
  · intro j hj
    simp only [readCluster, sysRead, sysLseek, hpos, if_neg hneg, hmin, if_pos hj, clusterBytes,
      hd]

/-- The comparison over the length of the segment succeeds when the memory begins with the
characters of the segment, and only then. -/
theorem strncmpZero_iff : ∀ (s : List Nat) (t : Bytes),
    strncmpZero s t s.length = true ↔ ∀ j, j < s.length → t j = s.getD j 0 := by
  intro s
  induction s with
  | nil => intro t; simp [strncmpZero]
  | cons c cs ih =>
    intro t
    simp only [List.length_cons, strncmpZero, Bool.and_eq_true, beq_iff_eq, ih]
    constructor
    · rintro ⟨h0, h1⟩ j hj
      cases j with
      | zero => simpa using h0
      | succ j => simpa using h1 j (by omega)
    · intro h
      refine ⟨by simpa using h 0 (by omega), fun j hj => ?_⟩
      simpa using h (j + 1) (by omega)

/-- The test made by the search of `scanSubDirectories` on entry `ix`. -/
theorem findFatEntry_test (seg : List Nat) (tbl : Bytes) (ix : Nat) :
    (fatAttr tbl ix &&& ATTR_DIR ≠ 0 ∧
      strncmpZero seg (fun j => tbl (32 * ix + j)) seg.length = true) ↔ IsDirNamed seg tbl ix := by
  unfold IsDirNamed
  rw [strncmpZero_iff]

/-- The search of `scanSubDirectories` stops at the first entry that has the directory
attribute and a name field beginning with the segment. -/
theorem findFatEntry_first (seg : List Nat) (tbl : Bytes) :
    ∀ m ix r, ix ≤ r → r < ix + m → IsDirNamed seg tbl r →
      (∀ k, ix ≤ k → k < r → ¬ IsDirNamed seg tbl k) → findFatEntry seg tbl m ix = r := by
  intro m
  induction m with
  | zero => intro ix r h1 h2; omega
  | succ m ih =>
    intro ix r h1 h2 hr hk
    rw [findFatEntry]
    by_cases hix : IsDirNamed seg tbl ix
    · rw [if_pos ((findFatEntry_test seg tbl ix).mpr hix)]
      by_contra hne
      exact hk ix (le_refl _) (by omega) hix
    · rw [if_neg (fun h => hix ((findFatEntry_test seg tbl ix).mp h))]
      have hne : ix ≠ r := fun e => hix (e ▸ hr)
      exact ih (ix + 1) r (by omega) (by omega) hr (fun k hk1 hk2 => hk k (by omega) hk2)

/-- Without such an entry the search of `scanSubDirectories` runs to the end of the table. -/
theorem findFatEntry_none (seg : List Nat) (tbl : Bytes) :
    ∀ m ix, (∀ k, ix ≤ k → k < ix + m → ¬ IsDirNamed seg tbl k) →
      findFatEntry seg tbl m ix = ix + m := by
  intro m
  induction m with
  | zero => intro ix _; rfl
  | succ m ih =>
    intro ix hk
    rw [findFatEntry, if_neg (fun h => hk ix (le_refl _) (by omega)
      ((findFatEntry_test seg tbl ix).mp h)), ih (ix + 1) (fun k h1 h2 => hk k (by omega) (by omega))]
    omega

/-- An entry at which the search of `scanSubDirectories` stops is the first that has the
directory attribute and a name field beginning with the segment. -/
theorem findFatEntry_found (seg : List Nat) (tbl : Bytes) :
    ∀ m ix, findFatEntry seg tbl m ix < ix + m →
      IsDirNamed seg tbl (findFatEntry seg tbl m ix) ∧
      ∀ k, ix ≤ k → k < findFatEntry seg tbl m ix → ¬ IsDirNamed seg tbl k := by
  intro m
  induction m with
  | zero => intro ix h; simp [findFatEntry] at h
  | succ m ih =>
    intro ix h
    rw [findFatEntry] at h ⊢
    by_cases hix : IsDirNamed seg tbl ix
    · rw [if_pos ((findFatEntry_test seg tbl ix).mpr hix)]
      exact ⟨hix, fun k h1 h2 => by omega⟩
    · have hn := fun h => hix ((findFatEntry_test seg tbl ix).mp h)
      rw [if_neg hn] at h ⊢
      obtain ⟨i1, i2⟩ := ih (ix + 1) (by omega)
      refine ⟨i1, fun k h1 h2 => ?_⟩
      by_cases hk : k = ix
      · rw [hk]; exact hix
      · exact i2 k (by omega) h2

/-- Whether an entry has the directory attribute and a name beginning with the segment
depends on the bytes of the entry only. -/
theorem IsDirNamed_congr (s : List Nat) (t1 t2 : Bytes) (n ix : Nat) (hix : ix < n)
    (hlen : s.length ≤ 32) (h : ∀ j, j < 32 * n → t1 j = t2 j) :
    IsDirNamed s t1 ix ↔ IsDirNamed s t2 ix := by
  unfold IsDirNamed
  rw [fatAttr_congr t1 t2 n ix hix h]
  constructor
  · rintro ⟨h1, h2⟩
    exact ⟨h1, fun j hj => by rw [← h _ (by omega)]; exact h2 j hj⟩
  · rintro ⟨h1, h2⟩
    exact ⟨h1, fun j hj => by rw [h _ (by omega)]; exact h2 j hj⟩

/-- The cluster recorded in the entry found for a segment in the table of a directory on the
path is the cluster of the directory one segment further. -/
theorem found_entry_onPath (fbs : FatBootSector) (d0 : Dev)
    (pre : List (List Nat)) (seg : List Nat) (hlen : seg.length ≤ 32) (tbl : Bytes) (c : Nat)
    (hc : OnPath fbs d0 pre c)
    (htbl : ∀ j, j < (CLUSTER_SIZE fbs).toNat → tbl j = clusterBytes fbs d0 c j)
    (hfound : findFatEntry seg tbl (numSubDirEntries fbs) 0 < numSubDirEntries fbs) :
    OnPath fbs d0 (pre ++ [seg])
      (fatStart tbl (findFatEntry seg tbl (numSubDirEntries fbs) 0)) := by
  have hn := numSubDirEntries_le fbs
  have hagree : ∀ j, j < 32 * numSubDirEntries fbs → tbl j = clusterBytes fbs d0 c j :=
    fun j hj => htbl j (by omega)
  obtain ⟨i1, i2⟩ := findFatEntry_found seg tbl (numSubDirEntries fbs) 0 (by omega)
  rw [fatStart_congr tbl _ _ _ hfound hagree]
  refine OnPath.step pre seg c _ hc hfound
    ((IsDirNamed_congr seg tbl _ _ _ hfound hlen hagree).mp i1) ?_
  intro k hk hnamed
  exact i2 k (by omega) hk
    ((IsDirNamed_congr seg tbl _ _ k (by omega) hlen hagree).mpr hnamed)

/-- The last level of a resolution, on a table that holds the cluster of the parent
directory. -/
theorem scan_last_child (fbs : FatBootSector) (d0 d : Dev) (pre : List (List Nat))
    (s : List Nat) (hdirs : ∀ c2, OnPath fbs d0 (pre ++ [s]) c2 → Readable fbs d0 c2)
    (hs : IsSegment s) (hlen : s.length ≤ 32) (f : Nat) (tbl : Bytes) (c : Nat)
    (dir parent : FatDir) (hd : d.data = d0.data) (hsz : d.size = d0.size)
    (hc : OnPath fbs d0 pre c)
    (htbl : ∀ j, j < (CLUSTER_SIZE fbs).toNat → tbl j = clusterBytes fbs d0 c j)
    (hpar : ∀ j, j < (CLUSTER_SIZE fbs).toNat → parent.table j = clusterBytes fbs d0 c j) :
    ResolvesToChild fbs d0 s parent
      (scanSubDirectories fbs (f + 1) d s tbl dir parent.clusterNum) := by
  have hn := numSubDirEntries_le fbs
  have hagree : ∀ j, j < 32 * numSubDirEntries fbs → parent.table j = tbl j :=
    fun j hj => by rw [hpar j (by omega), htbl j (by omega)]
  have hix : findFatEntry s parent.table (numSubDirEntries fbs) 0
      = findFatEntry s tbl (numSubDirEntries fbs) 0 :=
    findFatEntry_congr s _ _ _ hlen hagree _ 0 (by omega)
  unfold ResolvesToChild
  rw [scan_last fbs f d s tbl dir _ hs.2, ← hix]
  constructor
  · intro ix hlt hnamed hfirst
    have hfe : findFatEntry s parent.table (numSubDirEntries fbs) 0 = ix :=
      findFatEntry_first s parent.table _ 0 ix (by omega) (by omega) hnamed
        (fun k _ hk => hfirst k hk)
    have hfound : findFatEntry s tbl (numSubDirEntries fbs) 0 < numSubDirEntries fbs := by
      rw [← hix, hfe]; exact hlt
    rw [hfe, if_pos hlt]
    have hread := hdirs _ (found_entry_onPath fbs d0 pre s hlen tbl c hc htbl hfound)
    rw [← hix, hfe] at hread
    obtain ⟨d1, b, hrc, _, _, hb⟩ := readCluster_readable fbs d0 d
      (fatStart tbl ix) dir.table hd hsz hread
    refine ⟨_, _, rfl, ?_, rfl, ?_⟩
    · exact (fatStart_congr _ _ _ _ hlt hagree).symm
    · intro j hj
      show (readCluster fbs d _ dir.table).2 j = _
      rw [hrc]
      exact hb j hj
  · intro hnone
    have hfe : findFatEntry s parent.table (numSubDirEntries fbs) 0 = 0 + numSubDirEntries fbs :=
      findFatEntry_none s parent.table _ 0 (fun k _ hk => hnone k (by omega))
    rw [hfe, if_neg (by omega)]
    exact ⟨_, _, rfl⟩

/-- Resolution of a path with one more segment, from the level at which the parent path is
resolved: the runs agree down to the cluster of the parent, where the last segment is looked
up. -/
theorem scan_child (fbs : FatBootSector) (d0 : Dev)
    (s : List Nat) (hs : IsSegment s) (hlen : s.length ≤ 32) :
    ∀ (segs : List (List Nat)), segs ≠ [] → (∀ x ∈ segs, IsSegment x) →
    (∀ x ∈ segs, x.length ≤ 32) →
    ∀ (pre : List (List Nat)) (fuel fuel2 : Nat) (d : Dev) (tbl : Bytes) (c : Nat) (dir : FatDir)
      (pc : Nat) (dP : Dev) (hP : FatDir),
      PathReadable fbs d0 (pre ++ segs ++ [s]) →
      segs.length ≤ fuel → segs.length + 1 ≤ fuel2 → d.data = d0.data → d.size = d0.size →
      OnPath fbs d0 pre c →
      (∀ j, j < (CLUSTER_SIZE fbs).toNat → tbl j = clusterBytes fbs d0 c j) →
      scanSubDirectories fbs fuel d (relPath segs) tbl dir pc = some (dP, OK, hP) →
      ResolvesToChild fbs d0 s hP
        (scanSubDirectories fbs fuel2 d (relPath (segs ++ [s])) tbl dir pc) := by
  intro segs
  induction segs with
  | nil => intro h; exact absurd rfl h
  | cons s0 t ih =>
    intro _ hseg hlens pre fuel fuel2 d tbl c dir pc dP hP hdirs hf hf2 hd hsz hc htbl hres
    have hs0 := hseg s0 (by simp)
    have hl0 := hlens s0 (by simp)
    obtain ⟨f, rfl⟩ : ∃ f, fuel = f + 1 := ⟨fuel - 1, by simp at hf; omega⟩
    obtain ⟨f2, rfl⟩ : ∃ f2, fuel2 = f2 + 1 := ⟨fuel2 - 1, by omega⟩
    have hpre : List.IsPrefix (pre ++ [s0]) (pre ++ (s0 :: t) ++ [s]) :=
      ⟨t ++ [s], by simp⟩
    cases t with
    | nil =>
      -- the parent path ends here
      have e1 : relPath [s0] = s0 := rfl
      have e2 : relPath ([s0] ++ [s]) = s0 ++ 47 :: s := rfl
      rw [e1, scan_last fbs f d s0 tbl dir pc hs0.2] at hres
      rw [e2, scan_descend fbs f2 d s0 s tbl dir pc hs0.2 hs.1]
      by_cases hfound : findFatEntry s0 tbl (numSubDirEntries fbs) 0 < numSubDirEntries fbs
      · rw [if_pos hfound] at hres ⊢
        have hdc := found_entry_onPath fbs d0 pre s0 hl0 tbl c hc htbl hfound
        have hread := hdirs _ _ hpre hdc
        obtain ⟨d1, b1, hrc1, hd1, hsz1, hb1⟩ := readCluster_readable fbs d0 d
          (fatStart tbl (findFatEntry s0 tbl (numSubDirEntries fbs) 0)) freshBuf hd hsz hread
        obtain ⟨d1p, b1p, hrc1p, _, _, hb1p⟩ := readCluster_readable fbs d0 d
          (fatStart tbl (findFatEntry s0 tbl (numSubDirEntries fbs) 0)) dir.table hd hsz hread
        simp only [Option.some.injEq, Prod.mk.injEq] at hres
        obtain ⟨_, _, hPeq⟩ := hres
        obtain ⟨f3, rfl⟩ : ∃ f3, f2 = f3 + 1 := ⟨f2 - 1, by simp at hf2; omega⟩
        have hpc : hP.clusterNum = fatStart tbl (findFatEntry s0 tbl (numSubDirEntries fbs) 0) := by
          rw [← hPeq]
        have hpt : ∀ j, j < (CLUSTER_SIZE fbs).toNat → hP.table j
            = clusterBytes fbs d0
                (fatStart tbl (findFatEntry s0 tbl (numSubDirEntries fbs) 0)) j := by
          intro j hj
          rw [← hPeq]
          show (readCluster fbs d _ dir.table).2 j = _
          rw [hrc1p]; exact hb1p j hj
        rw [hrc1, ← hpc]
        rw [← hpc] at hb1 hdc hpt
        exact scan_last_child fbs d0 d1 (pre ++ [s0]) s
          (fun c2 h2 => hdirs _ c2 ⟨[], by simp⟩ h2) hs hlen f3 b1 hP.clusterNum dir hP hd1 hsz1
          hdc hb1 hpt
      · rw [if_neg hfound] at hres
        simp only [Option.some.injEq, Prod.mk.injEq] at hres
        exact absurd hres.2.1.symm OK_ne_ERR1
    | cons s1 t2 =>
      have e1 : relPath (s0 :: s1 :: t2) = s0 ++ 47 :: relPath (s1 :: t2) := rfl
      have e2 : relPath ((s0 :: s1 :: t2) ++ [s]) = s0 ++ 47 :: relPath ((s1 :: t2) ++ [s]) := rfl
      have hne1 : relPath (s1 :: t2) ≠ [] :=
        relPath_ne_nil _ (by simp) (fun x hx => hseg x (List.mem_cons_of_mem _ hx))
      have hne2 : relPath ((s1 :: t2) ++ [s]) ≠ [] :=
        relPath_ne_nil _ (by simp) (by
          intro x hx
          rw [List.mem_append] at hx
          rcases hx with h | h
          · exact hseg x (List.mem_cons_of_mem _ h)
          · rw [List.mem_singleton] at h
            rw [h]; exact hs)
      rw [e1, scan_descend fbs f d s0 _ tbl dir pc hs0.2 hne1] at hres
      rw [e2, scan_descend fbs f2 d s0 _ tbl dir pc hs0.2 hne2]
      by_cases hfound : findFatEntry s0 tbl (numSubDirEntries fbs) 0 < numSubDirEntries fbs
      · rw [if_pos hfound] at hres ⊢
        have hdc := found_entry_onPath fbs d0 pre s0 hl0 tbl c hc htbl hfound
        have hread := hdirs _ _ hpre hdc
        obtain ⟨d1, b1, hrc1, hd1, hsz1, hb1⟩ := readCluster_readable fbs d0 d
          (fatStart tbl (findFatEntry s0 tbl (numSubDirEntries fbs) 0)) freshBuf hd hsz hread
        rw [hrc1] at hres ⊢
        have hdirs2 : PathReadable fbs d0 (pre ++ [s0] ++ (s1 :: t2) ++ [s]) := by
          have e : pre ++ [s0] ++ (s1 :: t2) ++ [s] = pre ++ (s0 :: s1 :: t2) ++ [s] := by simp
          rw [e]; exact hdirs
        exact ih (by simp) (fun x hx => hseg x (List.mem_cons_of_mem _ hx))
          (fun x hx => hlens x (List.mem_cons_of_mem _ hx))
          (pre ++ [s0]) f f2 d1 b1 _ dir _ dP hP hdirs2 (by simp at hf ⊢; omega)
          (by simp at hf2 ⊢; omega) hd1 hsz1 hdc hb1 hres
      · rw [if_neg hfound] at hres
        simp only [Option.some.injEq, Prod.mk.injEq] at hres
        exact absurd hres.2.1.symm OK_ne_ERR1

/-- C8, amended: on a FAT volume on which the directories met along the path lie within the
volume (the root directory and the directory reached along every initial part of the path, at
offsets computed without integer overflow), for every absolute directory path made of
segments (not empty, without `/`, at most 11 characters) and a last segment `s`: when the path
without `s` resolves (`getFatDirTable` returns `OK` with the handle `hP`), the path resolves to
the first entry of the table of `hP` that has the directory attribute and whose name field
begins with `s`: the handle has `clusterNum` equal to the starting cluster recorded in that
entry, `parentCluster` equal to the cluster of `hP`, and a table that holds the bytes of that
cluster; when no such entry exists, `ERR1` is returned. -/
theorem getFatDirTable_child (fbs : FatBootSector) (d : Dev)
    (segs : List (List Nat)) (hsegs : ∀ x ∈ segs, IsSegment x) (hlens : ∀ x ∈ segs, x.length ≤ 11)
    (s : List Nat) (hs : IsSegment s) (hlen : s.length ≤ 11)
    (hdirs : PathReadable fbs d (segs ++ [s])) (dir : FatDir) (dP : Dev)
    (hP : FatDir) (hpar : getFatDirTable fbs d (absPath segs) dir = some (dP, OK, hP)) :
    ResolvesToChild fbs d s hP (getFatDirTable fbs d (absPath (segs ++ [s])) dir) := by
  have hrootc : OnPath fbs d [] 0 := OnPath.root
  obtain ⟨d1, rootdir, hrc, hd1, hsz1, hb1⟩ :=
    readCluster_readable fbs d d 0 freshBuf rfl rfl (hdirs [] 0 ⟨_, rfl⟩ hrootc)
  simp only [Nat.cast_zero] at hrc
  have hchild : absPath (segs ++ [s]) ≠ str "/" := by
    rw [str_slash]
    unfold absPath
    intro h
    have := relPath_ne_nil (segs ++ [s]) (by simp) (by
      intro x hx
      rw [List.mem_append] at hx
      rcases hx with h | h
      · exact hsegs x h
      · rw [List.mem_singleton] at h
        rw [h]; exact hs)
    exact this (List.cons_injective h)
  have hfuel2 := relPath_length (segs ++ [s]) (by
      intro x hx
      rw [List.mem_append] at hx
      rcases hx with h | h
      · exact hsegs x h
      · rw [List.mem_singleton] at h
        rw [h]; exact hs)
  unfold getFatDirTable at hpar ⊢
  rw [hrc] at hpar ⊢
  simp only [if_neg hchild]
  cases segs with
  | nil =>
    have e : absPath [] = str "/" := by decide
    rw [e] at hpar
    simp only [if_true, Option.some.injEq, Prod.mk.injEq] at hpar
    obtain ⟨_, _, hPeq⟩ := hpar
    have hpc : hP.clusterNum = 0 := by rw [← hPeq]
    have hpt : ∀ j, j < (CLUSTER_SIZE fbs).toNat → hP.table j = clusterBytes fbs d 0 j := by
      intro j hj
      rw [← hPeq]
      show (if j < (CLUSTER_SIZE fbs).toNat then rootdir j else dir.table j) = _
      rw [if_pos hj]; exact hb1 j hj
    have e2 : (absPath ([] ++ [s])).drop 1 = s := rfl
    rw [e2, ← hpc]
    rw [← hpc] at hrootc hb1 hpt
    exact scan_last_child fbs d d1 [] s (fun c2 h2 => hdirs _ c2 ⟨[], by simp⟩ h2) hs (by omega)
      _ rootdir hP.clusterNum dir hP hd1 hsz1 hrootc hb1 hpt
  | cons s0 t =>
    have hpar1 : absPath (s0 :: t) ≠ str "/" := by
      rw [str_slash]
      unfold absPath
      intro h
      exact relPath_ne_nil (s0 :: t) (by simp) hsegs (List.cons_injective h)
    simp only [if_neg hpar1] at hpar
    have hfuel := relPath_length (s0 :: t) hsegs
    have e1 : (absPath (s0 :: t)).drop 1 = relPath (s0 :: t) := rfl
    have e2 : (absPath (s0 :: t ++ [s])).drop 1 = relPath (s0 :: t ++ [s]) := rfl
    rw [e1] at hpar
    rw [e2]
    exact scan_child fbs d s hs (by omega) (s0 :: t) (by simp) hsegs
      (fun x hx => by have := hlens x hx; omega) [] _ _ d1 rootdir 0 dir 0
      dP hP (by simpa using hdirs) (by omega) (by simp only [List.length_append,
        List.length_cons, List.length_nil] at hfuel2 ⊢; omega) hd1 hsz1 hrootc hb1 hpar

theorem demoFatDev_dir_entries : ∀ c, c < 3 → c ≠ 1 → ∀ ix, ix < numSubDirEntries demoFbs →
    fatAttr (clusterBytes demoFbs demoFatDev c) ix &&& ATTR_DIR ≠ 0 →
    fatStart (clusterBytes demoFbs demoFatDev c) ix < 3 ∧
      fatStart (clusterBytes demoFbs demoFatDev c) ix ≠ 1 := by
  decide!

/-- The directories of the example FAT volume are the root directory and cluster 2. -/
theorem demoFatDev_onPath (pre : List (List Nat)) (c : Nat)
    (h : OnPath demoFbs demoFatDev pre c) : c < 3 ∧ c ≠ 1 := by
  induction h with
  | root => exact ⟨by decide, by decide⟩
  | step segs s c ix _ hix hnamed _ ih =>
    exact demoFatDev_dir_entries c ih.1 ih.2 ix hix hnamed.1

theorem demoFatDev_readable : ∀ c, c < 3 → c ≠ 1 → Readable demoFbs demoFatDev c := by
  unfold Readable OffsetsFit FitsInt
  decide!

theorem demoFatDev_pathReadable (segs : List (List Nat)) :
    PathReadable demoFbs demoFatDev segs := by
  intro pre c _ hc
  exact demoFatDev_readable c (demoFatDev_onPath pre c hc).1 (demoFatDev_onPath pre c hc).2

theorem demoDocsResolved_eq :
    getFatDirTable demoFbs demoFatDev (absPath [str "DOCS"]) blankFatDir
      = some (demoDocsResolved.1, OK, demoDocsResolved.2.2) := rfl

/-- C8, amended, on the example volume: `/DOCS` resolves, and `/DOCS/.` resolves to the first
directory entry of the table of `/DOCS` whose name field begins with `.`: this is entry 0,
which records cluster 2, and the handle of `/DOCS/.` has `clusterNum` 2 and `parentCluster`
2. -/
theorem getFatDirTable_child_witness :
    (∀ x ∈ [str "DOCS"], IsSegment x) ∧ (∀ x ∈ [str "DOCS"], x.length ≤ 11) ∧
      IsSegment (str ".") ∧ (str ".").length ≤ 11 ∧
      PathReadable demoFbs demoFatDev ([str "DOCS"] ++ [str "."]) ∧
      getFatDirTable demoFbs demoFatDev (absPath [str "DOCS"]) blankFatDir
        = some (demoDocsResolved.1, OK, demoDocsResolved.2.2) ∧
      ResolvesToChild demoFbs demoFatDev (str ".") demoDocsResolved.2.2
        (getFatDirTable demoFbs demoFatDev (absPath ([str "DOCS"] ++ [str "."])) blankFatDir) ∧
      ∃ d2 h2,
        getFatDirTable demoFbs demoFatDev (absPath ([str "DOCS"] ++ [str "."])) blankFatDir
          = some (d2, OK, h2) ∧ h2.clusterNum = 2 ∧ h2.parentCluster = 2 := by
  have h := getFatDirTable_child demoFbs demoFatDev
      [str "DOCS"] (by unfold IsSegment; decide) (by decide) (str ".")
      (by unfold IsSegment; decide) (by decide) (demoFatDev_pathReadable _) blankFatDir
      demoDocsResolved.1 demoDocsResolved.2.2 demoDocsResolved_eq
  refine ⟨by unfold IsSegment; decide, by decide, by unfold IsSegment; decide, by decide,
    demoFatDev_pathReadable _, demoDocsResolved_eq, h, ?_⟩
  obtain ⟨d2, h2, e, hc, hp, _⟩ := h.1 0 (by decide!) (by unfold IsDirNamed; decide!)
    (fun k hk => absurd hk (by omega))
  refine ⟨d2, h2, e, ?_, ?_⟩
  · rw [hc]; decide!
  · rw [hp]; decide!

/-! ## C11, C12, C13: the entries met by the first loop of `copyDirEntries` -/

theorem name_bytes_eq (e : Bytes) (l : List Nat) (h : (List.range 11).map e = l) (j : Nat)
    (hj : j < 11) : e j = l.getD j 0 := by
  subst h
  simp [List.getD, hj]

theorem getFatName_congr (e e2 : Bytes) (h : ∀ j, j < 11 → e j = e2 j) :
    getFatName e = getFatName e2 := by
  have h8 : (List.range 8).map e = (List.range 8).map e2 := by
    apply List.map_congr_left
    intro j hj
    rw [List.mem_range] at hj
    exact h j (by omega)
  have h3 : (List.range 3).map (fun j => e (8 + j)) = (List.range 3).map (fun j => e2 (8 + j)) := by
    apply List.map_congr_left
    intro j hj
    rw [List.mem_range] at hj
    exact h (8 + j) (by omega)
  unfold getFatName
  rw [h8, h3]

theorem getFatName_of_name (e : Bytes) (l : List Nat) (h : (List.range 11).map e = l) :
    getFatName e = getFatName (fun j => l.getD j 0) :=
  getFatName_congr e _ (fun j hj => name_bytes_eq e l h j hj)

theorem dentIno_setDentry (tbl : Bytes) (slot : Nat) (ino : Int) (name : List Nat)
    (h1 : -32768 ≤ ino) (h2 : ino < 32768) :
    dentIno (setDentry tbl slot ino name) slot = ino := by
  have hv : (ino % 65536).toNat < 65536 := by omega
  have e0 : setDentry tbl slot ino name (DIRENTRYSIZE * slot) = leByte (ino % 65536).toNat 0 := by
    unfold setDentry; rw [if_pos rfl]
  have e1 : setDentry tbl slot ino name (DIRENTRYSIZE * slot + 1)
      = leByte (ino % 65536).toNat 1 := by
    unfold setDentry; rw [if_neg (by omega), if_pos rfl]
  unfold dentIno getLE16
  rw [e0, e1]
  unfold leByte
  have : (ino % 65536).toNat / 256 ^ 0 % 256 + 256 * ((ino % 65536).toNat / 256 ^ 1 % 256)
      = (ino % 65536).toNat := by
    norm_num
    omega
  rw [this]
  unfold toShort
  split <;> omega
theorem cstr_map_range (N : Nat) : ∀ (n : Nat) (g : Nat → Nat), n < N → (∀ j, j < n → g j ≠ 0) →
    g n = 0 → cstr ((List.range N).map g) = (List.range n).map g := by
  induction N with
  | zero => intro n g hn; omega
  | succ N ih =>
    intro n g hn hne hz
    rw [List.range_succ_eq_map, List.map_cons, List.map_map]
    cases n with
    | zero =>
      simp [cstr, List.takeWhile, hz]
    | succ n =>
      have h0 : g 0 ≠ 0 := hne 0 (by omega)
      have ih2 := ih n (g ∘ Nat.succ) (by omega) (fun j hj => hne (j + 1) (by omega)) hz
      rw [List.range_succ_eq_map, List.map_cons, List.map_map]
      unfold cstr at ih2 ⊢
      rw [List.takeWhile_cons_of_pos (by simpa using h0), ih2]

theorem dentName_setDentry (tbl : Bytes) (slot : Nat) (ino : Int) (name : List Nat)
    (hlen : name.length < 30) (hnz : ∀ c ∈ name, c ≠ 0) :
    dentName (setDentry tbl slot ino name) slot = name := by
  unfold dentName
  have hg : ∀ j, j ≤ name.length →
      setDentry tbl slot ino name (DIRENTRYSIZE * slot + 2 + j) = name.getD j 0 := by
    intro j hj
    unfold setDentry
    rw [if_neg (by omega), if_neg (by omega)]
    by_cases hlt : j < name.length
    · rw [if_pos ⟨by omega, by omega⟩]
      congr 1
      omega
    · have : j = name.length := by omega
      subst this
      rw [if_neg (by omega), if_pos rfl]
      simp [List.getD]
  rw [cstr_map_range 30 name.length _ hlen]
  · apply List.ext_getElem
    · simp
    · intro i h1 h2
      simp only [List.getElem_map, List.getElem_range]
      rw [hg i (by omega)]
      simp [List.getD, h2]
  · intro j hj
    rw [hg j (by omega)]
    have : name.getD j 0 = name[j] := by simp [List.getD, hj]
    rw [this]
    exact hnz _ (List.getElem_mem _)
  · rw [hg _ (le_refl _)]
    simp [List.getD]

/-- C11: when the first loop of `copyDirEntries` meets a FAT entry named `.` (`MSDOS_DOT`)
that is not a long-name fragment, it stores in the next slot of the Minix directory table an
entry named `.` whose inode number is `inodeNum`, the number of the directory being populated;
for an entry named `..` (`MSDOS_DOTDOT`) it stores an entry named `..` whose inode number is
`parentInodeNum`. In both cases the record count grows by one and the bitmaps and volumes are
those before the entry (no inode is allocated). The inode numbers are `short` values, as
`openMinixDirectory` yields them. -/
theorem copyEntry_dot_entries (inodeNum parentInodeNum : Int) (st : CopyState) (e : Bytes)
    (hattr : e 11 ≠ 0x0f)
    (hi : -32768 ≤ inodeNum ∧ inodeNum < 32768)
    (hp : -32768 ≤ parentInodeNum ∧ parentInodeNum < 32768) :
    ((List.range 11).map e = MSDOS_DOT →
      dentIno (copyEntry inodeNum parentInodeNum st e).tbl st.numRecords = inodeNum ∧
      dentName (copyEntry inodeNum parentInodeNum st e).tbl st.numRecords = str "." ∧
      (copyEntry inodeNum parentInodeNum st e).numRecords = st.numRecords + 1 ∧
      (copyEntry inodeNum parentInodeNum st e).w = st.w) ∧
    ((List.range 11).map e = MSDOS_DOTDOT →
      dentIno (copyEntry inodeNum parentInodeNum st e).tbl st.numRecords = parentInodeNum ∧
      dentName (copyEntry inodeNum parentInodeNum st e).tbl st.numRecords = str ".." ∧
      (copyEntry inodeNum parentInodeNum st e).numRecords = st.numRecords + 1 ∧
      (copyEntry inodeNum parentInodeNum st e).w = st.w) := by
  constructor
  · intro hname
    have h0 : e 0 = 0x2E := name_bytes_eq e _ hname 0 (by decide)
    have hn : getFatName e = str "." := by
      rw [getFatName_of_name e _ hname]; decide
    have hce : copyEntry inodeNum parentInodeNum st e
        = { w := st.w, tbl := setDentry st.tbl st.numRecords inodeNum (str "."),
            numRecords := st.numRecords + 1,
            ino := { st.ino with i_nlinks := (st.ino.i_nlinks + 1) % 256,
                                 i_size := (st.ino.i_size + DIRENTRYSIZE) % 4294967296 } } := by
      unfold copyEntry
      rw [if_neg hattr, if_neg (by omega), if_neg (by omega), if_neg (by omega),
        if_pos (Or.inl h0), if_pos hn]
    rw [hce]
    exact ⟨dentIno_setDentry _ _ _ _ hi.1 hi.2,
      dentName_setDentry _ _ _ _ (by decide) (by decide), rfl, rfl⟩
  · intro hname
    have h0 : e 0 = 0x2E := name_bytes_eq e _ hname 0 (by decide)
    have hn : getFatName e = str ".." := by
      rw [getFatName_of_name e _ hname]; decide
    have hce : copyEntry inodeNum parentInodeNum st e
        = { w := st.w, tbl := setDentry st.tbl st.numRecords parentInodeNum (str ".."),
            numRecords := st.numRecords + 1,
            ino := { st.ino with i_nlinks := (st.ino.i_nlinks + 1) % 256,
                                 i_size := (st.ino.i_size + DIRENTRYSIZE) % 4294967296 } } := by
      unfold copyEntry
      rw [if_neg hattr, if_neg (by omega), if_neg (by omega), if_neg (by omega),
        if_pos (Or.inl h0), if_neg (by rw [hn]; decide), if_pos hn]
    rw [hce]
    exact ⟨dentIno_setDentry _ _ _ _ hp.1 hp.2,
      dentName_setDentry _ _ _ _ (by decide) (by decide), rfl, rfl⟩

/-- Witness for C11: the entries `.` and `..` of the directory `DOCS` of the example FAT
volume, copied into a directory with inode number 2 and parent 1. -/
theorem copyEntry_dot_entries_witness :
    (demoDotEntry 11 ≠ 0x0f ∧ (List.range 11).map demoDotEntry = MSDOS_DOT ∧
      dentIno (copyEntry 2 1 demoCopyState demoDotEntry).tbl demoCopyState.numRecords = 2 ∧
      dentName (copyEntry 2 1 demoCopyState demoDotEntry).tbl demoCopyState.numRecords
        = str "." ∧
      (copyEntry 2 1 demoCopyState demoDotEntry).numRecords = demoCopyState.numRecords + 1 ∧
      (copyEntry 2 1 demoCopyState demoDotEntry).w = demoCopyState.w) ∧
    (demoDotDotEntry 11 ≠ 0x0f ∧ (List.range 11).map demoDotDotEntry = MSDOS_DOTDOT ∧
      dentIno (copyEntry 2 1 demoCopyState demoDotDotEntry).tbl demoCopyState.numRecords = 1 ∧
      dentName (copyEntry 2 1 demoCopyState demoDotDotEntry).tbl demoCopyState.numRecords
        = str ".." ∧
      (copyEntry 2 1 demoCopyState demoDotDotEntry).numRecords
        = demoCopyState.numRecords + 1 ∧
      (copyEntry 2 1 demoCopyState demoDotDotEntry).w = demoCopyState.w) :=
  ⟨⟨by decide!, by decide!,
      (copyEntry_dot_entries 2 1 demoCopyState demoDotEntry (by decide!) (by decide)
        (by decide)).1 (by decide!)⟩,
    ⟨by decide!, by decide!,
      (copyEntry_dot_entries 2 1 demoCopyState demoDotDotEntry (by decide!) (by decide)
        (by decide)).2 (by decide!)⟩⟩
theorem copyEntries_eq_foldl (inodeNum parentInodeNum : Int) (dirTbl : Bytes) (numEntries : Nat)
    (st : CopyState) :
    copyEntries inodeNum parentInodeNum dirTbl numEntries st
      = ((List.range numEntries).map (fun i => fun j => dirTbl (32 * i + j))).foldl
          (copyEntry inodeNum parentInodeNum) st := by
  unfold copyEntries
  rw [List.foldl_map]

/-- C12: a FAT directory entry whose first name byte is 0x00, 0x05 or 0xE5, or whose attribute
byte is 0x0F, contributes nothing to `copyDirEntries`: the pass of the first loop leaves the
state (the record count, the inode of the directory with its size and link count, the table,
the bitmaps and the volumes) as it was, so that the first loop over any list of entries that
holds it gives the state given without it; the second loop does not descend into it, and over
any list of entries that holds it gives the result given without it. -/
theorem copyEntry_skips (inodeNum parentInodeNum : Int) (e : Bytes)
    (h : e 0 = 0x00 ∨ e 0 = 0x05 ∨ e 0 = 0xE5 ∨ e 11 = 0x0f) :
    (∀ st, copyEntry inodeNum parentInodeNum st e = st) ∧
    (∀ before after st, (before ++ e :: after).foldl (copyEntry inodeNum parentInodeNum) st
        = (before ++ after).foldl (copyEntry inodeNum parentInodeNum) st) ∧
    isSubDirEntry e = false ∧
    (∀ processSub name before after ow,
      descendEntries processSub name (before ++ e :: after) ow
        = descendEntries processSub name (before ++ after) ow) := by
  have hstep : ∀ st, copyEntry inodeNum parentInodeNum st e = st := by
    intro st
    unfold copyEntry
    by_cases h11 : e 11 = 0x0f
    · rw [if_pos h11]
    · rw [if_neg h11]
      rcases h with h0 | h0 | h0 | h0
      · rw [if_pos h0]
      · rw [if_neg (by omega), if_pos h0]
      · rw [if_neg (by omega), if_neg (by omega), if_pos h0]
      · exact absurd h0 h11
  have hsub : isSubDirEntry e = false := by
    unfold isSubDirEntry
    rcases h with h0 | h0 | h0 | h0 <;> simp [h0]
  refine ⟨hstep, ?_, hsub, ?_⟩
  · intro before after st
    rw [List.foldl_append, List.foldl_cons, hstep, List.foldl_append]
  · intro processSub name before after ow
    unfold descendEntries
    rw [List.foldl_append, List.foldl_cons, List.foldl_append]
    congr 1
    cases (List.foldl (fun ow e =>
      match ow with
      | none => none
      | some w1 => if isSubDirEntry e = true then processSub e name w1 else some w1)
      ow before) with
    | none => rfl
    | some w1 => simp [hsub]

/-- Witness for C12: a deleted entry (first name byte 0xE5) among the entries of the example
root directory. -/
theorem copyEntry_skips_witness :
    deletedEntry 0 = 0xE5 ∧
    (∀ st, copyEntry 1 1 st deletedEntry = st) ∧
    (∀ before after st, (before ++ deletedEntry :: after).foldl (copyEntry 1 1) st
        = (before ++ after).foldl (copyEntry 1 1) st) ∧
    isSubDirEntry deletedEntry = false ∧
    (∀ processSub name before after ow,
      descendEntries processSub name (before ++ deletedEntry :: after) ow
        = descendEntries processSub name (before ++ after) ow) :=
  ⟨by decide, copyEntry_skips 1 1 deletedEntry (Or.inr (Or.inr (Or.inl (by decide))))⟩
theorem descendEntries_range (processSub : Bytes → List Nat → World → Option World)
    (name : List Nat) (dirTbl : Bytes) (numEntries : Nat) (ow : Option World) :
    (List.range numEntries).foldl
        (fun ow i =>
          match ow with
          | none => none
          | some w1 =>
            if isSubDirEntry (fun j => dirTbl (32 * i + j)) then
              processSub (fun j => dirTbl (32 * i + j)) name w1
            else some w1)
        ow
      = descendEntries processSub name
          ((List.range numEntries).map (fun i => fun j => dirTbl (32 * i + j))) ow := by
  unfold descendEntries
  rw [List.foldl_map]

/-- C13, as stated, fails: the volume-label entry `MYDISK` (attribute 0x08) is not skipped by
the first loop of `copyDirEntries`: the record count grows by one and the size of the inode of
the directory by 32. -/
theorem copyEntry_counts_volume_label :
    volLabelEntry 11 &&& ATTR_VOLUME ≠ 0 ∧ volLabelEntry 11 ≠ 0x0f ∧
      (copyEntry 1 1 demoCopyState volLabelEntry).numRecords = demoCopyState.numRecords + 1 ∧
      (copyEntry 1 1 demoCopyState volLabelEntry).ino.i_size
        = demoCopyState.ino.i_size + 32 := by
  refine ⟨?_, ?_, ?_, ?_⟩ <;> decide!

/-- C13, amended: a volume-label entry (attribute with the bit 0x08 set, other than 0x0F)
whose first name byte is not 0x00, 0x05 or 0xE5 is not skipped by `copyDirEntries`: the pass of
the first loop increases the record count by one and the size of the inode of the directory by
32; when the directory bit is clear and the name does not start with a dot, the entry is
handed to `createMinixFile` as a file is, and the second loop does not descend into it. -/
theorem copyEntry_volume_label (inodeNum parentInodeNum : Int) (st : CopyState) (e : Bytes)
    (hvol : e 11 &&& ATTR_VOLUME ≠ 0) (hlfn : e 11 ≠ 0x0f)
    (h0 : e 0 ≠ 0x00) (h5 : e 0 ≠ 0x05) (hE5 : e 0 ≠ 0xE5) :
    (copyEntry inodeNum parentInodeNum st e).numRecords = st.numRecords + 1 ∧
    (copyEntry inodeNum parentInodeNum st e).ino.i_size
      = (st.ino.i_size + DIRENTRYSIZE) % 4294967296 ∧
    (e 0 ≠ 0x2E → e 11 &&& ATTR_DIR = 0 →
      copyEntry inodeNum parentInodeNum st e
        = { w := (createMinixFile st.w st.tbl st.numRecords e).1,
            tbl := (createMinixFile st.w st.tbl st.numRecords e).2,
            numRecords := st.numRecords + 1,
            ino := { st.ino with i_size := (st.ino.i_size + DIRENTRYSIZE) % 4294967296 } } ∧
      isSubDirEntry e = false) := by
  unfold copyEntry
  rw [if_neg hlfn, if_neg h0, if_neg h5, if_neg hE5]
  refine ⟨?_, ?_, ?_⟩
  · split
    · split
      · rfl
      · split <;> rfl
    · rfl
  · split
    · split
      · rfl
      · split <;> rfl
    · rfl
  · intro hdot hdir
    rw [if_neg (by
      intro hc
      rcases hc with hc | hc
      · exact hdot hc
      · exact hc hdir)]
    refine ⟨rfl, ?_⟩
    unfold isSubDirEntry
    simp [hdir]

/-- Witness for C13, amended: the volume-label entry `MYDISK`. -/
theorem copyEntry_volume_label_witness :
    volLabelEntry 11 &&& ATTR_VOLUME ≠ 0 ∧ volLabelEntry 11 ≠ 0x0f ∧ volLabelEntry 0 ≠ 0x00 ∧
    volLabelEntry 0 ≠ 0x05 ∧ volLabelEntry 0 ≠ 0xE5 ∧ volLabelEntry 0 ≠ 0x2E ∧
    volLabelEntry 11 &&& ATTR_DIR = 0 ∧
    (copyEntry 1 1 demoCopyState volLabelEntry).numRecords = demoCopyState.numRecords + 1 ∧
    (copyEntry 1 1 demoCopyState volLabelEntry).ino.i_size
      = (demoCopyState.ino.i_size + DIRENTRYSIZE) % 4294967296 ∧
    copyEntry 1 1 demoCopyState volLabelEntry
      = { w := (createMinixFile demoCopyState.w demoCopyState.tbl demoCopyState.numRecords
                volLabelEntry).1,
          tbl := (createMinixFile demoCopyState.w demoCopyState.tbl demoCopyState.numRecords
                volLabelEntry).2,
          numRecords := demoCopyState.numRecords + 1,
          ino := { demoCopyState.ino with
            i_size := (demoCopyState.ino.i_size + DIRENTRYSIZE) % 4294967296 } } ∧
    isSubDirEntry volLabelEntry = false :=
  ⟨by decide!, by decide!, by decide!, by decide!, by decide!, by decide!, by decide!,
    (copyEntry_volume_label 1 1 demoCopyState volLabelEntry (by decide!) (by decide!)
      (by decide!) (by decide!) (by decide!)).1,
    (copyEntry_volume_label 1 1 demoCopyState volLabelEntry (by decide!) (by decide!)
      (by decide!) (by decide!) (by decide!)).2.1,
    (copyEntry_volume_label 1 1 demoCopyState volLabelEntry (by decide!) (by decide!)
      (by decide!) (by decide!) (by decide!)).2.2 (by decide!) (by decide!)⟩

/-! ## C14: the calendar fields unpacked by `getMinixTimeFromFat` -/

theorem and_07ef_shift (v : Nat) : (v &&& 0x07ef) >>> 5 = v / 32 % 64 := by
  apply Nat.eq_of_testBit_eq
  intro i
  rw [Nat.testBit_shiftRight, Nat.testBit_and]
  have e1 : v / 32 % 64 = (v >>> 5) % 2 ^ 6 := by
    rw [Nat.shiftRight_eq_div_pow]; norm_num
  rw [e1, Nat.testBit_mod_two_pow, Nat.testBit_shiftRight]
  by_cases hi : i < 6
  · have : (0x07ef : Nat).testBit (5 + i) = true := by
      interval_cases i <;> decide
    simp [this, hi]
  · have : (0x07ef : Nat).testBit (5 + i) = false := by
      apply Nat.testBit_lt_two_pow
      calc (0x07ef : Nat) < 2 ^ 11 := by norm_num
        _ ≤ 2 ^ (5 + i) := Nat.pow_le_pow_right (by norm_num) (by omega)
    simp [this, hi]

theorem and_01e0_shift (v : Nat) : (v &&& 0x01e0) >>> 5 = v / 32 % 16 := by
  apply Nat.eq_of_testBit_eq
  intro i
  rw [Nat.testBit_shiftRight, Nat.testBit_and]
  have e1 : v / 32 % 16 = (v >>> 5) % 2 ^ 4 := by
    rw [Nat.shiftRight_eq_div_pow]; norm_num
  rw [e1, Nat.testBit_mod_two_pow, Nat.testBit_shiftRight]
  by_cases hi : i < 4
  · have : (0x01e0 : Nat).testBit (5 + i) = true := by
      interval_cases i <;> decide
    simp [this, hi]
  · have : (0x01e0 : Nat).testBit (5 + i) = false := by
      apply Nat.testBit_lt_two_pow
      calc (0x01e0 : Nat) < 2 ^ 9 := by norm_num
        _ ≤ 2 ^ (5 + i) := Nat.pow_le_pow_right (by norm_num) (by omega)
    simp [this, hi]

theorem andMask_toShort (u mask : Nat) (hu : u < 65536) (hm : mask < 65536) :
    andMask (toShort (u : Int)) mask = ((u &&& mask : Nat) : Int) := by
  unfold andMask
  congr 1
  by_cases h : u < 32768
  · have : toShort (u : Int) = (u : Int) := by unfold toShort; split <;> omega
    rw [this]
    congr 1
    omega
  · have : toShort (u : Int) = (u : Int) - 65536 := by unfold toShort; split <;> omega
    rw [this]
    have e : (((u : Int) - 65536) % 4294967296).toNat = u + 4294901760 := by omega
    rw [e]
    apply Nat.eq_of_testBit_eq
    intro i
    rw [Nat.testBit_and, Nat.testBit_and]
    by_cases hi : i < 16
    · have e2 : u + 4294901760 = 2 ^ 16 * 65535 + u := by norm_num; omega
      rw [e2, Nat.testBit_mul_pow_two_add _ hu]
      simp [hi]
    · have : mask.testBit i = false := by
        apply Nat.testBit_lt_two_pow
        calc mask < 2 ^ 16 := by norm_num; omega
          _ ≤ 2 ^ i := Nat.pow_le_pow_right (by norm_num) (by omega)
      simp [this]

theorem shiftRight_toShort (u k : Nat) (hu : u < 32768) :
    Int.shiftRight (toShort (u : Int)) k = ((u / 2 ^ k : Nat) : Int) := by
  have : toShort (u : Int) = (u : Int) := by unfold toShort; split <;> omega
  rw [this]
  show ((u >>> k : Nat) : Int) = _
  rw [Nat.shiftRight_eq_div_pow]

theorem curTime_fields (time date : Nat) (ht : time < 65536) (hd : date < 32768) :
    curTime time date
      = { tm_sec := ((time % 32 : Nat) : Int) * 2, tm_min := ((time / 32 % 64 : Nat) : Int),
          tm_hour := ((time / 2048 : Nat) : Int), tm_mday := ((date % 32 : Nat) : Int),
          tm_mon := ((date / 32 % 16 : Nat) : Int) - 1,
          tm_year := (1980 + ((date / 512 : Nat) : Int)) - 1900 } := by
  unfold curTime
  have hsec : andMask (toShort (time : Int)) 0x001f = ((time % 32 : Nat) : Int) := by
    rw [andMask_toShort _ _ ht (by norm_num)]
    congr 1
    exact Nat.and_pow_two_sub_one_eq_mod time 5
  have hmin : Int.shiftRight (andMask (toShort (time : Int)) 0x07ef) 5
      = ((time / 32 % 64 : Nat) : Int) := by
    rw [andMask_toShort _ _ ht (by norm_num)]
    show (((time &&& 0x07ef) >>> 5 : Nat) : Int) = _
    rw [and_07ef_shift]
  have hmday : andMask (toShort (date : Int)) 0x001f = ((date % 32 : Nat) : Int) := by
    rw [andMask_toShort _ _ (by omega) (by norm_num)]
    congr 1
    exact Nat.and_pow_two_sub_one_eq_mod date 5
  have hmon : Int.shiftRight (andMask (toShort (date : Int)) 0x01e0) 5
      = ((date / 32 % 16 : Nat) : Int) := by
    rw [andMask_toShort _ _ (by omega) (by norm_num)]
    show (((date &&& 0x01e0) >>> 5 : Nat) : Int) = _
    rw [and_01e0_shift]
  have hyear : Int.shiftRight (toShort (date : Int)) 9 = ((date / 512 : Nat) : Int) :=
    shiftRight_toShort date 9 hd
  have hhour : andMask (Int.shiftRight (toShort (time : Int)) 11) 0x1f
      = ((time / 2048 : Nat) : Int) := by
    unfold andMask
    congr 1
    have hs : Int.shiftRight (toShort (time : Int)) 11
        = toShort (time : Int) / ((2 ^ 11 : Nat) : Int) :=
      Int.shiftRight_eq_div_pow _ 11
    rw [hs]
    have e : ((toShort (time : Int) / ((2 ^ 11 : Nat) : Int)) % 4294967296).toNat % 32
        = time / 2048 := by
      unfold toShort
      split <;> omega
    rw [← e]
    exact Nat.and_pow_two_sub_one_eq_mod _ 5
  rw [hsec, hmin, hmday, hmon, hyear, hhour]

theorem curTime_year_high (time date : Nat) (hd1 : 32768 ≤ date) (hd2 : date < 65536) :
    (curTime time date).tm_year = (1980 + (((date / 512 : Nat) : Int) - 128)) - 1900 := by
  have hs : Int.shiftRight (toShort (date : Int)) 9
      = toShort (date : Int) / ((2 ^ 9 : Nat) : Int) :=
    Int.shiftRight_eq_div_pow _ 9
  have e : toShort (date : Int) / ((2 ^ 9 : Nat) : Int) = ((date / 512 : Nat) : Int) - 128 := by
    unfold toShort
    split <;> omega
  show (1980 + Int.shiftRight (toShort (date : Int)) 9) - 1900 = _
  rw [hs, e]

/-- C14 at its failing input: for the packed date of 2044-01-01 (year offset 64, so bit 15 is
set) `getMinixTimeFromFat` hands `tm_year = 16` (the year 1916) to `mktime`, not
`2044 - 1900 = 144`: the date is held in a `short` and `date>>9` is not masked, as the hour is.
Month, day, hour, minute and second are those of the packed value, and the packed value of
2021-06-15 10:30 yields exactly its fields. -/
theorem getMinixTimeFromFat_year_2044 :
    packDate 2044 1 1 = 0x8021 ∧ packDate 2044 1 1 / 512 = 64 ∧
      curTime (packTime 10 30 0) (packDate 2044 1 1)
        = { tm_sec := 0, tm_min := 30, tm_hour := 10, tm_mday := 1, tm_mon := 0,
            tm_year := 16 } ∧
      (curTime (packTime 10 30 0) (packDate 2044 1 1)).tm_year ≠ 2044 - 1900 ∧
      curTime (packTime 10 30 0) (packDate 2021 6 15)
        = { tm_sec := 0, tm_min := 30, tm_hour := 10, tm_mday := 15, tm_mon := 5,
            tm_year := 2021 - 1900 } ∧
      curTime (packTime 23 59 58) (packDate 2021 6 15)
        = { tm_sec := 58, tm_min := 59, tm_hour := 23, tm_mday := 15, tm_mon := 5,
            tm_year := 2021 - 1900 } := by
  refine ⟨?_, ?_, ?_, ?_, ?_, ?_⟩ <;> decide!

/-! ## C15: `findFreeInode` without a free inode -/

/-- C15, as stated, fails: with 40000 inodes announced and every bit of the inode bitmap set,
no bit with an index in 0..s_ninodes is clear, yet `findFreeInode` does not return `ERR1`: the
scan position 40008 does not fit the `short` result, the value -25528 passes the test against
`s_ninodes` and is returned. -/
theorem findFreeInode_full_not_err :
    ValidBytes fullImap ∧ (∀ i, i ≤ bigInodeSB.s_ninodes → bitSet fullImap i = true) ∧
      (findFreeInode bigInodeSB fullImap).1 = -25528 ∧
      (findFreeInode bigInodeSB fullImap).1 ≠ ERR1 := by
  refine ⟨fun _ => by unfold fullImap; omega,
    fun j _ => testBit_255 _ (Nat.mod_lt _ (by norm_num)), ?_, ?_⟩ <;> decide!

/-- C15, amended: for an inode bitmap of `unsigned char` cells and a super block with
`s_ninodes` below 32760 (so that every scan position fits the `short` result),
`findFreeInode` returns `ERR1` if and only if no bit with an index in 0..s_ninodes is clear,
and when it returns `ERR1` the inode bitmap is unchanged. -/
theorem findFreeInode_err_iff (sb : MinixSuperBlock) (imap : Bytes) (hv : ValidBytes imap)
    (hn : sb.s_ninodes < 32760) :
    ((findFreeInode sb imap).1 = ERR1 ↔ ∀ i, i ≤ sb.s_ninodes → bitSet imap i = true) ∧
    ((findFreeInode sb imap).1 = ERR1 → (findFreeInode sb imap).2 = imap) := by
  have hBle := scanBytes_le imap (sb.s_ninodes / 8) 0
  have hKle := scanBits_le (imap (scanBytes imap (sb.s_ninodes / 8) 0)) 8 0
  have hshort := toShort_small (scanBytes imap (sb.s_ninodes / 8) 0 * 8
      + scanBits (imap (scanBytes imap (sb.s_ninodes / 8) 0)) 8 0) (by omega)
  unfold findFreeInode
  simp only [hshort]
  by_cases hgt : ((scanBytes imap (sb.s_ninodes / 8) 0 * 8
      + scanBits (imap (scanBytes imap (sb.s_ninodes / 8) 0)) 8 0 : Nat) : Int)
        > (sb.s_ninodes : Int)
  · rw [if_pos hgt]
    refine ⟨⟨fun _ i hi => scan_below imap (sb.s_ninodes / 8) i (by omega), fun _ => rfl⟩, fun _ => rfl⟩
  · rw [if_neg hgt]
    have hle : scanBytes imap (sb.s_ninodes / 8) 0 * 8
      + scanBits (imap (scanBytes imap (sb.s_ninodes / 8) 0)) 8 0 ≤ sb.s_ninodes := by omega
    have hK8 : scanBits (imap (scanBytes imap (sb.s_ninodes / 8) 0)) 8 0 < 8 := by
      by_contra hc
      have hK : scanBits (imap (scanBytes imap (sb.s_ninodes / 8) 0)) 8 0 = 8 := by omega
      have hBlt : scanBytes imap (sb.s_ninodes / 8) 0 < sb.s_ninodes / 8 := by omega
      apply scanBytes_stop imap (sb.s_ninodes / 8) 0 (by omega)
      apply byte_eq_255 _ (hv _)
      intro j hj
      exact scanBits_set _ 8 0 j (Nat.zero_le _) (by omega)
    have hne : ((scanBytes imap (sb.s_ninodes / 8) 0 * 8
      + scanBits (imap (scanBytes imap (sb.s_ninodes / 8) 0)) 8 0 : Nat) : Int) ≠ ERR1 := by
      unfold ERR1; omega
    refine ⟨⟨fun h => absurd h hne, fun hall => ?_⟩, fun h => absurd h hne⟩
    have hclr := scan_at imap (sb.s_ninodes / 8) hK8
    rw [hall _ hle] at hclr
    exact absurd hclr (by decide)

/-- Witness for C15, amended: 32 inodes with inodes 0 and 1 in use. -/
theorem findFreeInode_err_iff_witness :
    ValidBytes freshImap ∧ (smallSB 32 100).s_ninodes < 32760 ∧
    ((findFreeInode (smallSB 32 100) freshImap).1 = ERR1 ↔
      ∀ i, i ≤ (smallSB 32 100).s_ninodes → bitSet freshImap i = true) ∧
    ((findFreeInode (smallSB 32 100) freshImap).1 = ERR1 →
      (findFreeInode (smallSB 32 100) freshImap).2 = freshImap) :=
  ⟨freshImap_valid, by decide,
    findFreeInode_err_iff (smallSB 32 100) freshImap freshImap_valid (by decide)⟩
/-! ## C16: `findFreeDataBlock` without a free zone -/

/-- C16 at its failing inputs, on a volume of 100 zones of which 95 are data zones
(`FIRSTZONE = 5`). With the bits of all 95 data zones set and the following bits clear,
`findFreeDataBlock` does not return `ERR1`: the byte scan runs over 100 bytes (`s_nzones`
minus `FIRSTZONE/8`), finds bit 96, sets it and returns zone 101, which is not a zone of the
volume. With every bit of the bitmap set it returns 813, although no bit was clear. -/
theorem findFreeDataBlock_no_free_zone_succeeds :
    (smallSB 32 100).s_nzones - FIRSTZONE (smallSB 32 100) = 95 ∧
      (∀ i, i < 95 → bitSet dataFullZmap i = true) ∧
      (findFreeDataBlock (smallSB 32 100) dataFullZmap).1 = 101 ∧
      bitSet dataFullZmap 96 = false ∧
      bitSet (findFreeDataBlock (smallSB 32 100) dataFullZmap).2 96 = true ∧
      (∀ j, bitSet fullZmap j = true) ∧
      (findFreeDataBlock (smallSB 32 100) fullZmap).1 = 813 ∧
      (findFreeDataBlock (smallSB 32 100) fullZmap).1 ≠ ERR1 := by
  refine ⟨by decide, by decide!, by decide!, by decide!, by decide!,
    fun j => testBit_255 _ (Nat.mod_lt _ (by norm_num)), by decide!, by decide!⟩

/-! ## C17: logical block indexes beyond the single-indirect range -/

/-- For an index of `7+BLOCK_SIZE/2` or more `seekToDataBlock` does nothing and returns `OK`. -/
theorem seekToDataBlock_beyond (d : Dev) (i : Nat) (ino : MinixInode)
    (hi : 7 + BLOCK_SIZE / 2 ≤ i) : seekToDataBlock d i ino = (d, OK) := by
  unfold seekToDataBlock
  rw [if_neg (by unfold BLOCK_SIZE at hi; omega), if_neg (by omega)]

/-- For an index of `7+BLOCK_SIZE/2` or more `getDataBlock` reads the 1024 bytes at the
current position of the volume and returns `OK`. -/
theorem getDataBlock_beyond (d : Dev) (i : Nat) (ino : MinixInode) (buf : Bytes)
    (hi : 7 + BLOCK_SIZE / 2 ≤ i) (hsz : d.pos + 1024 ≤ d.size) :
    getDataBlock d i ino buf =
      ({ d with pos := d.pos + 1024 }, OK,
        fun j => if j < 1024 then d.data (d.pos + j) else buf j) := by
  have hmin : min 1024 (d.size - d.pos) = 1024 := by omega
  unfold getDataBlock
  rw [seekToDataBlock_beyond d i ino hi]
  simp [sysRead, OK, ERR1, BLOCK_SIZE, hmin]

/-- For an index of `7+BLOCK_SIZE/2` or more `saveDataBlock` writes the buffer over the 1024
bytes at the current position of the volume and returns `OK`. -/
theorem saveDataBlock_beyond (d : Dev) (i : Nat) (ino : MinixInode) (buf : Bytes)
    (hi : 7 + BLOCK_SIZE / 2 ≤ i) (hsz : d.pos + 1024 ≤ d.size) :
    saveDataBlock d i ino buf =
      ({ d with
          data := fun a => if d.pos ≤ a ∧ a < d.pos + 1024 then buf (a - d.pos) else d.data a,
          pos := d.pos + 1024 }, OK) := by
  have hmin : min 1024 (d.size - d.pos) = 1024 := by omega
  unfold saveDataBlock
  rw [seekToDataBlock_beyond d i ino hi]
  simp [sysWrite, OK, ERR1, BLOCK_SIZE, hmin]

/-- C17 at its failing input: for the logical index 519 = 7 + 512, on a volume whose file
position stands at block 5, `seekToDataBlock` returns `OK` and leaves the position where it
was; `getDataBlock` returns `OK` and delivers the bytes of block 5; `saveDataBlock` returns
`OK` and overwrites block 5 with the buffer. -/
theorem beyond_indirect_range_reports_ok :
    (seekToDataBlock staleDev 519 emptyIno).2 = OK ∧
      (seekToDataBlock staleDev 519 emptyIno).1.pos = staleDev.pos ∧
      (getDataBlock staleDev 519 emptyIno freshBuf).2.1 = OK ∧
      (∀ j, j < 1024 → (getDataBlock staleDev 519 emptyIno freshBuf).2.2 j
        = staleDev.data (5 * 1024 + j)) ∧
      (saveDataBlock staleDev 519 emptyIno patternTbl).2 = OK ∧
      (∀ j, j < 1024 → (saveDataBlock staleDev 519 emptyIno patternTbl).1.data (5 * 1024 + j)
        = patternTbl j) ∧
      staleDev.data (5 * 1024 + 1) ≠ patternTbl 1 := by
  have hg := getDataBlock_beyond staleDev 519 emptyIno freshBuf (by decide) (by decide)
  have hs := saveDataBlock_beyond staleDev 519 emptyIno patternTbl (by decide) (by decide)
  refine ⟨by decide!, by decide!, by rw [hg], ?_, by rw [hs], ?_, by decide!⟩
  · intro j hj
    rw [hg]
    show (if j < 1024 then staleDev.data (staleDev.pos + j) else freshBuf j) = _
    rw [if_pos hj]
    rfl
  · intro j hj
    rw [hs]
    show (if staleDev.pos ≤ 5 * 1024 + j ∧ 5 * 1024 + j < staleDev.pos + 1024
      then patternTbl (5 * 1024 + j - staleDev.pos) else staleDev.data (5 * 1024 + j)) = _
    have hp : staleDev.pos = 5 * 1024 := rfl
    rw [if_pos (by rw [hp]; omega), hp]
    exact congrArg patternTbl (by omega)
/-! ## C18: the single-indirect range of an inode without an indirect block -/

/-- C18 at its failing input: the inode has `zone[7] = 0` (no single-indirect block), yet for
the logical index 7 `getDataBlock` returns `OK` instead of `ERR1`: block 0 of the volume, the
boot block, is read as the index block, its entry 0 holds 3, and the bytes of block 3 are
delivered as block 7 of the file. -/
theorem index_resolved_through_block_zero :
    emptyIno.zone 7 = 0 ∧ getLE16 bootIndexDev.data (2 * (7 - 7)) = 3 ∧
      (getDataBlock bootIndexDev 7 emptyIno freshBuf).2.1 = OK ∧
      (getDataBlock bootIndexDev 7 emptyIno freshBuf).2.2
        = (fun j => if j < 1024 then bootIndexDev.data (3 * 1024 + j) else freshBuf j) ∧
      bootIndexDev.data (3 * 1024) = 0x61 := by
  refine ⟨by decide, by decide!, by decide!, rfl, by decide!⟩

/-- The failure is not bound to one input: for every inode with `zone[7] = 0` and every
logical index `i` with `7 ≤ i < 7 + 512`, `getDataBlock` takes block 0 of the volume for the
index block: when the entry at position `i-7` of block 0, read as a `short`, is not negative
and names a block within the volume, `getDataBlock` returns `OK` and delivers the 1024 bytes of
that block. -/
theorem getDataBlock_zone7_zero (d : Dev) (i : Nat) (ino : MinixInode) (buf : Bytes)
    (hz : ino.zone 7 = 0) (hi1 : 7 ≤ i) (hi2 : i < 7 + 512) (h0 : 1024 ≤ d.size)
    (he : 0 ≤ shortAt d.data (i - 7))
    (hsz : (shortAt d.data (i - 7)).toNat * 1024 + 1024 ≤ d.size) :
    ∃ d2 buf2, getDataBlock d i ino buf = (d2, OK, buf2) ∧
      ∀ j, j < 1024 → buf2 j = d.data ((shortAt d.data (i - 7)).toNat * 1024 + j) := by
  have hmin0 : min 1024 (d.size - 0) = 1024 := by omega
  have hidx : shortAt (fun j => if j < 1024 then d.data (0 + j) else freshBuf j) (i - 7)
      = shortAt d.data (i - 7) := by
    unfold shortAt getLE16
    beta_reduce
    rw [if_pos (show 2 * (i - 7) < 1024 by omega),
      if_pos (show 2 * (i - 7) + 1 < 1024 by omega), Nat.zero_add, Nat.zero_add]
  have hseek : seekToDataBlock d i ino
      = ({ d with pos := (shortAt d.data (i - 7)).toNat * 1024 }, OK) := by
    have hn1 : ¬ ((shortAt d.data (i - 7)) * ((BLOCK_SIZE : Nat) : Int) < 0) := by
      unfold BLOCK_SIZE
      omega
    have hn2 : ¬ ((shortAt d.data (i - 7)) * ((BLOCK_SIZE : Nat) : Int) = -1) := by
      unfold BLOCK_SIZE
      omega
    have hpos : ((shortAt d.data (i - 7)) * ((BLOCK_SIZE : Nat) : Int)).toNat
        = (shortAt d.data (i - 7)).toNat * 1024 := by
      unfold BLOCK_SIZE
      omega
    have hl1 : sysLseek d ((ino.zone 7 * BLOCK_SIZE : Nat) : Int) = ({ d with pos := 0 }, 0) := by
      rw [hz]
      rfl
    have hr : sysRead { d with pos := 0 } freshBuf BLOCK_SIZE
        = ({ d with pos := 1024 },
            (fun j => if j < 1024 then d.data (0 + j) else freshBuf j), 1024) := by
      unfold sysRead BLOCK_SIZE
      dsimp only
      rw [hmin0]
    have hl2 : sysLseek { d with pos := 1024 }
        (shortAt d.data (i - 7) * ((BLOCK_SIZE : Nat) : Int))
        = ({ d with pos := (shortAt d.data (i - 7)).toNat * 1024 },
            shortAt d.data (i - 7) * ((BLOCK_SIZE : Nat) : Int)) := by
      unfold sysLseek
      rw [if_neg hn1, hpos]
    unfold seekToDataBlock
    rw [if_neg (by omega), if_pos (by unfold BLOCK_SIZE; omega), hl1]
    dsimp only
    rw [if_neg (by decide), hr]
    dsimp only
    rw [if_neg (by unfold BLOCK_SIZE; omega), hidx, hl2]
    dsimp only
    rw [if_neg hn2]
  have hmin : min 1024 (d.size - (shortAt d.data (i - 7)).toNat * 1024) = 1024 := by omega
  refine ⟨{ d with pos := (shortAt d.data (i - 7)).toNat * 1024 + 1024 },
    fun j => if j < 1024 then d.data ((shortAt d.data (i - 7)).toNat * 1024 + j) else buf j,
    ?_, ?_⟩
  · unfold getDataBlock
    rw [hseek]
    simp [sysRead, OK, ERR1, BLOCK_SIZE, hmin]
  · intro j hj
    simp only [if_pos hj]

/-- An instance of `getDataBlock_zone7_zero`: the volume whose block 0 starts with the
entry 3. -/
theorem getDataBlock_zone7_zero_witness :
    emptyIno.zone 7 = 0 ∧ 1024 ≤ bootIndexDev.size ∧ 0 ≤ shortAt bootIndexDev.data (7 - 7) ∧
    (shortAt bootIndexDev.data (7 - 7)).toNat * 1024 + 1024 ≤ bootIndexDev.size ∧
    ∃ d2 buf2, getDataBlock bootIndexDev 7 emptyIno freshBuf = (d2, OK, buf2) ∧
      ∀ j, j < 1024 →
        buf2 j = bootIndexDev.data ((shortAt bootIndexDev.data (7 - 7)).toNat * 1024 + j) :=
  ⟨by decide, by decide, by decide!, by decide!,
    getDataBlock_zone7_zero bootIndexDev 7 emptyIno freshBuf (by decide) (by decide)
      (by decide) (by decide) (by decide!) (by decide!)⟩

/-! ## C19: reading a directory table of more than 7 blocks -/

/-- C19 at its failing input: the inode announces 7200 bytes (225 records, 8 blocks), yet
`getMinixDirTable` returns a table and the record count 225: record 224, which lies behind the
7 blocks allocated for the table, is taken from the block reached through the single-indirect
zone. -/
theorem getMinixDirTable_reads_past_seven_blocks :
    bigDirIno.i_size > 7 * BLOCK_SIZE ∧ numBlocks bigDirIno.i_size = 8 ∧
      (getMinixDirTable bigDirDev bigDirIno).2.2 = 225 ∧
      (getMinixDirTable bigDirDev bigDirIno).2.1.isSome = true ∧
      DIRENTRYSIZE * 224 = 7 * BLOCK_SIZE ∧
      (getMinixDirTable bigDirDev bigDirIno).2.1.map (fun t => entryAt t 224)
        = some (dentryBytes 9 "x") := by
  refine ⟨by decide, by decide, by decide!, by decide!, by decide, by decide!⟩

/-! ## C20: saving a directory table of more than 7 blocks -/

/-- For more than 224 records (and fewer than 2^26, so that `sizeTable` holds their size)
`saveMinixDirTable` returns without any effect. -/
theorem saveMinixDirTable_refuses (sb : MinixSuperBlock) (d : Dev) (zmap : Bytes)
    (ino : MinixInode) (tbl : Bytes) (k : Nat) (h1 : 224 < k) (h2 : k < 67108864) :
    saveMinixDirTable sb d zmap ino tbl k = (d, zmap, ino) := by
  have hnb : 7 < numBlocks (k * DIRENTRYSIZE) := by
    unfold numBlocks DIRENTRYSIZE BLOCK_SIZE
    split <;> omega
  unfold saveMinixDirTable
  rw [numRequired_eq k h2, if_pos (by omega)]

/-- C20 at its failing input: `closeMinixDirectory` called with 225 records for the root
directory of the example volume (inode 1, size 64, one block). `saveMinixDirTable` refuses the
table: the zone bitmap, the zones of the inode and block 5 of the volume are as before. Yet
the inode is saved with the size 7200 of the table that was not written. -/
theorem closeMinixDirectory_persists_unwritten_size :
    saveMinixDirTable (smallSB 32 100) demoMinixDev oneUsedZmap
        { dirIno 64 2 5 with i_size := 7200 } patternTbl 225
      = (demoMinixDev, oneUsedZmap, { dirIno 64 2 5 with i_size := 7200 }) ∧
    closedWith225.2.1 = oneUsedZmap ∧
    closedWith225.2.2.i_zone = (dirIno 64 2 5).i_zone ∧
    (∀ a, 5 * 1024 ≤ a → closedWith225.1.data a = demoMinixDev.data a) ∧
    (readInode (smallSB 32 100) demoMinixDev 1 uninitInode).2.2.i_size = 64 ∧
    (readInode (smallSB 32 100) closedWith225.1 1 uninitInode).2.2.i_size = 7200 ∧
    (readInode (smallSB 32 100) closedWith225.1 1 uninitInode).2.2.i_zone
      = [5, 0, 0, 0, 0, 0, 0, 0, 0] := by
  have hdata : closedWith225.1.data
      = fun a => if 4096 ≤ a ∧ a < 4096 + 32
          then encodeInode { dirIno 64 2 5 with i_size := 7200 } (a - 4096)
          else demoMinixDev.data a := rfl
  refine ⟨rfl, rfl, by decide!, ?_, by decide!, by decide!, by decide!⟩
  intro a ha
  rw [hdata]
  beta_reduce
  rw [if_neg (by omega)]

/-! ## C21: the zones allocated by `saveMinixDirTable` -/

/-- The zone table and the zone bitmap after the loop of `saveMinixDirTable`, whatever the
volume: slots that hold a zone and slots outside the loop keep their value; every empty slot
receives a zone that was free in the bitmap, is marked in the bitmap afterwards, and differs
from the zones given to the other empty slots. -/
theorem saveDirBlocks_zones (sb : MinixSuperBlock) (tbl : Bytes) (hnz : sb.s_nzones < 65536) :
    ∀ (n i : Nat) (d : Dev) (zmap : Bytes) (ino : MinixInode) (fl : List Nat),
      i + n ≤ 9 → ValidBytes zmap → ino.i_zone.length = 9 →
      fl.Nodup → (∀ x ∈ fl, x < sb.s_nzones - FIRSTZONE sb ∧ bitSet zmap x = false) →
      ((List.range' i n).filter (fun j => ino.zone j == 0)).length ≤ fl.length →
      ∃ d2 zmap2 ino2, saveDirBlocks sb tbl n i d zmap ino = (d2, zmap2, ino2) ∧
        (∀ j, (j < i ∨ i + n ≤ j ∨ ino.zone j ≠ 0) → ino2.zone j = ino.zone j) ∧
        (∀ j, i ≤ j → j < i + n → ino.zone j = 0 →
          FIRSTZONE sb ≤ ino2.zone j ∧ ino2.zone j < sb.s_nzones ∧
          bitSet zmap (ino2.zone j - FIRSTZONE sb) = false ∧
          bitSet zmap2 (ino2.zone j - FIRSTZONE sb) = true) ∧
        (∀ j1 j2, i ≤ j1 → j1 < j2 → j2 < i + n → ino.zone j1 = 0 → ino.zone j2 = 0 →
          ino2.zone j1 ≠ ino2.zone j2) ∧
        (∀ y, bitSet zmap y = true → bitSet zmap2 y = true) := by
  intro n
  induction n with
  | zero =>
    intro i d zmap ino fl _ _ _ _ _ _
    refine ⟨d, zmap, ino, rfl, fun _ _ => rfl, ?_, ?_, fun _ h => h⟩
    · intro j h1 h2; omega
    · intro j1 j2 h1 h2 h3; omega
  | succ n ih =>
    intro i d zmap ino fl hin hv hlen hnd hfl hcnt
    rw [List.range'_succ, List.filter_cons] at hcnt
    by_cases hz : ino.zone i = 0
    · have hz' : (ino.zone i == 0) = true := by simp [hz]
      rw [if_pos hz', List.length_cons] at hcnt
      obtain ⟨x, hx⟩ : ∃ x, x ∈ fl := by
        cases fl with
        | nil => simp at hcnt
        | cons x _ => exact ⟨x, List.mem_cons_self _ _⟩
      obtain ⟨hxN, hxclr⟩ := hfl x hx
      have hFZ := FIRSTZONE_ge sb
      obtain ⟨r0, zmap1, hfind, hr0x, hlow, hset, hframe, hv1⟩ :=
        findFreeDataBlock_alloc sb zmap hv x hxclr
          (by rw [zoneScanLimit_eq sb (by omega) hnz]; omega) (by omega)
      have hzi : (ino.setZone i ((r0 + FIRSTZONE sb : Nat) : Int)).zone i = r0 + FIRSTZONE sb := by
        rw [zone_setZone_self _ _ _ (by omega)]; omega
      have hzj : ∀ j, j ≠ i →
          (ino.setZone i ((r0 + FIRSTZONE sb : Nat) : Int)).zone j = ino.zone j :=
        fun j hj => zone_setZone_ne _ _ _ _ hj
      have hbit : ∀ y, bitSet zmap y = true → bitSet zmap1 y = true := by
        intro y hy
        by_cases hyr : y = r0
        · rw [hyr]; exact hset
        · rw [hframe y hyr]; exact hy
      have hclr1 : ∀ y, bitSet zmap1 y = false → bitSet zmap y = false := by
        intro y hy
        cases hb : bitSet zmap y with
        | false => rfl
        | true => rw [hbit y hb] at hy; exact absurd hy (by decide)
      cases hsd : saveDataBlock d i (ino.setZone i ((r0 + FIRSTZONE sb : Nat) : Int))
          (fun j => tbl (i * BLOCK_SIZE + j)) with
      | mk d1 rc =>
      obtain ⟨d2, zmap2, ino2, heq, hA, hB, hC, hD⟩ :=
        ih (i + 1) d1 zmap1 (ino.setZone i ((r0 + FIRSTZONE sb : Nat) : Int)) (fl.erase r0)
          (by omega) hv1 (by rw [setZone_length]; exact hlen) (hnd.erase r0)
          (by
            intro y hy
            rw [hnd.mem_erase_iff] at hy
            obtain ⟨b1, b2⟩ := hfl y hy.2
            exact ⟨b1, by rw [hframe y hy.1]; exact b2⟩)
          (by
            have e : (List.range' (i + 1) n).filter
                (fun j => (ino.setZone i ((r0 + FIRSTZONE sb : Nat) : Int)).zone j == 0)
                = (List.range' (i + 1) n).filter (fun j => ino.zone j == 0) := by
              apply List.filter_congr
              intro j hj
              rw [List.mem_range'_1] at hj
              rw [hzj j (by omega)]
            rw [e]
            by_cases hm : r0 ∈ fl
            · rw [List.length_erase_of_mem hm]; omega
            · rw [List.erase_of_not_mem hm]; omega)
      have hi2 : ino2.zone i = r0 + FIRSTZONE sb := by
        rw [hA i (Or.inl (by omega)), hzi]
      refine ⟨d2, zmap2, ino2, ?_, ?_, ?_, ?_, ?_⟩
      · rw [saveDirBlocks, if_pos hz, hfind]
        simp only [hsd]
        exact heq
      · intro j hj
        have hji : j ≠ i := by
          rcases hj with h | h | h
          · omega
          · omega
          · intro he; rw [he] at h; exact h hz
        rw [← hzj j hji]
        apply hA
        rcases hj with h | h | h
        · exact Or.inl (by omega)
        · exact Or.inr (Or.inl (by omega))
        · exact Or.inr (Or.inr (by rw [hzj j hji]; exact h))
      · intro j h1 h2 hj0
        by_cases hji : j = i
        · rw [hji, hi2, Nat.add_sub_cancel]
          exact ⟨by omega, by omega, hlow.1, hD _ hset⟩
        · obtain ⟨b1, b2, b3, b4⟩ := hB j (by omega) (by omega) (by rw [hzj j hji]; exact hj0)
          exact ⟨b1, b2, hclr1 _ b3, b4⟩
      · intro j1 j2 h1 h12 h2 hz1 hz2
        by_cases hj1 : j1 = i
        · intro he
          obtain ⟨b1, _, b3, _⟩ := hB j2 (by omega) (by omega)
            (by rw [hzj j2 (by omega)]; exact hz2)
          rw [← he, hj1, hi2, Nat.add_sub_cancel, hset] at b3
          exact absurd b3 (by decide)
        · exact hC j1 j2 (by omega) h12 (by omega) (by rw [hzj j1 hj1]; exact hz1)
            (by rw [hzj j2 (by omega)]; exact hz2)
      · intro y hy
        exact hD y (hbit y hy)
    · have hz' : (ino.zone i == 0) = false := by simp [hz]
      rw [hz'] at hcnt
      simp only [Bool.false_eq_true, if_false] at hcnt
      cases hsd : saveDataBlock d i ino (fun j => tbl (i * BLOCK_SIZE + j)) with
      | mk d1 rc =>
      obtain ⟨d2, zmap2, ino2, heq, hA, hB, hC, hD⟩ :=
        ih (i + 1) d1 zmap ino fl (by omega) hv hlen hnd hfl hcnt
      refine ⟨d2, zmap2, ino2, ?_, ?_, ?_, ?_, hD⟩
      · rw [saveDirBlocks, if_neg hz]
        simp only [hsd]
        exact heq
      · intro j hj
        apply hA
        rcases hj with h | h | h
        · exact Or.inl (by omega)
        · exact Or.inr (Or.inl (by omega))
        · exact Or.inr (Or.inr h)
      · intro j h1 h2 hj0
        have hji : j ≠ i := by intro he; rw [he] at hj0; exact hz hj0
        exact hB j (by omega) (by omega) hj0
      · intro j1 j2 h1 h12 h2 hz1 hz2
        have hj1 : j1 ≠ i := by intro he; rw [he] at hz1; exact hz hz1
        exact hC j1 j2 (by omega) h12 (by omega) hz1 hz2
/-- C21: for `k ≤ 224` records (`r = numBlocks (32*k) ≤ 7` blocks), a zone bitmap of
`unsigned char` cells with at least as many free data zones as the inode has empty slots among
its first `r`: `saveMinixDirTable` gives every slot `i < r` that held 0 a zone that was free in
the bitmap before the call, a different one for each such slot; every slot that held a zone
and every slot `i ≥ r` keeps its value; and, on a volume that holds its `s_nzones` blocks and
whose inode names distinct data zones marked in the bitmap, block `zone[i]` of the volume holds
the `i`-th block of the table for every `i < r`. -/
theorem saveMinixDirTable_zones (sb : MinixSuperBlock) (d : Dev) (zmap : Bytes)
    (ino : MinixInode) (tbl : Bytes) (k : Nat) (hk : k ≤ 224) (hnz : sb.s_nzones < 65536)
    (hv : ValidBytes zmap) (hlen : ino.i_zone.length = 9)
    (hfree : unallocated ino (numBlocks (k * DIRENTRYSIZE)) ≤ freeZones sb zmap) :
    ∃ d1 zmap1 ino1, saveMinixDirTable sb d zmap ino tbl k = (d1, zmap1, ino1) ∧
      (∀ i, i < numBlocks (k * DIRENTRYSIZE) → ino.zone i = 0 →
        FIRSTZONE sb ≤ ino1.zone i ∧ ino1.zone i < sb.s_nzones ∧
          bitSet zmap (ino1.zone i - FIRSTZONE sb) = false) ∧
      (∀ i1, i1 < numBlocks (k * DIRENTRYSIZE) → ∀ i2, i2 < numBlocks (k * DIRENTRYSIZE) →
        ino.zone i1 = 0 → ino.zone i2 = 0 → ino1.zone i1 = ino1.zone i2 → i1 = i2) ∧
      (∀ i, ino.zone i ≠ 0 ∨ numBlocks (k * DIRENTRYSIZE) ≤ i → ino1.zone i = ino.zone i) ∧
      (sb.s_nzones * 1024 ≤ d.size →
        (∀ j, j < numBlocks (k * DIRENTRYSIZE) → ino.zone j ≠ 0 →
          FIRSTZONE sb ≤ ino.zone j ∧ ino.zone j < sb.s_nzones ∧
            bitSet zmap (ino.zone j - FIRSTZONE sb) = true) →
        (∀ j1, j1 < numBlocks (k * DIRENTRYSIZE) → ∀ j2, j2 < numBlocks (k * DIRENTRYSIZE) →
          ino.zone j1 ≠ 0 → ino.zone j1 = ino.zone j2 → j1 = j2) →
        ∀ i, i < numBlocks (k * DIRENTRYSIZE) → ∀ t, t < 1024 →
          d1.data (ino1.zone i * 1024 + t) = tbl (i * 1024 + t)) := by
  have hr := numBlocks_le_seven k hk
  have hfl : ∀ x ∈ (List.range (sb.s_nzones - FIRSTZONE sb)).filter (fun i => !bitSet zmap i),
      x < sb.s_nzones - FIRSTZONE sb ∧ bitSet zmap x = false := by
    intro x hx
    rw [List.mem_filter, List.mem_range] at hx
    exact ⟨hx.1, by simpa using hx.2⟩
  have hcnt : ((List.range' 0 (numBlocks (k * DIRENTRYSIZE))).filter
      (fun j => ino.zone j == 0)).length
      ≤ ((List.range (sb.s_nzones - FIRSTZONE sb)).filter (fun i => !bitSet zmap i)).length := by
    rw [← List.range_eq_range']
    exact hfree
  obtain ⟨d1, zmap1, ino1, heq, hA, hB, hC, _⟩ :=
    saveDirBlocks_zones sb tbl hnz (numBlocks (k * DIRENTRYSIZE)) 0 d zmap ino
      ((List.range (sb.s_nzones - FIRSTZONE sb)).filter (fun i => !bitSet zmap i))
      (by omega) hv hlen ((List.nodup_range _).filter _) hfl hcnt
  have hsave : saveMinixDirTable sb d zmap ino tbl k = (d1, zmap1, ino1) := by
    unfold saveMinixDirTable
    rw [numRequired_eq k (by omega), if_neg (by omega), Int.toNat_ofNat]
    exact heq
  refine ⟨d1, zmap1, ino1, hsave, ?_, ?_, ?_, ?_⟩
  · intro i hi hz
    obtain ⟨b1, b2, b3, _⟩ := hB i (Nat.zero_le _) (by omega) hz
    exact ⟨b1, b2, b3⟩
  · intro i1 h1 i2 h2 hz1 hz2 he
    by_contra hne
    rcases Nat.lt_or_gt_of_ne hne with h | h
    · exact hC i1 i2 (Nat.zero_le _) h (by omega) hz1 hz2 he
    · exact hC i2 i1 (Nat.zero_le _) h (by omega) hz2 hz1 he.symm
  · intro i hi
    apply hA
    rcases hi with h | h
    · exact Or.inr (Or.inr h)
    · exact Or.inr (Or.inl (by omega))
  · intro hsz hused hdist i hi t ht
    obtain ⟨d2, zmap2, ino2, heq2, _, _, _, _, _, _, hdat, _⟩ :=
      saveDirBlocks_spec sb tbl hnz (numBlocks (k * DIRENTRYSIZE)) 0 d zmap ino
        ((List.range (sb.s_nzones - FIRSTZONE sb)).filter (fun i => !bitSet zmap i))
        (by omega) hv hlen hsz
        (fun j hj hjz => hused j (by omega) hjz)
        (fun j1 j2 h1 h2 hne he => hdist j1 (by omega) j2 (by omega) hne he)
        (fun j hj => by omega)
        ((List.nodup_range _).filter _) hfl hcnt
    rw [heq] at heq2
    simp only [Prod.mk.injEq] at heq2
    obtain ⟨e1, _, e3⟩ := heq2
    rw [e1, e3]
    exact hdat i (Nat.zero_le _) (by omega) t ht

/-- Witness for C21: a table of 33 records (two blocks) saved into an inode without zones, on
a blank volume of 100 blocks whose zone bitmap has one zone in use. -/
theorem saveMinixDirTable_zones_witness :
    unallocated emptyIno (numBlocks (33 * DIRENTRYSIZE)) ≤ freeZones (smallSB 32 100) oneUsedZmap ∧
    ∃ d1 zmap1 ino1,
      saveMinixDirTable (smallSB 32 100) blankDev oneUsedZmap emptyIno patternTbl 33
        = (d1, zmap1, ino1) ∧
      (∀ i, i < numBlocks (33 * DIRENTRYSIZE) → emptyIno.zone i = 0 →
        FIRSTZONE (smallSB 32 100) ≤ ino1.zone i ∧ ino1.zone i < (smallSB 32 100).s_nzones ∧
          bitSet oneUsedZmap (ino1.zone i - FIRSTZONE (smallSB 32 100)) = false) ∧
      (∀ i1, i1 < numBlocks (33 * DIRENTRYSIZE) → ∀ i2, i2 < numBlocks (33 * DIRENTRYSIZE) →
        emptyIno.zone i1 = 0 → emptyIno.zone i2 = 0 → ino1.zone i1 = ino1.zone i2 → i1 = i2) ∧
      (∀ i, emptyIno.zone i ≠ 0 ∨ numBlocks (33 * DIRENTRYSIZE) ≤ i →
        ino1.zone i = emptyIno.zone i) ∧
      (∀ i, i < numBlocks (33 * DIRENTRYSIZE) → ∀ t, t < 1024 →
        d1.data (ino1.zone i * 1024 + t) = patternTbl (i * 1024 + t)) := by
  refine ⟨by decide!, ?_⟩
  obtain ⟨d1, zmap1, ino1, h1, h2, h3, h4, h5⟩ :=
    saveMinixDirTable_zones (smallSB 32 100) blankDev oneUsedZmap emptyIno patternTbl 33
      (by decide) (by decide) oneUsedZmap_valid (by decide) (by decide!)
  exact ⟨d1, zmap1, ino1, h1, h2, h3, h4, h5 (by decide) (by decide!) (by decide!)⟩

/-! ## C22: `saveMinixDirTable` when no zone is free -/

/-- C22 at its failing input: with the 8 blocks of the zone bitmap full, `findFreeDataBlock`
returns `ERR1`; `saveMinixDirTable` stores that value in the empty slot 0 of the inode, where
it reads as zone 65535, and `saveDataBlock` writes the first block of the table to block 65535
of the volume. -/
theorem saveMinixDirTable_records_failed_allocation :
    FIRSTZONE layoutSB = 524 ∧ (∀ i, i < 8 * 8192 → bitSet fullZmap8k i = true) ∧
      (findFreeDataBlock layoutSB fullZmap8k).1 = ERR1 ∧ emptyIno.zone 0 = 0 ∧
      (saveMinixDirTable layoutSB bigBlankDev fullZmap8k emptyIno patternTbl 1).2.2.zone 0
        = 65535 ∧
      bigBlankDev.data (65535 * 1024 + 1) = 0 ∧
      (saveMinixDirTable layoutSB bigBlankDev fullZmap8k emptyIno patternTbl 1).1.data
        (65535 * 1024 + 1) = patternTbl 1 ∧
      patternTbl 1 = 1 := by
  refine ⟨by decide, ?_, by decide!, by decide, by decide!, by decide, by decide!, by decide⟩
  intro i hi
  unfold bitSet fullZmap8k
  rw [if_pos (by omega)]
  exact testBit_255 _ (Nat.mod_lt _ (by norm_num))

/-! ## C23: `saveInode` and `readInode` -/

theorem seekToInode_ok (sb : MinixSuperBlock) (d : Dev) (n : Int) (h : 0 ≤ inodePos sb n) :
    seekToInode sb d n = ({ d with pos := (inodePos sb n).toNat }, OK) := by
  have e : (((2 + sb.s_imap_blocks + sb.s_zmap_blocks) * BLOCK_SIZE : Nat) : Int)
      + (n - 1) * (INODE_SIZE : Int) = inodePos sb n := by
    unfold inodePos BLOCK_SIZE INODE_SIZE
    push_cast
    ring
  unfold seekToInode sysLseek
  rw [e, if_neg (by omega)]
  dsimp only
  rw [if_neg (by omega)]

theorem seekToInode_err (sb : MinixSuperBlock) (d : Dev) (n : Int) (h : inodePos sb n < 0) :
    seekToInode sb d n = (d, ERR1) := by
  have e : (((2 + sb.s_imap_blocks + sb.s_zmap_blocks) * BLOCK_SIZE : Nat) : Int)
      + (n - 1) * (INODE_SIZE : Int) = inodePos sb n := by
    unfold inodePos BLOCK_SIZE INODE_SIZE
    push_cast
    ring
  unfold seekToInode sysLseek
  rw [e, if_pos h]
  dsimp only
  rw [if_pos rfl]

theorem decodeInode_congr (b b2 : Bytes) (h : ∀ j, j < 32 → b j = b2 j) :
    decodeInode b = decodeInode b2 := by
  have h16 : ∀ o, o + 1 < 32 → getLE16 b o = getLE16 b2 o := by
    intro o ho
    unfold getLE16
    rw [h _ (by omega), h _ (by omega)]
  have h32 : ∀ o, o + 3 < 32 → getLE32 b o = getLE32 b2 o := by
    intro o ho
    unfold getLE32
    rw [h _ (by omega), h _ (by omega), h _ (by omega), h _ (by omega)]
  have hz : (List.range 9).map (fun j => getLE16 b (14 + 2 * j))
      = (List.range 9).map (fun j => getLE16 b2 (14 + 2 * j)) := by
    apply List.map_congr_left
    intro j hj
    rw [List.mem_range] at hj
    exact h16 _ (by omega)
  unfold decodeInode
  rw [hz, h16 0 (by omega), h16 2 (by omega), h32 4 (by omega), h32 8 (by omega),
    h 12 (by omega), h 13 (by omega)]
theorem readInode_at (sb : MinixSuperBlock) (d : Dev) (m : Int) (ino0 : MinixInode)
    (h : 0 ≤ inodePos sb m) :
    (readInode sb d m ino0).2
      = (if min 32 (d.size - (inodePos sb m).toNat) ≠ 32 then ERR1 else OK,
          decodeInode (fun j => if j < min 32 (d.size - (inodePos sb m).toNat)
            then d.data ((inodePos sb m).toNat + j) else encodeInode ino0 j)) := by
  unfold readInode
  rw [seekToInode_ok sb d m h]
  dsimp only
  rw [if_neg (by decide)]
  unfold sysRead INODE_SIZE
  dsimp only
  split <;> rfl

theorem decode_encode (x : MinixInode) (hx : x.Valid) : decodeInode (encodeInode x) = x := by
  obtain ⟨h1, h2, h3, h4, h5, h6, h7, h8⟩ := hx
  have hz : (List.range 9).map (fun j => getLE16 (encodeInode x) (14 + 2 * j)) = x.i_zone := by
    apply List.ext_getElem
    · simp [h7]
    · intro j hj1 hj2
      have hj : j < 9 := by simpa using hj1
      simp only [List.getElem_map, List.getElem_range]
      have hzj : x.zone j = x.i_zone[j] := by
        unfold MinixInode.zone
        simp [List.getD, hj2]
      have hlt : x.i_zone[j] < 65536 := h8 _ (List.getElem_mem _)
      have e0 : encodeInode x (14 + 2 * j) = leByte (x.zone j) 0 := by
        unfold encodeInode
        rw [if_neg (by omega), if_neg (by omega), if_neg (by omega), if_neg (by omega),
          if_neg (by omega), if_neg (by omega), if_pos (by omega)]
        have a1 : (14 + 2 * j - 14) / 2 = j := by omega
        have a2 : (14 + 2 * j - 14) % 2 = 0 := by omega
        rw [a1, a2]
      have e1 : encodeInode x (14 + 2 * j + 1) = leByte (x.zone j) 1 := by
        unfold encodeInode
        rw [if_neg (by omega), if_neg (by omega), if_neg (by omega), if_neg (by omega),
          if_neg (by omega), if_neg (by omega), if_pos (by omega)]
        have a1 : (14 + 2 * j + 1 - 14) / 2 = j := by omega
        have a2 : (14 + 2 * j + 1 - 14) % 2 = 1 := by omega
        rw [a1, a2]
      unfold getLE16
      rw [e0, e1, hzj]
      unfold leByte
      norm_num
      omega
  have e16 : ∀ v, v < 65536 → leByte v 0 + 256 * leByte v 1 = v := by
    intro v hv
    unfold leByte
    norm_num
    omega
  have e32 : ∀ v, v < 4294967296 →
      leByte v 0 + 256 * leByte v 1 + 65536 * leByte v 2 + 16777216 * leByte v 3 = v := by
    intro v hv
    unfold leByte
    norm_num
    omega
  have e8 : ∀ v, v < 256 → leByte v 0 = v := by
    intro v hv
    unfold leByte
    norm_num
    omega
  have f1 : getLE16 (encodeInode x) 0 = x.i_mode := by
    unfold getLE16 encodeInode
    simp only [show (0 : Nat) < 2 by omega, show (0 + 1 : Nat) < 2 by omega, if_true]
    exact e16 _ h1
  have f2 : getLE16 (encodeInode x) 2 = x.i_uid := by
    unfold getLE16 encodeInode
    simp only [show ¬ (2 : Nat) < 2 by omega, show ¬ (2 + 1 : Nat) < 2 by omega,
      show (2 : Nat) < 4 by omega, show (2 + 1 : Nat) < 4 by omega, if_true, if_false]
    exact e16 _ h2
  have f3 : getLE32 (encodeInode x) 4 = x.i_size := by
    unfold getLE32 encodeInode
    simp only [show ¬ (4 : Nat) < 2 by omega, show ¬ (4 + 1 : Nat) < 2 by omega,
      show ¬ (4 + 2 : Nat) < 2 by omega, show ¬ (4 + 3 : Nat) < 2 by omega,
      show ¬ (4 : Nat) < 4 by omega, show ¬ (4 + 1 : Nat) < 4 by omega,
      show ¬ (4 + 2 : Nat) < 4 by omega, show ¬ (4 + 3 : Nat) < 4 by omega,
      show (4 : Nat) < 8 by omega, show (4 + 1 : Nat) < 8 by omega,
      show (4 + 2 : Nat) < 8 by omega, show (4 + 3 : Nat) < 8 by omega, if_true, if_false]
    exact e32 _ h3
  have f4 : getLE32 (encodeInode x) 8 = x.i_time := by
    unfold getLE32 encodeInode
    simp only [show ¬ (8 : Nat) < 2 by omega, show ¬ (8 + 1 : Nat) < 2 by omega,
      show ¬ (8 + 2 : Nat) < 2 by omega, show ¬ (8 + 3 : Nat) < 2 by omega,
      show ¬ (8 : Nat) < 4 by omega, show ¬ (8 + 1 : Nat) < 4 by omega,
      show ¬ (8 + 2 : Nat) < 4 by omega, show ¬ (8 + 3 : Nat) < 4 by omega,
      show ¬ (8 : Nat) < 8 by omega, show ¬ (8 + 1 : Nat) < 8 by omega,
      show ¬ (8 + 2 : Nat) < 8 by omega, show ¬ (8 + 3 : Nat) < 8 by omega,
      show (8 : Nat) < 12 by omega, show (8 + 1 : Nat) < 12 by omega,
      show (8 + 2 : Nat) < 12 by omega, show (8 + 3 : Nat) < 12 by omega, if_true, if_false]
    exact e32 _ h4
  have f5 : encodeInode x 12 = x.i_gid := by
    unfold encodeInode
    simp only [show ¬ (12 : Nat) < 2 by omega, show ¬ (12 : Nat) < 4 by omega,
      show ¬ (12 : Nat) < 8 by omega, show ¬ (12 : Nat) < 12 by omega, if_true, if_false]
    exact e8 _ h5
  have f6 : encodeInode x 13 = x.i_nlinks := by
    unfold encodeInode
    simp only [show ¬ (13 : Nat) < 2 by omega, show ¬ (13 : Nat) < 4 by omega,
      show ¬ (13 : Nat) < 8 by omega, show ¬ (13 : Nat) < 12 by omega,
      show ¬ (13 : Nat) = 12 by omega, if_true, if_false]
    exact e8 _ h6
  unfold decodeInode
  rw [hz, f1, f2, f3, f4, f5, f6]
/-- C23: for an inode number `n ≥ 1` whose 32 bytes lie within the volume and an inode value
`x` whose fields hold values of their types, `saveInode n x` returns `OK`; the 32 bytes at
offset `(2 + s_imap_blocks + s_zmap_blocks) * 1024 + (n - 1) * 32` become the image of `x` and
no other byte of the volume changes; `readInode n` then returns `OK` and `x`, and `readInode m`
for every `m ≠ n` returns what it returns before the call. -/
theorem saveInode_frame (sb : MinixSuperBlock) (d : Dev) (n : Int) (x : MinixInode)
    (hn : 1 ≤ n) (hx : x.Valid) (hsz : (inodePos sb n).toNat + 32 ≤ d.size) :
    ∃ d1, saveInode sb d n x = (d1, OK) ∧
      (∀ t, t < 32 → d1.data ((inodePos sb n).toNat + t) = encodeInode x t) ∧
      (∀ a, a < (inodePos sb n).toNat ∨ (inodePos sb n).toNat + 32 ≤ a →
        d1.data a = d.data a) ∧
      (∀ ino0, (readInode sb d1 n ino0).2 = (OK, x)) ∧
      (∀ (m : Int) ino0, m ≠ n → (readInode sb d1 m ino0).2 = (readInode sb d m ino0).2) := by
  have hpos : 0 ≤ inodePos sb n := by unfold inodePos; omega
  have hmin : min 32 (d.size - (inodePos sb n).toNat) = 32 := by omega
  have hsave : saveInode sb d n x
      = ({ d with
            data := fun a =>
              if (inodePos sb n).toNat ≤ a ∧ a < (inodePos sb n).toNat + 32
              then encodeInode x (a - (inodePos sb n).toNat) else d.data a,
            pos := (inodePos sb n).toNat + 32 }, OK) := by
    unfold saveInode
    rw [seekToInode_ok sb d n hpos]
    dsimp only
    rw [if_neg (by decide)]
    unfold sysWrite INODE_SIZE
    dsimp only
    rw [hmin, if_neg (by omega)]
  refine ⟨_, hsave, ?_, ?_, ?_, ?_⟩
  · intro t ht
    dsimp only
    rw [if_pos (by omega)]
    exact congrArg (encodeInode x) (by omega)
  · intro a ha
    dsimp only
    rw [if_neg (by omega)]
  · intro ino0
    rw [readInode_at _ _ _ _ hpos]
    dsimp only
    rw [hmin, if_neg (by omega)]
    congr 1
    rw [← decode_encode x hx]
    apply decodeInode_congr
    intro j hj
    rw [decode_encode x hx, if_pos hj, if_pos (by omega)]
    exact congrArg (encodeInode x) (by omega)
  · intro m ino0 hm
    by_cases hmp : 0 ≤ inodePos sb m
    · rw [readInode_at _ _ _ _ hmp, readInode_at _ _ _ _ hmp]
      dsimp only
      congr 1
      apply decodeInode_congr
      intro j hj
      by_cases hjm : j < min 32 (d.size - (inodePos sb m).toNat)
      · rw [if_pos hjm, if_pos hjm, if_neg]
        unfold inodePos at hmp hpos ⊢
        omega
      · rw [if_neg hjm, if_neg hjm]
    · unfold readInode
      rw [seekToInode_err sb _ m (by omega), seekToInode_err sb _ m (by omega)]
      dsimp only
      rw [if_pos rfl, if_pos rfl]
/-- Witness for C23: inode 2 of the example Minix volume receives a directory inode. -/
theorem saveInode_frame_witness :
    (1 : Int) ≤ 2 ∧ (dirIno 64 2 6).Valid ∧
    (inodePos (smallSB 32 100) 2).toNat + 32 ≤ demoMinixDev.size ∧
    ∃ d1, saveInode (smallSB 32 100) demoMinixDev 2 (dirIno 64 2 6) = (d1, OK) ∧
      (∀ t, t < 32 →
        d1.data ((inodePos (smallSB 32 100) 2).toNat + t) = encodeInode (dirIno 64 2 6) t) ∧
      (∀ a, a < (inodePos (smallSB 32 100) 2).toNat ∨
          (inodePos (smallSB 32 100) 2).toNat + 32 ≤ a → d1.data a = demoMinixDev.data a) ∧
      (∀ ino0, (readInode (smallSB 32 100) d1 2 ino0).2 = (OK, dirIno 64 2 6)) ∧
      (∀ (m : Int) ino0, m ≠ 2 →
        (readInode (smallSB 32 100) d1 m ino0).2
          = (readInode (smallSB 32 100) demoMinixDev m ino0).2) :=
  ⟨by decide, by unfold MinixInode.Valid; decide, by decide!,
    saveInode_frame (smallSB 32 100) demoMinixDev 2 (dirIno 64 2 6) (by decide)
      (by unfold MinixInode.Valid; decide) (by decide!)⟩

/-! ## C24: `readCluster` and `writeCluster` -/

/-- C24, as stated, fails: with clusters of 64 KiB, cluster 40000 lies within the volume of
4 GiB at the offset `DATA_POS + 39998 * 65536 = 2621310464`, but the product `39998 * 65536`
does not fit an `int`: `readCluster` and `writeCluster` seek the offset -1673656832, the seek
fails, and the bytes are transferred at the position the volume had, 0. The buffer read does
not start with byte 170 of the cluster, and the write leaves the cluster as it was and replaces
the bytes at the head of the volume. -/
theorem readCluster_offset_wraps :
    CLUSTER_SIZE bigClusterFbs = 65536 ∧
      dataRegionOffset bigClusterFbs + (40000 - 2) * CLUSTER_SIZE bigClusterFbs = 2621310464 ∧
      2621310464 + 65536 ≤ bigFatDev.size ∧
      clusterPos bigClusterFbs 40000 = -1673656832 ∧
      bigFatDev.data 2621310464 = 170 ∧
      (readCluster bigClusterFbs bigFatDev 40000 freshBuf).2 0 = 0 ∧
      (readCluster bigClusterFbs bigFatDev 40000 freshBuf).1.pos = 65536 ∧
      (writeCluster bigClusterFbs bigFatDev 40000 patternTbl).data (2621310464 + 1) = 0 ∧
      patternTbl 1 = 1 ∧
      bigFatDev.data 1 = 0 ∧
      (writeCluster bigClusterFbs bigFatDev 40000 patternTbl).data 1 = 1 := by
  refine ⟨?_, ?_, ?_, ?_, ?_, ?_, ?_, ?_, ?_, ?_, ?_⟩ <;> decide!

/-- C24, amended: for a cluster size that is not negative and a cluster `n` that lies within
the volume and whose offset is computed without integer overflow, `readCluster` and
`writeCluster` seek the exact offset of the cluster, which is
`SECTOR_SIZE * (1 + fats * fat_length)` when `n = 0` and that offset of the root directory plus
32 bytes for each root directory entry plus `(n - 2) * CLUSTER_SIZE` when `n ≥ 2`:
`readCluster` delivers the `CLUSTER_SIZE` bytes found there and nothing more; `writeCluster`
replaces them by the buffer and changes no other byte of the volume; the ranges of two
different clusters `n, n2 ≥ 2` whose offsets are computed without overflow share no byte; and
`readCluster` after `writeCluster` on the same cluster delivers the buffer written. -/
theorem cluster_transfer (fbs : FatBootSector) (d : Dev) (n : Nat) (buf buf0 : Bytes)
    (hcs : 0 ≤ CLUSTER_SIZE fbs) (hr : Readable fbs d n) :
    clusterPos fbs n = clusterOffset fbs n ∧
    (n = 0 → clusterOffset fbs n
      = SECTOR_SIZE fbs * ((1 + fbs.fats * fbs.fat_length : Nat) : Int)) ∧
    (2 ≤ n → clusterOffset fbs n
      = SECTOR_SIZE fbs * ((1 + fbs.fats * fbs.fat_length : Nat) : Int)
        + toShort (fbs.dir_entries : Nat) * 32 + ((n : Int) - 2) * CLUSTER_SIZE fbs) ∧
    (∀ j, j < (CLUSTER_SIZE fbs).toNat →
      (readCluster fbs d n buf0).2 j = d.data ((clusterOffset fbs n).toNat + j)) ∧
    (∀ j, (CLUSTER_SIZE fbs).toNat ≤ j → (readCluster fbs d n buf0).2 j = setByte buf0 0 0 j) ∧
    (∀ j, j < (CLUSTER_SIZE fbs).toNat →
      (writeCluster fbs d n buf).data ((clusterOffset fbs n).toNat + j) = buf j) ∧
    (∀ a, a < (clusterOffset fbs n).toNat ∨
        (clusterOffset fbs n).toNat + (CLUSTER_SIZE fbs).toNat ≤ a →
      (writeCluster fbs d n buf).data a = d.data a) ∧
    (∀ n2 : Nat, 2 ≤ n → 2 ≤ n2 → n2 ≠ n → OffsetsFit fbs n2 → ∀ a : Int,
      clusterPos fbs n ≤ a ∧ a < clusterPos fbs n + CLUSTER_SIZE fbs →
      ¬ (clusterPos fbs n2 ≤ a ∧ a < clusterPos fbs n2 + CLUSTER_SIZE fbs)) ∧
    (∀ j, j < (CLUSTER_SIZE fbs).toNat →
      (readCluster fbs (writeCluster fbs d n buf) n buf0).2 j = buf j) := by
  obtain ⟨hfit, h1, h2⟩ := hr
  have hpos := clusterPos_exact fbs n hfit
  have hneg : ¬ (clusterOffset fbs (n : Int) < 0) := by omega
  have hmin : min (CLUSTER_SIZE fbs).toNat (d.size - (clusterOffset fbs (n : Int)).toNat)
      = (CLUSTER_SIZE fbs).toNat := by omega
  refine ⟨hpos, ?_, ?_, ?_, ?_, ?_, ?_, ?_, ?_⟩
  · intro h0
    unfold clusterOffset rootDirOffset
    rw [if_pos (by omega)]
  · intro h2n
    unfold clusterOffset dataClusterOffset dataRegionOffset rootDirOffset
    rw [if_neg (by omega)]
  · intro j hj
    simp only [readCluster, sysRead, sysLseek, hpos, if_neg hneg, hmin, if_pos hj]
  · intro j hj
    simp only [readCluster, sysRead, sysLseek, hpos, if_neg hneg, hmin,
      if_neg (Nat.not_lt.mpr hj)]
  · intro j hj
    simp only [writeCluster, sysWrite, sysLseek, hpos, if_neg hneg, hmin]
    rw [if_pos ⟨by omega, by omega⟩]
    exact congrArg buf (by omega)
  · intro a ha
    simp only [writeCluster, sysWrite, sysLseek, hpos, if_neg hneg, hmin]
    rw [if_neg (by omega)]
  · intro n2 hn hn2 hne hfit2 a ha hb
    have e1 : clusterOffset fbs n = dataRegionOffset fbs + ((n : Int) - 2) * CLUSTER_SIZE fbs := by
      unfold clusterOffset dataClusterOffset; rw [if_neg (by omega)]
    have e2 : clusterOffset fbs n2
        = dataRegionOffset fbs + ((n2 : Int) - 2) * CLUSTER_SIZE fbs := by
      unfold clusterOffset dataClusterOffset; rw [if_neg (by omega)]
    rw [hpos, e1] at ha
    rw [clusterPos_exact fbs n2 hfit2, e2] at hb
    rcases Nat.lt_or_gt_of_ne hne with hlt | hlt
    · have : ((n2 : Int) - 2 + 1) * CLUSTER_SIZE fbs ≤ ((n : Int) - 2) * CLUSTER_SIZE fbs :=
        mul_le_mul_of_nonneg_right (by omega) hcs
      nlinarith
    · have : ((n : Int) - 2 + 1) * CLUSTER_SIZE fbs ≤ ((n2 : Int) - 2) * CLUSTER_SIZE fbs :=
        mul_le_mul_of_nonneg_right (by omega) hcs
      nlinarith
  · intro j hj
    simp only [readCluster, writeCluster, sysRead, sysWrite, sysLseek, hpos, if_neg hneg, hmin,
      if_pos hj]
    rw [if_pos ⟨by omega, by omega⟩]
    exact congrArg buf (by omega)

theorem demoFatDev_readable_two : Readable demoFbs demoFatDev 2 := by
  unfold Readable OffsetsFit FitsInt
  decide!

/-- Witness for C24, amended: cluster 2 of the example FAT volume. -/
theorem cluster_transfer_witness :
    0 ≤ CLUSTER_SIZE demoFbs ∧ Readable demoFbs demoFatDev 2 ∧
    clusterPos demoFbs (2 : Nat) = clusterOffset demoFbs (2 : Nat) ∧
    ((2 : Nat) = 0 → clusterOffset demoFbs (2 : Nat)
      = SECTOR_SIZE demoFbs * ((1 + demoFbs.fats * demoFbs.fat_length : Nat) : Int)) ∧
    (2 ≤ 2 → clusterOffset demoFbs (2 : Nat)
      = SECTOR_SIZE demoFbs * ((1 + demoFbs.fats * demoFbs.fat_length : Nat) : Int)
        + toShort (demoFbs.dir_entries : Nat) * 32
        + (((2 : Nat) : Int) - 2) * CLUSTER_SIZE demoFbs) ∧
    (∀ j, j < (CLUSTER_SIZE demoFbs).toNat →
      (readCluster demoFbs demoFatDev (2 : Nat) freshBuf).2 j
        = demoFatDev.data ((clusterOffset demoFbs (2 : Nat)).toNat + j)) ∧
    (∀ j, (CLUSTER_SIZE demoFbs).toNat ≤ j →
      (readCluster demoFbs demoFatDev (2 : Nat) freshBuf).2 j = setByte freshBuf 0 0 j) ∧
    (∀ j, j < (CLUSTER_SIZE demoFbs).toNat →
      (writeCluster demoFbs demoFatDev (2 : Nat) patternTbl).data
        ((clusterOffset demoFbs (2 : Nat)).toNat + j) = patternTbl j) ∧
    (∀ a, a < (clusterOffset demoFbs (2 : Nat)).toNat ∨
        (clusterOffset demoFbs (2 : Nat)).toNat + (CLUSTER_SIZE demoFbs).toNat ≤ a →
      (writeCluster demoFbs demoFatDev (2 : Nat) patternTbl).data a = demoFatDev.data a) ∧
    (∀ n2 : Nat, 2 ≤ 2 → 2 ≤ n2 → n2 ≠ 2 → OffsetsFit demoFbs n2 → ∀ a : Int,
      clusterPos demoFbs (2 : Nat) ≤ a ∧
        a < clusterPos demoFbs (2 : Nat) + CLUSTER_SIZE demoFbs →
      ¬ (clusterPos demoFbs n2 ≤ a ∧ a < clusterPos demoFbs n2 + CLUSTER_SIZE demoFbs)) ∧
    (∀ j, j < (CLUSTER_SIZE demoFbs).toNat →
      (readCluster demoFbs (writeCluster demoFbs demoFatDev (2 : Nat) patternTbl) (2 : Nat)
        freshBuf).2 j = patternTbl j) :=
  ⟨by decide!, demoFatDev_readable_two,
    cluster_transfer demoFbs demoFatDev 2 patternTbl freshBuf (by decide!)
      demoFatDev_readable_two⟩


/-! ## C25: the bitmaps written by `closeMinixFS` -/

theorem closeMinixFS_data (sb : MinixSuperBlock) (d : Dev) (imap zmap : Bytes)
    (hsz : (2 + sb.s_imap_blocks + sb.s_zmap_blocks) * 1024 ≤ d.size) :
    (closeMinixFS sb d imap zmap).size = d.size ∧
    (closeMinixFS sb d imap zmap).data
      = fun a =>
          if (2 + sb.s_imap_blocks) * 1024 ≤ a ∧
              a < (2 + sb.s_imap_blocks) * 1024 + sb.s_zmap_blocks * 1024
          then zmap (a - (2 + sb.s_imap_blocks) * 1024)
          else if 2 * 1024 ≤ a ∧ a < 2 * 1024 + sb.s_imap_blocks * 1024
          then imap (a - 2 * 1024) else d.data a := by
  have hm1 : min (sb.s_imap_blocks * 1024) (d.size - 2 * 1024) = sb.s_imap_blocks * 1024 := by
    omega
  have hm2 : min (sb.s_zmap_blocks * 1024) (d.size - (2 + sb.s_imap_blocks) * 1024)
      = sb.s_zmap_blocks * 1024 := by omega
  have hn1 : ¬ (((2 * 1024 : Nat) : Int) < 0) := by omega
  have hn2 : ¬ ((((2 + sb.s_imap_blocks) * 1024 : Nat) : Int) < 0) := by omega
  have hn3 : ¬ (((2 * 1024 : Nat) : Int) = -1) := by omega
  have hn4 : ¬ ((((2 + sb.s_imap_blocks) * 1024 : Nat) : Int) = -1) := by omega
  unfold closeMinixFS sysLseek sysWrite BLOCK_SIZE
  rw [if_neg hn1]
  dsimp only
  rw [if_neg hn3, if_neg hn2]
  dsimp only
  rw [if_neg hn4]
  dsimp only
  simp only [Int.toNat_ofNat, hm1, hm2]
  exact ⟨trivial, trivial⟩
/-- C25: on a volume that holds the blocks of both bitmaps, `closeMinixFS` writes the inode
bitmap held in memory to the `s_imap_blocks*1024` bytes at offset `2*1024` and the zone bitmap
to the `s_zmap_blocks*1024` bytes at offset `(2+s_imap_blocks)*1024`, and changes no other
byte; `loadIMAP` and `loadZMAP` on the volume so closed return these bitmaps, byte for byte
and hence bit for bit. -/
theorem closeMinixFS_roundtrip (sb : MinixSuperBlock) (d : Dev) (imap zmap : Bytes)
    (hsz : (2 + sb.s_imap_blocks + sb.s_zmap_blocks) * 1024 ≤ d.size) :
    (∀ j, j < sb.s_imap_blocks * 1024 →
      (closeMinixFS sb d imap zmap).data (2 * 1024 + j) = imap j) ∧
    (∀ j, j < sb.s_zmap_blocks * 1024 →
      (closeMinixFS sb d imap zmap).data ((2 + sb.s_imap_blocks) * 1024 + j) = zmap j) ∧
    (∀ a, a < 2 * 1024 ∨ (2 + sb.s_imap_blocks + sb.s_zmap_blocks) * 1024 ≤ a →
      (closeMinixFS sb d imap zmap).data a = d.data a) ∧
    ∃ d2 imap2 d3 zmap2,
      loadIMAP sb (closeMinixFS sb d imap zmap) = (d2, some imap2) ∧
      loadZMAP sb d2 = (d3, some zmap2) ∧
      (∀ j, j < sb.s_imap_blocks * 1024 → imap2 j = imap j) ∧
      (∀ j, j < sb.s_zmap_blocks * 1024 → zmap2 j = zmap j) ∧
      (∀ i, i < 8 * (sb.s_imap_blocks * 1024) → bitSet imap2 i = bitSet imap i) ∧
      (∀ i, i < 8 * (sb.s_zmap_blocks * 1024) → bitSet zmap2 i = bitSet zmap i) := by
  obtain ⟨hs, hd⟩ := closeMinixFS_data sb d imap zmap hsz
  have hI : ∀ j, j < sb.s_imap_blocks * 1024 →
      (closeMinixFS sb d imap zmap).data (2 * 1024 + j) = imap j := by
    intro j hj
    rw [hd]
    dsimp only
    rw [if_neg (by omega), if_pos (by omega)]
    exact congrArg imap (by omega)
  have hZ : ∀ j, j < sb.s_zmap_blocks * 1024 →
      (closeMinixFS sb d imap zmap).data ((2 + sb.s_imap_blocks) * 1024 + j) = zmap j := by
    intro j hj
    rw [hd]
    dsimp only
    rw [if_pos (by omega)]
    exact congrArg zmap (by omega)
  have hm1 : min (sb.s_imap_blocks * 1024) ((closeMinixFS sb d imap zmap).size - 2 * 1024)
      = sb.s_imap_blocks * 1024 := by rw [hs]; omega
  have hm2 : min (sb.s_zmap_blocks * 1024)
      ((closeMinixFS sb d imap zmap).size - (2 + sb.s_imap_blocks) * 1024)
      = sb.s_zmap_blocks * 1024 := by rw [hs]; omega
  have hn1 : ¬ (((2 * 1024 : Nat) : Int) < 0) := by omega
  have hn2 : ¬ ((((2 + sb.s_imap_blocks) * 1024 : Nat) : Int) < 0) := by omega
  have hn3 : ¬ (((2 * 1024 : Nat) : Int) = -1) := by omega
  have hn4 : ¬ ((((2 + sb.s_imap_blocks) * 1024 : Nat) : Int) = -1) := by omega
  have hload : loadIMAP sb (closeMinixFS sb d imap zmap)
      = ({ closeMinixFS sb d imap zmap with pos := 2 * 1024 + sb.s_imap_blocks * 1024 },
          some (fun j => if j < sb.s_imap_blocks * 1024
            then (closeMinixFS sb d imap zmap).data (2 * 1024 + j) else freshBuf j)) := by
    unfold loadIMAP sysLseek sysRead BLOCK_SIZE
    rw [if_neg hn1]
    dsimp only
    rw [if_neg hn3]
    simp only [Int.toNat_ofNat, hm1]
    rw [if_neg (by omega)]
  have hloadz : loadZMAP sb
      { closeMinixFS sb d imap zmap with pos := 2 * 1024 + sb.s_imap_blocks * 1024 }
      = ({ closeMinixFS sb d imap zmap with
            pos := (2 + sb.s_imap_blocks) * 1024 + sb.s_zmap_blocks * 1024 },
          some (fun j => if j < sb.s_zmap_blocks * 1024
            then (closeMinixFS sb d imap zmap).data ((2 + sb.s_imap_blocks) * 1024 + j)
            else freshBuf j)) := by
    unfold loadZMAP sysLseek sysRead BLOCK_SIZE
    rw [if_neg hn2]
    dsimp only
    rw [if_neg hn4]
    simp only [Int.toNat_ofNat, hm2]
    rw [if_neg (by omega)]
  refine ⟨hI, hZ, ?_, _, _, _, _, hload, hloadz, ?_, ?_, ?_, ?_⟩
  · intro a ha
    rw [hd]
    dsimp only
    rw [if_neg (by omega), if_neg (by omega)]
  · intro j hj
    rw [if_pos hj]
    exact hI j hj
  · intro j hj
    rw [if_pos hj]
    exact hZ j hj
  · intro i hi
    unfold bitSet
    dsimp only
    rw [if_pos (by omega), hI _ (by omega)]
  · intro i hi
    unfold bitSet
    dsimp only
    rw [if_pos (by omega), hZ _ (by omega)]

/-- Witness for C25: the example Minix volume closed with the bitmaps of the example world. -/
theorem closeMinixFS_roundtrip_witness :
    (2 + (smallSB 32 100).s_imap_blocks + (smallSB 32 100).s_zmap_blocks) * 1024
      ≤ demoMinixDev.size ∧
    (∀ j, j < (smallSB 32 100).s_imap_blocks * 1024 →
      (closeMinixFS (smallSB 32 100) demoMinixDev freshImap oneUsedZmap).data (2 * 1024 + j)
        = freshImap j) ∧
    (∀ j, j < (smallSB 32 100).s_zmap_blocks * 1024 →
      (closeMinixFS (smallSB 32 100) demoMinixDev freshImap oneUsedZmap).data
        ((2 + (smallSB 32 100).s_imap_blocks) * 1024 + j) = oneUsedZmap j) ∧
    (∀ a, a < 2 * 1024 ∨
        (2 + (smallSB 32 100).s_imap_blocks + (smallSB 32 100).s_zmap_blocks) * 1024 ≤ a →
      (closeMinixFS (smallSB 32 100) demoMinixDev freshImap oneUsedZmap).data a
        = demoMinixDev.data a) ∧
    ∃ d2 imap2 d3 zmap2,
      loadIMAP (smallSB 32 100) (closeMinixFS (smallSB 32 100) demoMinixDev freshImap
        oneUsedZmap) = (d2, some imap2) ∧
      loadZMAP (smallSB 32 100) d2 = (d3, some zmap2) ∧
      (∀ j, j < (smallSB 32 100).s_imap_blocks * 1024 → imap2 j = freshImap j) ∧
      (∀ j, j < (smallSB 32 100).s_zmap_blocks * 1024 → zmap2 j = oneUsedZmap j) ∧
      (∀ i, i < 8 * ((smallSB 32 100).s_imap_blocks * 1024) →
        bitSet imap2 i = bitSet freshImap i) ∧
      (∀ i, i < 8 * ((smallSB 32 100).s_zmap_blocks * 1024) →
        bitSet zmap2 i = bitSet oneUsedZmap i) :=
  ⟨by decide, closeMinixFS_roundtrip (smallSB 32 100) demoMinixDev freshImap oneUsedZmap
    (by decide)⟩

/-! ## C26: record count, size and link count after `copyDirEntries` -/

theorem copyEntry_counts (inodeNum parentInodeNum : Int) (st : CopyState) (e : Bytes) :
    (copyEntry inodeNum parentInodeNum st e).numRecords
      = st.numRecords + (if isDirClass e then 1 else 0) + (if isFileClass e then 1 else 0) ∧
    (copyEntry inodeNum parentInodeNum st e).ino.i_nlinks
      = if isDirClass e then (st.ino.i_nlinks + 1) % 256 else st.ino.i_nlinks := by
  unfold copyEntry isDirClass isFileClass isSkippedEntry
  by_cases h1 : e 11 = 0x0f
  · simp [h1]
  · by_cases h2 : e 0 = 0x00
    · simp [h1, h2]
    · by_cases h3 : e 0 = 0x05
      · simp [h1, h2, h3]
      · by_cases h4 : e 0 = 0xE5
        · simp [h1, h2, h3, h4]
        · by_cases h5 : e 0 = 0x2E ∨ e 11 &&& ATTR_DIR ≠ 0
          · rw [if_neg h1, if_neg h2, if_neg h3, if_neg h4, if_pos h5]
            have hb : (e 0 == 0x2E || e 11 &&& ATTR_DIR != 0) = true := by
              rcases h5 with h | h
              · simp [h]
              · simp [h]
            have hs : (e 11 == 0x0f || e 0 == 0x00 || e 0 == 0x05 || e 0 == 0xE5) = false := by
              simp [h1, h2, h3, h4]
            rw [hb, hs]
            simp only [Bool.not_false, Bool.and_self, Bool.not_true, Bool.and_false, if_true,
              Bool.false_eq_true, if_false]
            split
            · exact ⟨rfl, rfl⟩
            · split <;> exact ⟨rfl, rfl⟩
          · rw [if_neg h1, if_neg h2, if_neg h3, if_neg h4, if_neg h5]
            have hb : (e 0 == 0x2E || e 11 &&& ATTR_DIR != 0) = false := by
              simp only [not_or, not_not] at h5
              simp [h5.1, h5.2]
            have hs : (e 11 == 0x0f || e 0 == 0x00 || e 0 == 0x05 || e 0 == 0xE5) = false := by
              simp [h1, h2, h3, h4]
            rw [hb, hs]
            simp
theorem foldl_copyEntry_counts (inodeNum parentInodeNum : Int) :
    ∀ (es : List Bytes) (st : CopyState), st.ino.i_nlinks < 256 →
      (es.foldl (copyEntry inodeNum parentInodeNum) st).numRecords
        = st.numRecords + (es.filter isDirClass).length + (es.filter isFileClass).length ∧
      (es.foldl (copyEntry inodeNum parentInodeNum) st).ino.i_nlinks
        = (st.ino.i_nlinks + (es.filter isDirClass).length) % 256 := by
  intro es
  induction es with
  | nil =>
    intro st hl
    simp only [List.foldl_nil, List.filter_nil, List.length_nil, Nat.add_zero]
    exact ⟨trivial, (Nat.mod_eq_of_lt hl).symm⟩
  | cons e es ih =>
    intro st hl
    obtain ⟨c1, c2⟩ := copyEntry_counts inodeNum parentInodeNum st e
    have hl1 : (copyEntry inodeNum parentInodeNum st e).ino.i_nlinks < 256 := by
      rw [c2]; split <;> omega
    obtain ⟨i1, i2⟩ := ih (copyEntry inodeNum parentInodeNum st e) hl1
    rw [List.foldl_cons, i1, i2]
    by_cases hd : isDirClass e = true
    · by_cases hf : isFileClass e = true
      · simp only [hd, hf, if_true] at c1 c2
        rw [c1, c2]
        refine ⟨?_, ?_⟩ <;>
          simp only [List.filter_cons, hd, hf, if_true, List.length_cons] <;> omega
      · simp only [hd, hf, if_true, if_false, Bool.false_eq_true] at c1 c2
        rw [c1, c2]
        refine ⟨?_, ?_⟩ <;>
          simp only [List.filter_cons, hd, hf, if_true, if_false, List.length_cons,
            Bool.false_eq_true] <;> omega
    · by_cases hf : isFileClass e = true
      · simp only [hd, hf, if_true, if_false, Bool.false_eq_true] at c1 c2
        rw [c1, c2]
        refine ⟨?_, ?_⟩
        · simp only [List.filter_cons, hd, hf, if_true, if_false, List.length_cons,
            Bool.false_eq_true]
          omega
        · simp only [List.filter_cons, hd, if_false, Bool.false_eq_true]
      · simp only [hd, hf, if_false, Bool.false_eq_true] at c1 c2
        rw [c1, c2]
        refine ⟨?_, ?_⟩
        · simp only [List.filter_cons, hd, hf, if_false, Bool.false_eq_true]
          omega
        · simp only [List.filter_cons, hd, if_false, Bool.false_eq_true]

theorem saveDirBlocks_fields (sb : MinixSuperBlock) (tbl : Bytes) :
    ∀ (n i : Nat) (d : Dev) (zmap : Bytes) (ino : MinixInode),
      ∃ d2 zmap2 ino2, saveDirBlocks sb tbl n i d zmap ino = (d2, zmap2, ino2) ∧
        ino2.i_size = ino.i_size ∧ ino2.i_nlinks = ino.i_nlinks := by
  intro n
  induction n with
  | zero => intro i d zmap ino; exact ⟨d, zmap, ino, rfl, rfl, rfl⟩
  | succ n ih =>
    intro i d zmap ino
    by_cases hz : ino.zone i = 0
    · cases hf : findFreeDataBlock sb zmap with
      | mk blk zmap1 =>
      cases hsd : saveDataBlock d i (ino.setZone i blk) (fun j => tbl (i * BLOCK_SIZE + j)) with
      | mk d1 rc =>
      obtain ⟨d2, zmap2, ino2, heq, h1, h2⟩ := ih (i + 1) d1 zmap1 (ino.setZone i blk)
      refine ⟨d2, zmap2, ino2, ?_, h1, h2⟩
      rw [saveDirBlocks, if_pos hz, hf]
      simp only [hsd]
      exact heq
    · cases hsd : saveDataBlock d i ino (fun j => tbl (i * BLOCK_SIZE + j)) with
      | mk d1 rc =>
      obtain ⟨d2, zmap2, ino2, heq, h1, h2⟩ := ih (i + 1) d1 zmap ino
      refine ⟨d2, zmap2, ino2, ?_, h1, h2⟩
      rw [saveDirBlocks, if_neg hz]
      simp only [hsd]
      exact heq

theorem closeMinixDirectory_ino (sb : MinixSuperBlock) (d : Dev) (zmap dirPtr : Bytes)
    (numRecs : Nat) (inoNum : Int) (ino : MinixInode) :
    ∃ d0 zmap1 ino1,
      closeMinixDirectory sb d zmap dirPtr numRecs inoNum ino
        = ((saveInode sb d0 inoNum ino1).1, zmap1, ino1) ∧
      ino1.i_size = (DIRENTRYSIZE * numRecs) % 4294967296 ∧ ino1.i_nlinks = ino.i_nlinks := by
  unfold closeMinixDirectory saveMinixDirTable
  by_cases h : numRequired numRecs > 7
  · rw [if_pos h]
    exact ⟨_, _, _, rfl, rfl, rfl⟩
  · rw [if_neg h]
    obtain ⟨d2, zmap2, ino2, heq, h1, h2⟩ :=
      saveDirBlocks_fields sb dirPtr (numRequired numRecs).toNat 0 d zmap
        { ino with i_size := (DIRENTRYSIZE * numRecs) % 4294967296 }
    rw [heq]
    exact ⟨_, _, _, rfl, h1, h2⟩
theorem filter_entries_length (p : Bytes → Bool) (dirTbl : Bytes) (numEntries : Nat) :
    (((List.range numEntries).map (fun i => fun j => dirTbl (32 * i + j))).filter p).length
      = ((List.range numEntries).filter (fun i => p (fun j => dirTbl (32 * i + j)))).length := by
  rw [List.filter_map, List.length_map]
  rfl

/-- C26, as stated, fails: the Minix directory is opened with 2 records and the link count
255, and the FAT table holds one entry of the directory class (`DOCS`) and one of the file
class (`B.TXT`); the inode saved by `closeMinixDirectory` has the link count 0, not
255 + 1: the field `i_nlinks` has 8 bits. -/
theorem link_count_wraps :
    manyLinksState.numRecords = 2 ∧ manyLinksState.ino.i_nlinks = 255 ∧
      dirCount demoFatRoot 16 = 1 ∧ fileCount demoFatRoot 16 = 1 ∧
      (copyEntries 1 1 demoFatRoot 16 manyLinksState).numRecords = 4 ∧
      (closeMinixDirectory (smallSB 32 100) (copyEntries 1 1 demoFatRoot 16 manyLinksState).w.mx
        (copyEntries 1 1 demoFatRoot 16 manyLinksState).w.zmap
        (copyEntries 1 1 demoFatRoot 16 manyLinksState).tbl
        (copyEntries 1 1 demoFatRoot 16 manyLinksState).numRecords 1
        (copyEntries 1 1 demoFatRoot 16 manyLinksState).ino).2.2.i_nlinks = 0 := by
  refine ⟨rfl, rfl, by decide!, by decide!, by decide!, by decide!⟩

/-- C26, amended: the first loop of `copyDirEntries` on a table with `d` entries of the
directory class and `f` entries of the file class, started with `r` records and an inode of
link count `l`, ends with `r + d + f` records; `closeMinixDirectory`, called with that count,
hands to `saveInode` an inode of size `32 * (r + d + f)` (a size below 2^32) and of link count
`(l + d) mod 256`. -/
theorem copyDirEntries_counts (sb : MinixSuperBlock) (inodeNum parentInodeNum : Int)
    (dirTbl : Bytes) (numEntries : Nat) (st : CopyState) (hl : st.ino.i_nlinks < 256)
    (hsz : 32 * (st.numRecords + dirCount dirTbl numEntries + fileCount dirTbl numEntries)
      < 4294967296) :
    (copyEntries inodeNum parentInodeNum dirTbl numEntries st).numRecords
      = st.numRecords + dirCount dirTbl numEntries + fileCount dirTbl numEntries ∧
    ∃ d0 zmap1 ino1,
      closeMinixDirectory sb (copyEntries inodeNum parentInodeNum dirTbl numEntries st).w.mx
          (copyEntries inodeNum parentInodeNum dirTbl numEntries st).w.zmap
          (copyEntries inodeNum parentInodeNum dirTbl numEntries st).tbl
          (copyEntries inodeNum parentInodeNum dirTbl numEntries st).numRecords inodeNum
          (copyEntries inodeNum parentInodeNum dirTbl numEntries st).ino
        = ((saveInode sb d0 inodeNum ino1).1, zmap1, ino1) ∧
      ino1.i_size
        = 32 * (st.numRecords + dirCount dirTbl numEntries + fileCount dirTbl numEntries) ∧
      ino1.i_nlinks = (st.ino.i_nlinks + dirCount dirTbl numEntries) % 256 := by
  obtain ⟨c1, c2⟩ := foldl_copyEntry_counts inodeNum parentInodeNum
    ((List.range numEntries).map (fun i => fun j => dirTbl (32 * i + j))) st hl
  rw [← copyEntries_eq_foldl, filter_entries_length, filter_entries_length] at c1
  rw [← copyEntries_eq_foldl, filter_entries_length] at c2
  have c1' : (copyEntries inodeNum parentInodeNum dirTbl numEntries st).numRecords
      = st.numRecords + dirCount dirTbl numEntries + fileCount dirTbl numEntries := c1
  refine ⟨c1', ?_⟩
  obtain ⟨d0, zmap1, ino1, heq, h1, h2⟩ :=
    closeMinixDirectory_ino sb (copyEntries inodeNum parentInodeNum dirTbl numEntries st).w.mx
      (copyEntries inodeNum parentInodeNum dirTbl numEntries st).w.zmap
      (copyEntries inodeNum parentInodeNum dirTbl numEntries st).tbl
      (copyEntries inodeNum parentInodeNum dirTbl numEntries st).numRecords inodeNum
      (copyEntries inodeNum parentInodeNum dirTbl numEntries st).ino
  refine ⟨d0, zmap1, ino1, heq, ?_, ?_⟩
  · rw [h1, c1']
    unfold DIRENTRYSIZE
    omega
  · rw [h2]
    exact c2

/-- Witness for C26, amended: the root directory of the example FAT volume copied into a
directory with 2 records and the link count 255. -/
theorem copyDirEntries_counts_witness :
    manyLinksState.ino.i_nlinks < 256 ∧
    32 * (manyLinksState.numRecords + dirCount demoFatRoot 16 + fileCount demoFatRoot 16)
      < 4294967296 ∧
    (copyEntries 1 1 demoFatRoot 16 manyLinksState).numRecords
      = manyLinksState.numRecords + dirCount demoFatRoot 16 + fileCount demoFatRoot 16 ∧
    ∃ d0 zmap1 ino1,
      closeMinixDirectory (smallSB 32 100) (copyEntries 1 1 demoFatRoot 16 manyLinksState).w.mx
          (copyEntries 1 1 demoFatRoot 16 manyLinksState).w.zmap
          (copyEntries 1 1 demoFatRoot 16 manyLinksState).tbl
          (copyEntries 1 1 demoFatRoot 16 manyLinksState).numRecords 1
          (copyEntries 1 1 demoFatRoot 16 manyLinksState).ino
        = ((saveInode (smallSB 32 100) d0 1 ino1).1, zmap1, ino1) ∧
      ino1.i_size
        = 32 * (manyLinksState.numRecords + dirCount demoFatRoot 16
            + fileCount demoFatRoot 16) ∧
      ino1.i_nlinks = (manyLinksState.ino.i_nlinks + dirCount demoFatRoot 16) % 256 :=
  ⟨by decide, by decide!,
    copyDirEntries_counts (smallSB 32 100) 1 1 demoFatRoot 16 manyLinksState (by decide)
      (by decide!)⟩

/-! ## C27: the offsets computed in different places -/

/-- The seek of `copyFatDir` goes to `copyFatDirRootPos`. -/
theorem copyFatDir_seek (sb : MinixSuperBlock) (fbs : FatBootSector) (fatPtr : Nat → Nat)
    (fuel : Nat) (w : World) :
    copyFatDir sb fbs fatPtr fuel w
      = copyDirEntries sb fbs fatPtr fuel (str "/")
          (sysRead (sysLseek w.fat (copyFatDirRootPos fbs)).1 freshBuf
            (32 * toShort (fbs.dir_entries : Nat)).toNat).2.1
          (toShort (fbs.dir_entries : Nat)).toNat
          { w with fat := (sysRead (sysLseek w.fat (copyFatDirRootPos fbs)).1 freshBuf
            (32 * toShort (fbs.dir_entries : Nat)).toNat).1 } := rfl

/-- The seek of the cluster loop of `processSubDirectory` goes to `processSubDirectoryPos`. -/
theorem subDirCluster_seek (fbs : FatBootSector)
    (copyDir : List Nat → Bytes → Nat → World → Option World) (minixName : List Nat)
    (w : World) (subDir : Bytes) (clusterNum : Nat) :
    subDirCluster fbs copyDir minixName (some (w, subDir)) clusterNum
      = if (sysRead (sysLseek w.fat (processSubDirectoryPos fbs clusterNum)).1 subDir
            (SECTOR_SIZE fbs * (fbs.cluster_size : Nat)).toNat).2.2 > 0 then
          match copyDir minixName
              (sysRead (sysLseek w.fat (processSubDirectoryPos fbs clusterNum)).1 subDir
                (SECTOR_SIZE fbs * (fbs.cluster_size : Nat)).toNat).2.1
              (SECTOR_SIZE fbs * (fbs.cluster_size : Nat) / 32).toNat
              { w with fat :=
                (sysRead (sysLseek w.fat (processSubDirectoryPos fbs clusterNum)).1 subDir
                  (SECTOR_SIZE fbs * (fbs.cluster_size : Nat)).toNat).1 } with
          | none => none
          | some w1 =>
            some (w1, (sysRead (sysLseek w.fat (processSubDirectoryPos fbs clusterNum)).1 subDir
              (SECTOR_SIZE fbs * (fbs.cluster_size : Nat)).toNat).2.1)
        else
          some ({ w with fat :=
              (sysRead (sysLseek w.fat (processSubDirectoryPos fbs clusterNum)).1 subDir
                (SECTOR_SIZE fbs * (fbs.cluster_size : Nat)).toNat).1 },
            (sysRead (sysLseek w.fat (processSubDirectoryPos fbs clusterNum)).1 subDir
              (SECTOR_SIZE fbs * (fbs.cluster_size : Nat)).toNat).2.1) := rfl

/-- C27: the offsets computed in `copyFatDir`, `processSubDirectory`, `getFatDataBlock` and
by the macros of `fatDefn.h` agree. The offset of `copyFatDir` is `ROOTDIR_POS`, and the offset
of `getFatDataBlock` for a cluster `n ≥ 2` is that of `readCluster`, whatever the boot sector
holds. Absent integer overflow (the products `SECTOR_SIZE * (1 + fats * fat_length)` and
`(n - 2) * CLUSTER_SIZE` and the offset of the cluster lie in the range of `int`, and the data
region does not start at a negative offset), `ROOTDIR_POS` is
`SECTOR_SIZE * (1 + fats * fat_length)`, `DATA_POS` is `ROOTDIR_POS` plus 32 bytes for each
root directory entry, `readCluster` seeks `DATA_POS + (n - 2) * CLUSTER_SIZE`, and the offset
of `processSubDirectory` is that of `readCluster`. -/
theorem offsets_agree (fbs : FatBootSector) :
    copyFatDirRootPos fbs = ROOTDIR_POS fbs ∧
    (FitsInt (SECTOR_SIZE fbs * ((1 + fbs.fats * fbs.fat_length : Nat) : Int)) →
      ROOTDIR_POS fbs = SECTOR_SIZE fbs * ((1 + fbs.fats * fbs.fat_length : Nat) : Int)) ∧
    (FitsInt (SECTOR_SIZE fbs * ((1 + fbs.fats * fbs.fat_length : Nat) : Int)) →
      0 ≤ SECTOR_SIZE fbs * ((1 + fbs.fats * fbs.fat_length : Nat) : Int)
        + toShort (fbs.dir_entries : Nat) * 32 →
      DATA_POS fbs = ROOTDIR_POS fbs + toShort (fbs.dir_entries : Nat) * 32) ∧
    ∀ n : Nat, 2 ≤ n →
      getFatDataBlockPos fbs n = clusterPos fbs n ∧
      (OffsetsFit fbs n →
        clusterPos fbs n = DATA_POS fbs + ((n : Int) - 2) * CLUSTER_SIZE fbs) ∧
      (OffsetsFit fbs n → FitsInt (DATA_POS fbs + ((n : Int) - 2) * CLUSTER_SIZE fbs) →
        processSubDirectoryPos fbs n = clusterPos fbs n) := by
  refine ⟨rfl, fun h => ROOTDIR_POS_exact fbs h, ?_, ?_⟩
  · intro h h2
    rw [DATA_POS_exact fbs h h2, ROOTDIR_POS_exact fbs h]
    rfl
  · intro n hn
    have hn0 : (n : Int) ≠ 0 := by omega
    have e : ∀ hfit : OffsetsFit fbs n,
        clusterPos fbs n = DATA_POS fbs + ((n : Int) - 2) * CLUSTER_SIZE fbs := by
      intro hfit
      rw [clusterPos_exact fbs n hfit, DATA_POS_exact fbs hfit.1 hfit.2.1]
      unfold clusterOffset dataClusterOffset
      rw [if_neg hn0]
    refine ⟨getFatDataBlockPos_eq_clusterPos fbs n hn0, e, ?_⟩
    intro hfit hall
    rw [e hfit]
    rw [DATA_POS_exact fbs hfit.1 hfit.2.1] at hall ⊢
    exact processSubDirectoryPos_exact fbs n hall

/-- Witness for C27: cluster 3 of the example FAT volume. -/
theorem offsets_agree_witness :
    2 ≤ 3 ∧ OffsetsFit demoFbs (3 : Nat) ∧
      FitsInt (DATA_POS demoFbs + (((3 : Nat) : Int) - 2) * CLUSTER_SIZE demoFbs) ∧
      clusterPos demoFbs (3 : Nat)
        = DATA_POS demoFbs + (((3 : Nat) : Int) - 2) * CLUSTER_SIZE demoFbs ∧
      processSubDirectoryPos demoFbs (3 : Nat) = clusterPos demoFbs (3 : Nat) ∧
      getFatDataBlockPos demoFbs (3 : Nat) = clusterPos demoFbs (3 : Nat) :=
  ⟨by decide, by unfold OffsetsFit FitsInt; decide!, by unfold FitsInt; decide!,
    ((offsets_agree demoFbs).2.2.2 3 (by decide)).2.1 (by unfold OffsetsFit FitsInt; decide!),
    ((offsets_agree demoFbs).2.2.2 3 (by decide)).2.2 (by unfold OffsetsFit FitsInt; decide!)
      (by unfold FitsInt; decide!),
    ((offsets_agree demoFbs).2.2.2 3 (by decide)).1⟩

/-! ## C28: `getFatName` -/

/-- What `removeTrailingSpace` does: the string is the result followed by spaces only, and
the result does not end with a space. -/
theorem removeTrailingSpace_spec (s : List Nat) :
    (∃ k, s = removeTrailingSpace s ++ List.replicate k 32) ∧
      (removeTrailingSpace s).getLast? ≠ some 32 := by
  unfold removeTrailingSpace
  constructor
  · refine ⟨(s.reverse.takeWhile (fun c => c == 32)).length, ?_⟩
    have hrep : s.reverse.takeWhile (fun c => c == 32)
        = List.replicate (s.reverse.takeWhile (fun c => c == 32)).length 32 := by
      apply List.eq_replicate_of_mem
      intro x hx
      have := List.mem_takeWhile_imp hx
      simpa using this
    have h := List.takeWhile_append_dropWhile (fun c => c == 32) s.reverse
    have h2 := congrArg List.reverse h
    rw [List.reverse_append, List.reverse_reverse] at h2
    have hT : (s.reverse.takeWhile (fun c => c == 32)).reverse
        = List.replicate (s.reverse.takeWhile (fun c => c == 32)).length 32 := by
      rw [hrep, List.reverse_replicate, List.length_replicate]
    rw [hT] at h2
    exact h2.symm
  · rw [List.getLast?_reverse]
    have h := List.head?_dropWhile_not (fun c => c == 32) s.reverse
    intro hc
    rw [hc] at h
    simp at h

theorem removeTrailingSpace_length (s : List Nat) : (removeTrailingSpace s).length ≤ s.length := by
  obtain ⟨⟨k, hk⟩, _⟩ := removeTrailingSpace_spec s
  have := congrArg List.length hk
  rw [List.length_append] at this
  omega

theorem cstr_no_nul (s : List Nat) (h : 0 ∉ s) : cstr s = s := by
  unfold cstr
  rw [List.takeWhile_eq_self_iff]
  intro x hx
  have : x ≠ 0 := fun he => h (he ▸ hx)
  simpa using this

theorem tolower_eq_space (c : Nat) : tolower c = 32 ↔ c = 32 := by
  unfold tolower
  split <;> omega
/-- C28: for a FAT directory entry whose 8 bytes of name and 3 bytes of extension hold no NUL,
`getFatName` yields the name without its trailing spaces (`n`: the name is `n` followed by
spaces only and `n` does not end with a space), followed by a dot and the extension without
its trailing spaces (`x`) when `x` is not empty, upper case letters turned to lower case; the
result has at most 12 characters and does not end with a space; the padded names `.` and `..`
give exactly `.` and `..`. -/
theorem getFatName_spec (e : Bytes) (hname : 0 ∉ (List.range 8).map e)
    (hext : 0 ∉ (List.range 3).map (fun j => e (8 + j))) :
    (∃ n x k1 k2, (List.range 8).map e = n ++ List.replicate k1 32 ∧ n.getLast? ≠ some 32 ∧
      (List.range 3).map (fun j => e (8 + j)) = x ++ List.replicate k2 32 ∧
      x.getLast? ≠ some 32 ∧
      getFatName e = (n ++ (if x ≠ [] then 46 :: x else [])).map tolower) ∧
    (getFatName e).length ≤ 12 ∧ (getFatName e).getLast? ≠ some 32 ∧
    ((List.range 11).map e = MSDOS_DOT → getFatName e = str ".") ∧
    ((List.range 11).map e = MSDOS_DOTDOT → getFatName e = str "..") := by
  obtain ⟨⟨k1, hk1⟩, hl1⟩ := removeTrailingSpace_spec ((List.range 8).map e)
  obtain ⟨⟨k2, hk2⟩, hl2⟩ := removeTrailingSpace_spec ((List.range 3).map (fun j => e (8 + j)))
  have hlen1 := removeTrailingSpace_length ((List.range 8).map e)
  have hlen2 := removeTrailingSpace_length ((List.range 3).map (fun j => e (8 + j)))
  simp only [List.length_map, List.length_range] at hlen1 hlen2
  have hdef : getFatName e
      = (removeTrailingSpace ((List.range 8).map e) ++
          (if removeTrailingSpace ((List.range 3).map (fun j => e (8 + j))) ≠ []
           then 46 :: removeTrailingSpace ((List.range 3).map (fun j => e (8 + j)))
           else [])).map tolower := by
    unfold getFatName
    rw [cstr_no_nul _ hname, cstr_no_nul _ hext]
  refine ⟨⟨_, _, k1, k2, hk1, hl1, hk2, hl2, hdef⟩, ?_, ?_, ?_, ?_⟩
  · rw [hdef, List.length_map, List.length_append]
    split
    · rw [List.length_cons]; omega
    · rw [List.length_nil]; omega
  · rw [hdef, List.getLast?_map, List.getLast?_append]
    by_cases hx : removeTrailingSpace ((List.range 3).map (fun j => e (8 + j))) = []
    · rw [if_neg (by simpa using hx)]
      simp only [List.getLast?_nil, Option.none_or]
      intro hc
      cases hg : (removeTrailingSpace ((List.range 8).map e)).getLast? with
      | none => rw [hg] at hc; simp at hc
      | some c =>
        rw [hg] at hc hl1
        simp only [Option.map_some', Option.some.injEq] at hc
        rw [tolower_eq_space] at hc
        exact hl1 (by rw [hc])
    · rw [if_pos hx]
      obtain ⟨c, rest, hcr⟩ := List.exists_cons_of_ne_nil hx
      have hlast : (46 :: removeTrailingSpace ((List.range 3).map (fun j => e (8 + j)))).getLast?
          = (removeTrailingSpace ((List.range 3).map (fun j => e (8 + j)))).getLast? := by
        rw [hcr, List.getLast?_cons_cons]
      rw [hlast]
      intro hc
      cases hg : (removeTrailingSpace ((List.range 3).map (fun j => e (8 + j)))).getLast? with
      | none =>
        rw [hcr] at hg
        simp at hg
      | some c2 =>
        rw [hg] at hc hl2
        simp only [Option.or, Option.map_some', Option.some.injEq] at hc
        rw [tolower_eq_space] at hc
        exact hl2 (by rw [hc])
  · intro h
    rw [getFatName_of_name e _ h]
    decide
  · intro h
    rw [getFatName_of_name e _ h]
    decide

/-- Witness for C28: the entry `B.TXT` and the entries `.` and `..` of the example FAT
volume. -/
theorem getFatName_spec_witness :
    0 ∉ (List.range 8).map demoBTxtEntry ∧ 0 ∉ (List.range 3).map (fun j => demoBTxtEntry (8 + j)) ∧
    (∃ n x k1 k2, (List.range 8).map demoBTxtEntry = n ++ List.replicate k1 32 ∧
      n.getLast? ≠ some 32 ∧
      (List.range 3).map (fun j => demoBTxtEntry (8 + j)) = x ++ List.replicate k2 32 ∧
      x.getLast? ≠ some 32 ∧
      getFatName demoBTxtEntry = (n ++ (if x ≠ [] then 46 :: x else [])).map tolower) ∧
    (getFatName demoBTxtEntry).length ≤ 12 ∧ (getFatName demoBTxtEntry).getLast? ≠ some 32 ∧
    getFatName demoBTxtEntry = str "b.txt" ∧
    (List.range 11).map demoDotEntry = MSDOS_DOT ∧ getFatName demoDotEntry = str "." ∧
    (List.range 11).map demoDotDotEntry = MSDOS_DOTDOT ∧ getFatName demoDotDotEntry = str ".." :=
  ⟨by decide!, by decide!,
    (getFatName_spec demoBTxtEntry (by decide!) (by decide!)).1,
    (getFatName_spec demoBTxtEntry (by decide!) (by decide!)).2.1,
    (getFatName_spec demoBTxtEntry (by decide!) (by decide!)).2.2.1,
    by decide!,
    by decide!,
    (getFatName_spec demoDotEntry (by decide!) (by decide!)).2.2.2.1 (by decide!),
    by decide!,
    (getFatName_spec demoDotDotEntry (by decide!) (by decide!)).2.2.2.2 (by decide!)⟩
/-! ## C29: `getFatDataBlock` -/

theorem followChain_chain (fatPtr : Nat → Nat) :
    ∀ (cs : List Nat), IsChain fatPtr cs → ∀ k,
      (∀ h : k < cs.length, followChain fatPtr k (cs.headD 0) = cs.get ⟨k, h⟩) ∧
      (cs.length ≤ k → followChain fatPtr k (cs.headD 0) = fatPtr 1) := by
  intro cs
  induction cs with
  | nil => intro h; exact absurd h (by simp [IsChain])
  | cons c rest ih =>
    intro hc k
    cases rest with
    | nil =>
      have hend : fatPtr c = fatPtr 1 := hc
      cases k with
      | zero =>
        refine ⟨fun _ => rfl, fun h => ?_⟩
        simp at h
      | succ k =>
        refine ⟨fun h => ?_, fun _ => ?_⟩
        · simp at h
        · show (if fatPtr c = fatPtr 1 then fatPtr c else followChain fatPtr k (fatPtr c)) = _
          rw [if_pos hend, hend]
    | cons c2 rest2 =>
      obtain ⟨h1, h2, h3⟩ := hc
      cases k with
      | zero =>
        refine ⟨fun _ => rfl, fun h => ?_⟩
        simp at h
      | succ k =>
        obtain ⟨i1, i2⟩ := ih h3 k
        have e : followChain fatPtr (k + 1) ((c :: c2 :: rest2).headD 0)
            = followChain fatPtr k ((c2 :: rest2).headD 0) := by
          show (if fatPtr c = fatPtr 1 then fatPtr c else followChain fatPtr k (fatPtr c)) = _
          rw [if_neg h1, h2]
          rfl
        refine ⟨fun h => ?_, fun h => ?_⟩
        · rw [e, i1 (by simpa using h)]
          rfl
        · rw [e]
          exact i2 (by simpa using h)

theorem chain_tail_ne (fatPtr : Nat → Nat) :
    ∀ (cs : List Nat), IsChain fatPtr cs → ∀ k (h : k + 1 < cs.length),
      cs.get ⟨k + 1, h⟩ ≠ fatPtr 1 := by
  intro cs
  induction cs with
  | nil => intro h; exact absurd h (by simp [IsChain])
  | cons c rest ih =>
    intro hc k h
    cases rest with
    | nil => simp at h
    | cons c2 rest2 =>
      obtain ⟨h1, h2, h3⟩ := hc
      cases k with
      | zero =>
        show c2 ≠ fatPtr 1
        rw [← h2]; exact h1
      | succ k =>
        exact ih h3 k (by simpa using h)

theorem chain_get_ne (fatPtr : Nat → Nat) (cs : List Nat) (hchain : IsChain fatPtr cs)
    (h0 : cs.headD 0 ≠ fatPtr 1) : ∀ k (h : k < cs.length), cs.get ⟨k, h⟩ ≠ fatPtr 1 := by
  intro k h
  cases k with
  | zero =>
    cases cs with
    | nil => simp at h
    | cons c rest => exact h0
  | succ k => exact chain_tail_ne fatPtr cs hchain k h
/-- C29, as stated, fails: with clusters of 64 KiB (`m = 64`), the chain that consists of
cluster 40000 alone and block number 0 (`0 / 64 < 1`), cluster 40000 lies within the volume of
4 GiB, yet `getFatDataBlock` returns `NULL`: the product `39998 * 65536` does not fit an
`int`, the offset sought is negative and `lseek` fails. -/
theorem getFatDataBlock_wraps :
    CLUSTER_SIZE bigClusterFbs = ((64 * 1024 : Nat) : Int) ∧
      endFat 40000 = endFat 1 ∧ 40000 ≠ endFat 1 ∧ 0 / 64 < [40000].length ∧
      dataRegionOffset bigClusterFbs + (40000 - 2) * CLUSTER_SIZE bigClusterFbs = 2621310464 ∧
      2621310464 + 65536 ≤ bigFatDev.size ∧
      getFatDataBlockPos bigClusterFbs 40000 = -1673656832 ∧
      (getFatDataBlock bigClusterFbs endFat bigFatDev 0 40000 freshBuf).2.isSome = false := by
  refine ⟨?_, ?_, ?_, ?_, ?_, ?_, ?_, ?_⟩ <;> decide!

/-- C29, amended: when the cluster size is `m * 1024` with `m > 0`, the links of the FAT from
the start cluster `c0` form a chain `c0, ..., c(n-1)` ending at the end-of-chain value
`fatPtr[1]`, and `c0` itself is not that value: for a block number `b` with `b / m < n`, when
the offset of cluster `c(b / m)` is computed without integer overflow and the cluster lies
within the volume, `getFatDataBlock` returns the block, which holds the 1024 bytes at offset
`(b mod m) * 1024` inside that cluster; for `b / m ≥ n` it returns `NULL`. -/
theorem getFatDataBlock_chain (fbs : FatBootSector) (fatPtr : Nat → Nat) (d : Dev)
    (cs : List Nat) (b m : Nat) (block : Bytes) (hm : 0 < m)
    (hcs : CLUSTER_SIZE fbs = ((m * 1024 : Nat) : Int)) (hchain : IsChain fatPtr cs)
    (h0 : cs.headD 0 ≠ fatPtr 1) :
    (∀ h : b / m < cs.length,
      OffsetsFit fbs (cs.get ⟨b / m, h⟩ : Nat) →
      0 ≤ dataClusterOffset fbs (cs.get ⟨b / m, h⟩ : Nat) →
      (dataClusterOffset fbs (cs.get ⟨b / m, h⟩ : Nat)).toNat + m * 1024 ≤ d.size →
      ∃ d2 blk, getFatDataBlock fbs fatPtr d b (cs.headD 0) block = (d2, some blk) ∧
        ∀ j, j < 1024 →
          blk j = d.data ((dataClusterOffset fbs (cs.get ⟨b / m, h⟩ : Nat)).toNat
            + (b % m) * 1024 + j)) ∧
    (cs.length ≤ b / m → getFatDataBlock fbs fatPtr d b (cs.headD 0) block = (d, none)) := by
  have hmult : (CLUSTER_SIZE fbs).tdiv ((BLOCK_SIZE : Nat) : Int) = ((m : Nat) : Int) := by
    rw [hcs, ← Int.ofNat_tdiv]
    unfold BLOCK_SIZE
    congr 1
    omega
  have hnum : ((b : Int).tdiv ((CLUSTER_SIZE fbs).tdiv ((BLOCK_SIZE : Nat) : Int))).toNat
      = b / m := by
    rw [hmult, ← Int.ofNat_tdiv, Int.toNat_ofNat]
  have hrem : ((b : Int).tmod ((CLUSTER_SIZE fbs).tdiv ((BLOCK_SIZE : Nat) : Int))).toNat
      = b % m := by
    rw [hmult, ← Int.ofNat_tmod, Int.toNat_ofNat]
  have hsize : (CLUSTER_SIZE fbs).toNat = m * 1024 := by
    rw [hcs, Int.toNat_ofNat]
  obtain ⟨f1, f2⟩ := followChain_chain fatPtr cs hchain (b / m)
  refine ⟨?_, ?_⟩
  · intro h hfit hpos hin
    have hc := f1 h
    have hne : cs.get ⟨b / m, h⟩ ≠ fatPtr 1 := chain_get_ne fatPtr cs hchain h0 (b / m) h
    have hexact := getFatDataBlockPos_exact fbs (cs.get ⟨b / m, h⟩ : Nat) hfit
    have hmin : min (m * 1024)
        (d.size - (dataClusterOffset fbs (cs.get ⟨b / m, h⟩ : Nat)).toNat) = m * 1024 := by
      omega
    have hm0 : m * 1024 > 0 := by omega
    have hlt : ∀ j, j < 1024 → b % m * 1024 + j < m * 1024 := by
      intro j hj
      have := Nat.mod_lt b hm
      have h2 : (b % m + 1) * 1024 ≤ m * 1024 := Nat.mul_le_mul_right _ (by omega)
      omega
    unfold getFatDataBlock
    rw [hnum, hrem, hsize, hc, if_neg hne, hexact]
    unfold sysLseek sysRead BLOCK_SIZE
    rw [if_neg (by omega)]
    dsimp only
    rw [if_neg (by omega), hmin, if_pos hm0]
    refine ⟨_, _, rfl, ?_⟩
    intro j hj
    rw [if_pos hj, if_pos (hlt j hj)]
    exact congrArg d.data (by omega)
  · intro h
    unfold getFatDataBlock
    rw [hnum, f2 h, if_pos rfl]

/-- Witness for C29, amended: clusters of 2048 bytes, the chain 3, 4, 5 of the example FAT,
block 1: the second half of cluster 3. -/
theorem getFatDataBlock_chain_witness :
    0 < 2 ∧ CLUSTER_SIZE twoBlockFbs = ((2 * 1024 : Nat) : Int) ∧ IsChain demoFat [3, 4, 5] ∧
    [3, 4, 5].headD 0 ≠ demoFat 1 ∧ 1 / 2 < [3, 4, 5].length ∧
    OffsetsFit twoBlockFbs (3 : Nat) ∧
    0 ≤ dataClusterOffset twoBlockFbs (3 : Nat) ∧
    (dataClusterOffset twoBlockFbs (3 : Nat)).toNat + 2 * 1024 ≤ demoFatDev.size ∧
    ∃ d2 blk, getFatDataBlock twoBlockFbs demoFat demoFatDev 1 ([3, 4, 5].headD 0) freshBuf
        = (d2, some blk) ∧
      ∀ j, j < 1024 →
        blk j = demoFatDev.data ((dataClusterOffset twoBlockFbs (3 : Nat)).toNat
          + (1 % 2) * 1024 + j) :=
  ⟨by decide, by decide!, demoFat_chain, by decide, by decide,
    by unfold OffsetsFit FitsInt; decide!, by decide!, by decide!,
    (getFatDataBlock_chain twoBlockFbs demoFat demoFatDev [3, 4, 5] 1 2 freshBuf (by decide)
      (by decide!) demoFat_chain (by decide)).1 (by decide) (by unfold OffsetsFit FitsInt; decide!)
      (by decide!) (by decide!)⟩

/-! ## C30: the first data zone and the inode table -/

/-- When the inode table fills whole blocks (`s_ninodes` a multiple of 32) and the super block
is consistent, a block returned by `findFreeDataBlock` starts at or after the end of the inode
table. -/
theorem findFreeDataBlock_after_itable (sb : MinixSuperBlock) (zmap : Bytes)
    (h1 : FIRSTZONE sb ≤ sb.s_nzones) (h2 : sb.s_nzones < 65536)
    (h32 : sb.s_ninodes % 32 = 0) (hok : (findFreeDataBlock sb zmap).1 ≠ ERR1) :
    ∃ r : Nat, (findFreeDataBlock sb zmap).1 = (r : Int) ∧
      (2 + sb.s_imap_blocks + sb.s_zmap_blocks) * 1024 + sb.s_ninodes * 32 ≤ r * 1024 := by
  have hlim := zoneScanLimit_eq sb h1 h2
  have hBle := scanBytes_le zmap (zoneScanLimit sb) 0
  have hKle := scanBits_le (zmap (scanBytes zmap (zoneScanLimit sb) 0)) 8 0
  have hFZ : FIRSTZONE sb * 1024
      = (2 + sb.s_imap_blocks + sb.s_zmap_blocks) * 1024 + sb.s_ninodes * 32 := by
    unfold FIRSTZONE NUMITABLEBLOCKS INODE_SIZE BLOCK_SIZE
    omega
  have hmod : (scanBytes zmap (zoneScanLimit sb) 0 * 8
      + scanBits (zmap (scanBytes zmap (zoneScanLimit sb) 0)) 8 0 + FIRSTZONE sb) % SIZE_T_MOD
      = scanBytes zmap (zoneScanLimit sb) 0 * 8
      + scanBits (zmap (scanBytes zmap (zoneScanLimit sb) 0)) 8 0 + FIRSTZONE sb := by
    apply Nat.mod_eq_of_lt
    have : (1048576 : Nat) < SIZE_T_MOD := by unfold SIZE_T_MOD; norm_num
    omega
  have hsmall := toInt_small (scanBytes zmap (zoneScanLimit sb) 0 * 8
      + scanBits (zmap (scanBytes zmap (zoneScanLimit sb) 0)) 8 0 + FIRSTZONE sb) (by omega)
  unfold findFreeDataBlock at hok ⊢
  simp only [hmod, hsmall] at hok ⊢
  by_cases hgt : ((scanBytes zmap (zoneScanLimit sb) 0 * 8
      + scanBits (zmap (scanBytes zmap (zoneScanLimit sb) 0)) 8 0 + FIRSTZONE sb : Nat) : Int)
        > (TOTALBLOCKS : Int)
  · rw [if_pos hgt] at hok
    exact absurd rfl hok
  · rw [if_neg hgt]
    exact ⟨_, rfl, by omega⟩

/-- Neither condition on the input can be dropped: with 40 inodes the inode table ends at byte
`(2 + 1 + 1) * 1024 + 40 * 32 = 5376`, and on a zone bitmap without any bit set
`findFreeDataBlock` returns block 5, whose first byte 5120 is the byte that `seekToInode`
addresses for inode 33: `NUMITABLEBLOCKS` rounds the 1.25 blocks of the inode table down
to 1. -/
theorem first_zone_overlaps_inode_table :
    NUMITABLEBLOCKS (smallSB 40 100) = 1 ∧ FIRSTZONE (smallSB 40 100) = 5 ∧
      (findFreeDataBlock (smallSB 40 100) freshBuf).1 = 5 ∧
      (2 + (smallSB 40 100).s_imap_blocks + (smallSB 40 100).s_zmap_blocks) * 1024
        + (smallSB 40 100).s_ninodes * 32 = 5376 ∧
      5 * 1024 < 5376 ∧
      (33 : Int) ≤ ((smallSB 40 100).s_ninodes : Nat) ∧
      inodePos (smallSB 40 100) 33 = 5 * 1024 ∧
      (seekToInode (smallSB 40 100) blankDev 33).1.pos = 5 * 1024 ∧
      (writeDataBlock (saveInode (smallSB 40 100) blankDev 33 (dirIno 64 2 7)).1 5 freshBuf).2
        = OK ∧
      (readInode (smallSB 40 100) (saveInode (smallSB 40 100) blankDev 33 (dirIno 64 2 7)).1 33
        uninitInode).2.2 = dirIno 64 2 7 ∧
      (readInode (smallSB 40 100)
        (writeDataBlock (saveInode (smallSB 40 100) blankDev 33 (dirIno 64 2 7)).1 5
          freshBuf).1 33 uninitInode).2.2 ≠ dirIno 64 2 7 := by
  refine ⟨by decide, by decide, by decide!, by decide, by decide, by decide, by decide!,
    by decide!, by decide!, by decide!, by decide!⟩
end Fat2Minix
